import Mathlib

/-!
# Verification of the memory-allocator and container core

A shallow embedding, in Lean 4, of the memory-management and container core of
the `fears` finite-element application skeleton:

* the low-level size arithmetic shared by both allocator backends
  (`SIZET_ALIGN_4`, `mem_size_safe_multiply`, alignment padding),
* the lockfree allocator backend (`memory_alloc_lockfree.cpp`),
* the guarded allocator backend (`memory_alloc_guarded.cpp`), including the
  tagged block headers, the live-block list and `check_memlist`,
* the leak detector (`MemLeakPrinter`),
* the open-addressing hash map (`HashMap.hpp`, `map_slots.hpp`, the CPython
  probing strategy) and the `VectorMap` built on top of it.

Machine integers are embedded as `Nat` with explicit reduction modulo `2 ^ 64`
(`size_t`, `uint64_t`) or `2 ^ 32` (`uint32_t`) at the points where the C code
can wrap.  Fallible operations return `Option`/`Except`.  Functions whose
bodies in the repository are `todo()` stubs are modelled from the prose
specification and carry a doc comment saying so.
-/

set_option maxRecDepth 4000

/-! ## Word-size constants and wrapping arithmetic

The target is an LP64 platform: `size_t` and `uint64_t` are 64 bits wide,
`uint32_t` is 32 bits, `sizeof(void *) = 8`.
-/

/-- Modulus of `size_t` / `uint64_t` arithmetic. -/
def u64Mod : Nat := 2 ^ 64

/-- Modulus of `uint32_t` arithmetic. -/
def u32Mod : Nat := 2 ^ 32

/-- `a - b` in `size_t` arithmetic (wraps around on underflow).
Used for the atomic fetch-and-sub on the byte counters. -/
def u64Sub (a b : Nat) : Nat := (a + (u64Mod - b % u64Mod)) % u64Mod

/-- `a - b` in `uint32_t` arithmetic (wraps around on underflow).
Used for the decrements of the 32-bit block counters. -/
def u32Sub (a b : Nat) : Nat := (a + (u32Mod - b % u32Mod)) % u32Mod

theorem u64Sub_eq_sub {a b : Nat} (hb : b ≤ a) (ha : a < u64Mod) :
    u64Sub a b = a - b := by
  have hm : (0 : Nat) < u64Mod := by norm_num [u64Mod]
  have hbm : b % u64Mod = b := Nat.mod_eq_of_lt (Nat.lt_of_le_of_lt hb ha)
  unfold u64Sub
  rw [hbm]
  have h1 : a + (u64Mod - b) = (a - b) + u64Mod := by omega
  rw [h1, Nat.add_mod_right]
  exact Nat.mod_eq_of_lt (by omega)

theorem u32Sub_eq_sub {a b : Nat} (hb : b ≤ a) (ha : a < u32Mod) :
    u32Sub a b = a - b := by
  have hm : (0 : Nat) < u32Mod := by norm_num [u32Mod]
  have hbm : b % u32Mod = b := Nat.mod_eq_of_lt (Nat.lt_of_le_of_lt hb ha)
  unfold u32Sub
  rw [hbm]
  have h1 : a + (u32Mod - b) = (a - b) + u32Mod := by omega
  rw [h1, Nat.add_mod_right]
  exact Nat.mod_eq_of_lt (by omega)

/-! ## Bit-mask helpers

Both backends mask `size_t` values with `~(size_t)3` and with
`SIZE_MAX << 32`.  The following window lemma characterises
`x & ((2^k - 1) << n)` (a mask of `k` one-bits starting at bit `n`)
arithmetically, so that concrete masks never have to be expanded bitwise.
-/

theorem and_mask_window (x k n : Nat) :
    x &&& ((2 ^ k - 1) <<< n) = x / 2 ^ n % 2 ^ k * 2 ^ n := by
  have hR : x / 2 ^ n % 2 ^ k * 2 ^ n = ((x >>> n) &&& (2 ^ k - 1)) <<< n := by
    rw [Nat.shiftRight_eq_div_pow, Nat.and_pow_two_sub_one_eq_mod, Nat.shiftLeft_eq]
  rw [hR]
  apply Nat.eq_of_testBit_eq
  intro i
  rw [Nat.testBit_and, Nat.testBit_shiftLeft, Nat.testBit_shiftLeft, Nat.testBit_and,
    Nat.testBit_shiftRight]
  rcases Nat.lt_or_ge i n with hi | hi
  · have : ¬ n ≤ i := Nat.not_le_of_lt hi
    simp [this]
  · have hni : n + (i - n) = i := by omega
    simp only [hi, Nat.testBit_two_pow_sub_one, hni]
    cases x.testBit i <;> cases (decide (i - n < k)) <;> simp

theorem and_not_three_eq (x : Nat) (hx : x < 2 ^ 64) :
    x &&& (2 ^ 64 - 4) = x / 4 * 4 := by
  have hmask : (2 : Nat) ^ 64 - 4 = (2 ^ 62 - 1) <<< 2 := by
    rw [Nat.shiftLeft_eq]
    norm_num
  rw [hmask, and_mask_window]
  have hdiv : x / 2 ^ 2 < 2 ^ 62 := by
    apply Nat.div_lt_of_lt_mul
    calc x < 2 ^ 64 := hx
      _ = 2 ^ 2 * 2 ^ 62 := by norm_num
  rw [Nat.mod_eq_of_lt hdiv]
  norm_num

/-! ## `SIZET_ALIGN_4`

`#define SIZET_ALIGN_4(len) ((len + 3) & ~(size_t)3)` rounds a requested
length up to the next multiple of 4 (with `size_t` wrap-around on `len + 3`).
On a 64-bit platform `~(size_t)3 = 2^64 - 4`.
-/

/-- `SIZET_ALIGN_4(len)`: round `len` up to a multiple of 4, in `size_t`
arithmetic. -/
def SIZET_ALIGN_4 (len : Nat) : Nat := ((len + 3) % u64Mod) &&& (u64Mod - 4)

theorem SIZET_ALIGN_4_eq (len : Nat) :
    SIZET_ALIGN_4 len = (len + 3) % u64Mod / 4 * 4 := by
  unfold SIZET_ALIGN_4 u64Mod
  exact and_not_three_eq _ (Nat.mod_lt _ (by norm_num))

theorem SIZET_ALIGN_4_of_small {len : Nat} (h : len + 3 < u64Mod) :
    SIZET_ALIGN_4 len = (len + 3) / 4 * 4 := by
  rw [SIZET_ALIGN_4_eq, Nat.mod_eq_of_lt h]

theorem SIZET_ALIGN_4_mod_four (len : Nat) : SIZET_ALIGN_4 len % 4 = 0 := by
  rw [SIZET_ALIGN_4_eq]
  exact Nat.mul_mod_left _ _

theorem SIZET_ALIGN_4_lt (len : Nat) : SIZET_ALIGN_4 len < u64Mod := by
  rw [SIZET_ALIGN_4_eq]
  have h1 : (len + 3) % u64Mod < u64Mod := Nat.mod_lt _ (by norm_num [u64Mod])
  have h2 : (len + 3) % u64Mod / 4 * 4 ≤ (len + 3) % u64Mod :=
    Nat.div_mul_le_self _ _
  omega

/-! ## `mem_size_safe_multiply`

```cpp
static inline bool mem_size_safe_multiply(size_t a, size_t b, size_t *result) {
  const size_t high_bits = SIZE_MAX << (sizeof(size_t) * 8 / 2);
  *result = a * b;
  if (UNLIKELY(*result == 0)) {
    return (a == 0 || b == 0);
  }
  return ((high_bits & (a | b)) == 0 || (*result / b == a));
}
```
The embedding returns the pair `(return value, *result)`.
-/

/-- `SIZE_MAX << 32` in `size_t` arithmetic: a `size_t` with its high-half
bits all set to 1. -/
def high_bits : Nat := ((u64Mod - 1) <<< 32) % u64Mod

/-- `mem_size_safe_multiply(a, b, &result)`, returning
`(return value, result)`. -/
def mem_size_safe_multiply (a b : Nat) : Bool × Nat :=
  if a * b % u64Mod = 0 then
    (decide (a = 0) || decide (b = 0), a * b % u64Mod)
  else
    (decide (high_bits &&& (a ||| b) = 0) || decide (a * b % u64Mod / b = a),
      a * b % u64Mod)

theorem high_bits_eq : high_bits = (2 ^ 32 - 1) <<< 32 := by
  unfold high_bits u64Mod
  rw [Nat.shiftLeft_eq, Nat.shiftLeft_eq]
  norm_num

theorem high_bits_and_eq_zero_iff {x : Nat} (hx : x < 2 ^ 64) :
    high_bits &&& x = 0 ↔ x < 2 ^ 32 := by
  rw [high_bits_eq, Nat.and_comm, and_mask_window]
  have hdiv : x / 2 ^ 32 < 2 ^ 32 := by
    apply Nat.div_lt_of_lt_mul
    calc x < 2 ^ 64 := hx
      _ = 2 ^ 32 * 2 ^ 32 := by norm_num
  rw [Nat.mod_eq_of_lt hdiv]
  constructor
  · intro h
    have h0 : x / 2 ^ 32 = 0 := by
      rcases Nat.mul_eq_zero.mp h with h0 | h0
      · exact h0
      · exfalso
        exact absurd h0 (by positivity)
    have := (Nat.div_eq_zero_iff (by positivity)).mp h0
    exact this
  · intro h
    rw [Nat.div_eq_of_lt h]
    simp

theorem le_left_of_or_lt_two_pow {a b n : Nat} (h : a ||| b < 2 ^ n) :
    a < 2 ^ n ∧ b < 2 ^ n := by
  constructor <;> apply Nat.lt_pow_two_of_testBit <;> intro i hi
  · have hor : (a ||| b).testBit i = false :=
      Nat.testBit_lt_two_pow
        (Nat.lt_of_lt_of_le h (Nat.pow_le_pow_right (by norm_num) hi))
    rw [Nat.testBit_or] at hor
    exact (Bool.or_eq_false_iff.mp hor).1
  · have hor : (a ||| b).testBit i = false :=
      Nat.testBit_lt_two_pow
        (Nat.lt_of_lt_of_le h (Nat.pow_le_pow_right (by norm_num) hi))
    rw [Nat.testBit_or] at hor
    exact (Bool.or_eq_false_iff.mp hor).2

theorem mem_size_safe_multiply_result {a b : Nat} :
    (mem_size_safe_multiply a b).2 = a * b % u64Mod := by
  unfold mem_size_safe_multiply
  by_cases h : a * b % u64Mod = 0
  · rw [if_pos h]
  · rw [if_neg h]

theorem mem_size_safe_multiply_flag {a b : Nat}
    (ha : a < u64Mod) (hb : b < u64Mod) :
    (mem_size_safe_multiply a b).1 = true ↔ a * b < u64Mod := by
  unfold mem_size_safe_multiply
  simp only [u64Mod] at *
  by_cases hres : a * b % 2 ^ 64 = 0
  · rw [if_pos hres]
    simp only [Bool.or_eq_true, decide_eq_true_eq]
    constructor
    · rintro (h0 | h0) <;> rw [h0] <;> simp <;> norm_num
    · intro hlt
      have hz : a * b = 0 := by
        have := Nat.mod_eq_of_lt hlt
        omega
      exact Nat.mul_eq_zero.mp hz
  · rw [if_neg hres]
    simp only [Bool.or_eq_true, decide_eq_true_eq]
    have hbpos : 0 < b := by
      rcases Nat.eq_zero_or_pos b with h0 | h0
      · exfalso; apply hres; rw [h0]; simp
      · exact h0
    constructor
    · rintro (h0 | h0)
      · have hor : a ||| b < 2 ^ 64 := Nat.or_lt_two_pow ha hb
        have hsmall : a ||| b < 2 ^ 32 := by
          have := (high_bits_and_eq_zero_iff hor).mp h0
          exact this
        obtain ⟨ha32, hb32⟩ := le_left_of_or_lt_two_pow hsmall
        calc a * b ≤ a * 2 ^ 32 := Nat.mul_le_mul_left a (Nat.le_of_lt hb32)
          _ < 2 ^ 32 * 2 ^ 32 := by
              apply Nat.mul_lt_mul_of_lt_of_le ha32 (Nat.le_refl _)
              positivity
          _ = 2 ^ 64 := by norm_num
      · by_contra hge
        have hge' : 2 ^ 64 ≤ a * b := Nat.ge_of_not_lt hge
        have hlt : a * b % 2 ^ 64 < 2 ^ 64 := Nat.mod_lt _ (by norm_num)
        have h2 : a * b ≤ a * b % 2 ^ 64 := by
          calc a * b = a * b % 2 ^ 64 / b * b := by rw [h0]
            _ ≤ a * b % 2 ^ 64 := Nat.div_mul_le_self _ _
        omega
    · intro hlt
      right
      rw [Nat.mod_eq_of_lt hlt, Nat.mul_div_cancel _ hbpos]

/-! The array-allocation entry points of the guarded backend wrap
`mem_size_safe_multiply` and call `abort()` on overflow:

```cpp
void *mem_guarded_malloc_array(size_t len, size_t size, const char *str) {
  size_t total_size;
  if (UNLIKELY(!mem_size_safe_multiply(len, size, &total_size))) {
    print_error(...);
    abort();
    return nullptr;
  }
  return mem_guarded_malloc(total_size, str);
}
```
We model only the control flow deciding between `abort()` and the size
forwarded to `mem_guarded_malloc`; the allocation itself is modelled later.
-/

/-- Outcome of `mem_guarded_malloc_array`: either the process aborts after the
overflow diagnostic, or `mem_guarded_malloc` is called with the computed total
size. -/
def mem_guarded_malloc_array_size (len size : Nat) : Except Unit Nat :=
  let r := mem_size_safe_multiply len size
  if r.1 then Except.ok r.2 else Except.error ()

/-- C10 — `mem_size_safe_multiply(a, b, &result)` stores `a * b mod 2^64` and
returns `true` iff the mathematical product is representable in `size_t`
(in particular whenever `a` or `b` is zero), and consequently
`mem_guarded_malloc_array(len, size, str)` aborts exactly when `len * size`
overflows and otherwise allocates exactly `len * size` bytes, never a
wrapped-around smaller size. -/
theorem C10_safe_multiply_overflow_guard {a b : Nat}
    (ha : a < u64Mod) (hb : b < u64Mod) :
    (mem_size_safe_multiply a b).2 = a * b % u64Mod ∧
    ((mem_size_safe_multiply a b).1 = true ↔ a * b < u64Mod) ∧
    ((a = 0 ∨ b = 0) → (mem_size_safe_multiply a b).1 = true) ∧
    (mem_guarded_malloc_array_size a b = Except.error () ↔ ¬ a * b < u64Mod) ∧
    (∀ n, mem_guarded_malloc_array_size a b = Except.ok n → n = a * b) := by
  have h1 : (mem_size_safe_multiply a b).2 = a * b % u64Mod :=
    mem_size_safe_multiply_result
  have h2 := mem_size_safe_multiply_flag ha hb
  refine ⟨h1, h2, ?_, ?_, ?_⟩
  · intro h0
    apply h2.mpr
    rcases h0 with h0 | h0 <;> rw [h0] <;> simp <;> norm_num [u64Mod]
  · unfold mem_guarded_malloc_array_size
    by_cases hok : (mem_size_safe_multiply a b).1 = true
    · simp only [hok, if_pos]
      constructor
      · intro h; exact absurd h (by simp)
      · intro h; exact absurd (h2.mp hok) h
    · have hnlt : ¬ a * b < u64Mod := fun hlt => hok (h2.mpr hlt)
      simp only [Bool.not_eq_true] at hok
      simp only [hok]
      simp [hnlt]
  · intro n hn
    unfold mem_guarded_malloc_array_size at hn
    by_cases hok : (mem_size_safe_multiply a b).1 = true
    · simp only [hok, if_pos] at hn
      have hlt := h2.mp hok
      rw [h1, Nat.mod_eq_of_lt hlt] at hn
      injection hn with hn
      omega
    · simp only [Bool.not_eq_true] at hok
      simp [hok] at hn

/-- Witness for C10 at `a = 3`, `b = 5` (no overflow): all hypotheses are
discharged on concrete input. -/
theorem C10_safe_multiply_overflow_guard_witness :
    (mem_size_safe_multiply 3 5).2 = 3 * 5 % u64Mod ∧
    ((mem_size_safe_multiply 3 5).1 = true ↔ 3 * 5 < u64Mod) ∧
    ((3 = 0 ∨ 5 = 0) → (mem_size_safe_multiply 3 5).1 = true) ∧
    (mem_guarded_malloc_array_size 3 5 = Except.error () ↔ ¬ 3 * 5 < u64Mod) ∧
    (∀ n, mem_guarded_malloc_array_size 3 5 = Except.ok n → n = 3 * 5) :=
  C10_safe_multiply_overflow_guard (by norm_num [u64Mod]) (by norm_num [u64Mod])

/-! ## The CPython probing strategy (`probing_strategy.hpp`)

```cpp
template<uint_fast64_t LinearSteps = 1, bool PreShuffle = false>
class PythonProbingStrategy {
  uint64_t hash_;
  uint64_t perturb_;
 public:
  PythonProbingStrategy(const uint64_t hash) : hash_(hash), perturb_(hash) {}
  void next() { perturb_ >>= 5; hash_ = 5 * hash_ + 1 + perturb_; }
  uint64_t get() const { return hash_; }
  int64_t linear_steps() const { return LinearSteps; }
};
using DefaultProbingStrategy = PythonProbingStrategy<>;
```

The `SLOT_PROBING_BEGIN`/`SLOT_PROBING_END` macro pair iterates, per probing
round, over `(current_hash + linear_offset) & MASK` for
`linear_offset = 0 .. linear_steps() - 1` and then calls `next()`.  `PreShuffle`
is `false` for the default strategy, so the constructor does not call `next()`.
The template parameter `LinearSteps` is the `L` argument below.
-/

structure PythonProbingStrategy where
  hash_ : Nat
  perturb_ : Nat

/-- The constructor `PythonProbingStrategy(hash)` with `PreShuffle = false`. -/
def PythonProbingStrategy.init (hash : Nat) : PythonProbingStrategy :=
  { hash_ := hash, perturb_ := hash }

/-- `next()`: `perturb_ >>= 5; hash_ = 5 * hash_ + 1 + perturb_;` in
`uint64_t` arithmetic. -/
def PythonProbingStrategy.next (s : PythonProbingStrategy) : PythonProbingStrategy :=
  { hash_ := (5 * s.hash_ + 1 + s.perturb_ >>> 5) % u64Mod
    perturb_ := s.perturb_ >>> 5 }

/-- `get()`. -/
def PythonProbingStrategy.get (s : PythonProbingStrategy) : Nat := s.hash_

/-- The strategy state at the beginning of probing round `r` for initial
hash `h`. -/
def probingState (h : Nat) : Nat → PythonProbingStrategy
  | 0 => PythonProbingStrategy.init h
  | r + 1 => (probingState h r).next

/-- Small-step interpretation of the `SLOT_PROBING_BEGIN` / `SLOT_PROBING_END`
loop: `probeStreamAux s mask L offset n` is the slot index visited `n`
iterations after the iteration at linear offset `offset` of the round whose
strategy state is `s`. -/
def probeStreamAux (s : PythonProbingStrategy) (mask L : Nat) :
    Nat → Nat → Nat
  | offset, 0 => (s.get + offset) &&& mask
  | offset, n + 1 =>
    if offset + 1 < L then probeStreamAux s mask L (offset + 1) n
    else probeStreamAux s.next mask L 0 n

/-- The `n`-th slot index visited by the probing loop for hash `h`,
mask `mask` and `LinearSteps = L`. -/
def probeVisit (h mask L n : Nat) : Nat :=
  probeStreamAux (PythonProbingStrategy.init h) mask L 0 n

theorem probingState_hash (h r : Nat) :
    probingState h (r + 1) = (probingState h r).next := rfl

theorem probeStreamAux_closed (mask L : Nat) (hL : 0 < L) :
    ∀ (n : Nat) (s : PythonProbingStrategy) (offset : Nat), offset < L →
      probeStreamAux s mask L offset n =
        ((PythonProbingStrategy.next)^[(offset + n) / L] s).get
          + (offset + n) % L &&& mask := by
  intro n
  induction n with
  | zero =>
    intro s offset hoff
    unfold probeStreamAux
    rw [Nat.add_zero, Nat.div_eq_of_lt hoff, Nat.mod_eq_of_lt hoff]
    rfl
  | succ n ih =>
    intro s offset hoff
    unfold probeStreamAux
    by_cases hnext : offset + 1 < L
    · rw [if_pos hnext, ih s (offset + 1) hnext]
      have : offset + 1 + n = offset + (n + 1) := by omega
      rw [this]
    · rw [if_neg hnext]
      have hoffL : offset + 1 = L := by omega
      have hpos : offset + (n + 1) = L + n := by omega
      rw [ih s.next 0 hL]
      rw [hpos]
      have hdiv : (L + n) / L = n / L + 1 := by
        rw [Nat.add_comm L n, Nat.add_div_right _ hL]
      have hmod : (L + n) % L = n % L := by
        rw [Nat.add_comm L n, Nat.add_mod_right]
      rw [hdiv, hmod, Nat.zero_add, Function.iterate_succ_apply]

theorem probingState_eq_iterate (h : Nat) :
    ∀ r, probingState h r =
      (PythonProbingStrategy.next)^[r] (PythonProbingStrategy.init h) := by
  intro r
  induction r with
  | zero => rfl
  | succ r ih =>
    rw [Function.iterate_succ_apply']
    show (probingState h r).next = _
    rw [ih]

theorem probingState_perturb (h : Nat) :
    ∀ r, (probingState h r).perturb_ = h >>> (5 * r) := by
  intro r
  induction r with
  | zero => simp [probingState, PythonProbingStrategy.init]
  | succ r ih =>
    show (probingState h r).next.perturb_ = _
    unfold PythonProbingStrategy.next
    simp only [ih]
    have : 5 * (r + 1) = 5 * r + 5 := by omega
    rw [this, Nat.shiftRight_add]

/-- C7 — the default probing strategy starts at `h & m`, visits
`(current_hash + offset) & m` for `offset = 0 .. LinearSteps - 1` inside each
round, and advances between rounds by `perturb >>= 5` followed by
`hash = 5 * hash + 1 + perturb` in `uint64_t` arithmetic (so that the
perturbation after `r` rounds is `h >> 5r`), deterministically. -/
theorem C7_probing_sequence (h mask L : Nat) (hL : 0 < L) :
    probeVisit h mask L 0 = h &&& mask ∧
    (∀ r o, o < L →
      probeVisit h mask L (r * L + o) = (probingState h r).get + o &&& mask) ∧
    (∀ r, (probingState h r).perturb_ = h >>> (5 * r)) ∧
    (∀ r, (probingState h (r + 1)).perturb_ = (probingState h r).perturb_ >>> 5) ∧
    (∀ r, (probingState h (r + 1)).hash_ =
      (5 * (probingState h r).hash_ + 1 + (probingState h r).perturb_ >>> 5) % u64Mod) := by
  refine ⟨?_, ?_, probingState_perturb h, fun r => rfl, fun r => rfl⟩
  · unfold probeVisit probeStreamAux
    rw [Nat.add_zero]
    rfl
  · intro r o ho
    unfold probeVisit
    rw [probeStreamAux_closed mask L hL _ _ 0 hL, Nat.zero_add]
    have hdiv : (r * L + o) / L = r := by
      rw [Nat.mul_comm r L, Nat.mul_add_div hL]
      rw [Nat.div_eq_of_lt ho, Nat.add_zero]
    have hmod : (r * L + o) % L = o := by
      rw [Nat.add_comm, Nat.add_mul_mod_self_right]
      exact Nat.mod_eq_of_lt ho
    rw [hdiv, hmod, ← probingState_eq_iterate]

/-- Witness for C7 at `h = 12345`, `mask = 7`, `LinearSteps = 1`:
`0 < 1` holds and the sequence starts at `12345 & 7` and matches the round-2
state. -/
theorem C7_probing_sequence_witness :
    probeVisit 12345 7 1 0 = 12345 &&& 7 ∧
    probeVisit 12345 7 1 (2 * 1 + 0) = (probingState 12345 2).get + 0 &&& 7 := by
  refine ⟨(C7_probing_sequence 12345 7 1 (by decide)).1, ?_⟩
  exact (C7_probing_sequence 12345 7 1 (by decide)).2.1 2 0 (by decide)

/-! ## Allocation types and the guarded backend (`memory_alloc_guarded.cpp`)

The guarded backend's `MemHead` is

```cpp
struct MemHead {
  int tag1;
  size_t len;
  MemHead *next, *prev;
  const char *name;
  const char *next_name;
  int tag2;
  uint16_t flag;
  uint16_t alignment;
};
typedef MemHead MemHeadAligned;
struct MemTail { int tag3, pad; };
```

On LP64 its `sizeof` is 56 (offsets 0/8/16/24/32/40/48/52/54, padded to 56).
The embedding models the heap as a finite map from *user* pointers (the
addresses handed out to callers, one `MemHead` past the header) to the header
and tail contents the C code reads and writes through pointer arithmetic.
The `name` tag string is modelled as a numeric identifier; the `next_name`
diagnostic cache (only ever printed) is not tracked, and the error log below
records which diagnostic was printed at each code point that calls
`print_memory_error` / `report_error_on_address`.
-/

/-- `internal::AllocationType`. -/
inductive AllocationType where
  | ALLOC_FREE
  | NEW_DELETE
deriving DecidableEq, Repr

/-- `#define MAKE_ID(a, b, c, d) (int(d) << 24 | int(c) << 16 | (b) << 8 | (a))` -/
def MAKE_ID (a b c d : Nat) : Nat := d <<< 24 ||| c <<< 16 ||| b <<< 8 ||| a

/-- `MAKE_ID('M', 'E', 'M', 'O')` -/
def MEMTAG1 : Nat := MAKE_ID 77 69 77 79

/-- `MAKE_ID('R', 'Y', 'B', 'L')` -/
def MEMTAG2 : Nat := MAKE_ID 82 89 66 76

/-- `MAKE_ID('O', 'C', 'K', '!')` -/
def MEMTAG3 : Nat := MAKE_ID 79 67 75 33

/-- `MAKE_ID('F', 'R', 'E', 'E')` -/
def MEMFREE : Nat := MAKE_ID 70 82 69 69

/-- `sizeof(MemHead)` = `sizeof(MemHeadAligned)` of the guarded backend. -/
def sizeofGMemHead : Nat := 56

/-- `sizeof(MemHead)` of the lockfree backend (`struct MemHead { size_t len; }`). -/
def sizeofLfMemHead : Nat := 8

/-- `sizeof(MemHeadAligned)` of the lockfree backend
(`struct MemHeadAligned { uint16_t alignment; size_t len; }`, padded to 16). -/
def sizeofLfMemHeadAligned : Nat := 16

/-- `#define ALIGNED_ALLOC_MINIMUM_ALIGNMENT sizeof(void *)` -/
def ALIGNED_ALLOC_MINIMUM_ALIGNMENT : Nat := 8

/-- `#define MEMHEAD_ALIGN_PADDING(alignment)
((size_t)alignment - (sizeof(MemHeadAligned) % (size_t)alignment))`,
parameterised by the relevant `sizeof(MemHeadAligned)`. -/
def MEMHEAD_ALIGN_PADDING (sizeofHead alignment : Nat) : Nat :=
  alignment - sizeofHead % alignment

/-- Both `malloc_aligned` entry points raise the requested alignment to the
backend minimum:
```cpp
if (alignment < ALIGNED_ALLOC_MINIMUM_ALIGNMENT) {
  alignment = ALIGNED_ALLOC_MINIMUM_ALIGNMENT;
}
``` -/
def raisedAlignment (alignment : Nat) : Nat :=
  if alignment < ALIGNED_ALLOC_MINIMUM_ALIGNMENT then ALIGNED_ALLOC_MINIMUM_ALIGNMENT
  else alignment

/-- `#define IS_POW2(a) (((a) & ((a) - 1)) == 0)` (with `size_t` wrap-around
on `a - 1`; for `a = 0` both the C expression and this one yield `true`). -/
def IS_POW2 (a : Nat) : Bool := a &&& (a - 1) == 0

/-- The header and tail words of one guarded block, as read/written through
the user pointer. `flag` is kept as the single bit the code tests
(`MEMHEAD_FLAG_FROM_CPP_NEW`). -/
structure GMemBlock where
  tag1 : Nat
  tag2 : Nat
  tag3 : Nat
  len : Nat
  name : Nat
  fromCppNew : Bool
  alignment : Nat
deriving DecidableEq, Repr

/-- Diagnostics printed by the guarded backend.  One entry is appended per
`print_error` / `print_memory_error` / `report_error_on_address` call site in
the modelled control flow; the exact message strings (which may also depend on
the cached `next_name` fields) are not distinguished beyond the call site. -/
inductive GuardedError where
  | allocReturnsNull
  | freeNullPtr
  | freeIllegalPtr
  | freeWrongAPI
  | doubleFree
  | freeAfterLeakDetection
  | endCorrupt
  | headerError
deriving DecidableEq, Repr

/-- The process-wide state of the guarded backend: the readable block
headers (`heap`), the `membase` list in order from `first` to `last`
(`memlist`), the `tot_block` / `mem_in_use` / `peak_mem` counters, the
diagnostics printed so far, the addresses actually returned to the system
allocator via `free` / `aligned_free`, and the leak-detector flag. -/
structure GuardedState where
  heap : List (Nat × GMemBlock)
  memlist : List Nat
  tot_block : Nat
  mem_in_use : Nat
  peak_mem : Nat
  errors : List GuardedError
  sysFreed : List Nat
  leakDetectorHasRun : Bool
deriving Repr

/-- The initial guarded state (all statics zero-initialised). -/
def GuardedState.init : GuardedState :=
  { heap := [], memlist := [], tot_block := 0, mem_in_use := 0, peak_mem := 0
    errors := [], sysFreed := [], leakDetectorHasRun := false }

/-- Lookup in an association list keyed by addresses (the reading of a block
header at a given address). -/
def assocLookup {β : Type} (l : List (Nat × β)) (a : Nat) : Option β :=
  (l.find? (fun p => p.1 == a)).map (fun p => p.2)

def heapLookup (heap : List (Nat × GMemBlock)) (a : Nat) : Option GMemBlock :=
  assocLookup heap a

def heapUpdate (heap : List (Nat × GMemBlock)) (a : Nat) (b : GMemBlock) :
    List (Nat × GMemBlock) :=
  heap.map (fun p => if p.1 = a then (a, b) else p)

/-- `make_memhead_header(memh, len, str, allocation_type)`: stamp the tags,
length, name and flag, write the tail tag, bump `tot_block` (atomic u32) and
`mem_in_use` (atomic size_t), link the block at the tail of `membase`, and
update `peak_mem`.  `userPtr` is the address `memh + 1` that the caller will
return. -/
def make_memhead_header (st : GuardedState) (userPtr len name : Nat)
    (allocation_type : AllocationType) : GuardedState :=
  let block : GMemBlock :=
    { tag1 := MEMTAG1, tag2 := MEMTAG2, tag3 := MEMTAG3, len := len
      name := name
      fromCppNew := allocation_type = AllocationType.NEW_DELETE
      alignment := 0 }
  let mem_in_use := (st.mem_in_use + len) % u64Mod
  { st with
    heap := st.heap ++ [(userPtr, block)]
    memlist := st.memlist ++ [userPtr]
    tot_block := (st.tot_block + 1) % u32Mod
    mem_in_use := mem_in_use
    peak_mem := if mem_in_use > st.peak_mem then mem_in_use else st.peak_mem }

/-- `mem_guarded_malloc(len, str)`.  `sysRaw` is the address returned by the
system `malloc` for `len + sizeof(MemHead) + sizeof(MemTail)` bytes (`none`
models allocation failure).  Returns the user pointer (or `none`) and the new
state. -/
def mem_guarded_malloc (st : GuardedState) (len name : Nat)
    (sysRaw : Option Nat) : Option Nat × GuardedState :=
  let len4 := SIZET_ALIGN_4 len
  match sysRaw with
  | none => (none, { st with errors := st.errors ++ [GuardedError.allocReturnsNull] })
  | some raw =>
    let user := raw + sizeofGMemHead
    (some user, make_memhead_header st user len4 name AllocationType.ALLOC_FREE)

/-- `mem_guarded_calloc(len, str)`: identical bookkeeping to
`mem_guarded_malloc` (the zero-initialisation of the payload is not part of
the modelled state). -/
def mem_guarded_calloc (st : GuardedState) (len name : Nat)
    (sysRaw : Option Nat) : Option Nat × GuardedState :=
  mem_guarded_malloc st len name sysRaw

/-- `mem_guarded_malloc_aligned(len, alignment, str, allocation_type)`.
The two `assert`s on the alignment are modelled as `Except.error`.
`sysRaw` is the address returned by `aligned_alloc` (`none` = failure). -/
def mem_guarded_malloc_aligned (st : GuardedState) (len alignment name : Nat)
    (allocation_type : AllocationType) (sysRaw : Option Nat) :
    Except Unit (Option Nat × GuardedState) :=
  if ¬ (alignment < 1024) then Except.error ()
  else if ¬ (IS_POW2 alignment = true) then Except.error ()
  else
    let alignment := raisedAlignment alignment
    let extra_padding := MEMHEAD_ALIGN_PADDING sizeofGMemHead alignment
    let len4 := SIZET_ALIGN_4 len
    match sysRaw with
    | none =>
      Except.ok (none, { st with errors := st.errors ++ [GuardedError.allocReturnsNull] })
    | some raw =>
      let user := raw + extra_padding + sizeofGMemHead
      let st := make_memhead_header st user len4 name allocation_type
      -- `memh->alignment = uint16_t(alignment);` directly after the header stamp
      let st :=
        match heapLookup st.heap user with
        | some b => { st with heap := heapUpdate st.heap user { b with alignment := alignment } }
        | none => st
      Except.ok (some user, st)

/-- Tag test applied by the `check_memlist` walks: `tag1 != MEMTAG1 ||
tag2 != MEMTAG2` stops a walk.  An address whose header is not mapped in the
model is treated as failing the test (reading it would be undefined behaviour
in C; in every state reachable through the API all listed blocks are mapped). -/
def blockTagsOk (st : GuardedState) (a : Nat) : Bool :=
  match heapLookup st.heap a with
  | some b => b.tag1 == MEMTAG1 && b.tag2 == MEMTAG2
  | none => false

/-- Result of `check_memlist`:
* `spliced` — the target block was found and unlinked from the list; the
  returned name is non-null (`forwok->next_name` or `"No name found"`),
* `moreThanOne` — two different blocks with corrupt headers were found from
  the two ends; the special string is returned, list unchanged,
* `additionalError` — the single corrupt-header block found from both ends is
  not the target; `"Additional error in header"` is printed and returned,
* `notInList` — all headers are fine but the target is not on the list;
  `nullptr` is returned. -/
inductive CheckResult where
  | spliced
  | moreThanOne
  | additionalError
  | notInList
deriving DecidableEq, Repr

/-- `check_memlist(memh)`: walk the list forward and backward while the
header tags are intact; if the two walks stop at different blocks report
`MORE THAN 1 MEMORYBLOCK CORRUPT`; if both run through cleanly, search for
the target and, when found, splice it out of the list (`forwok->next =
backok`, mirrored on `prev`, with the end pointers adjusted); if the single
corrupt block is the target, splice it out likewise; otherwise report an
additional header error.  Since the walks only pass blocks with intact
headers, a successful splice always removes exactly the target block, which
on the list model is `List.erase`. -/
def check_memlist (st : GuardedState) (target : Nat) : List Nat × CheckResult :=
  let l := st.memlist
  let okPrefix := l.takeWhile (blockTagsOk st)
  let forw : Option Nat := (l.drop okPrefix.length).head?
  let okSuffixRev := l.reverse.takeWhile (blockTagsOk st)
  let back : Option Nat := (l.reverse.drop okSuffixRev.length).head?
  if forw ≠ back then (l, CheckResult.moreThanOne)
  else
    match forw with
    | none =>
      if target ∈ l then (l.erase target, CheckResult.spliced)
      else (l, CheckResult.notInList)
    | some b =>
      if b = target then (l.erase target, CheckResult.spliced)
      else (l, CheckResult.additionalError)

/-- `mem_guarded_free(mem, allocation_type)`.  Returns `none` only when the
pointer is non-null, 8-byte aligned, but its header is not mapped in the
model (the C code would read unmapped memory there).  All other paths are
modelled exactly, including the final `tot_block--;` that is reached on the
two corrupt-block paths but not on the early `return`s.  The success path
marks the three tags `MEMFREE`, unlinks the block and decrements both
counters — and releases nothing to the system allocator (`sysFreed` is
untouched; the code has no `free` / `aligned_free` call). -/
def mem_guarded_free (st : GuardedState) (mem : Nat)
    (allocation_type : AllocationType) : Option GuardedState :=
  if mem = 0 then
    some { st with errors := st.errors ++ [GuardedError.freeNullPtr] }
  else if mem % 8 ≠ 0 then
    some { st with errors := st.errors ++ [GuardedError.freeIllegalPtr] }
  else
    match heapLookup st.heap mem with
    | none => none
    | some b =>
      let st :=
        if allocation_type ≠ AllocationType.NEW_DELETE ∧ b.fromCppNew then
          { st with errors := st.errors ++ [GuardedError.freeWrongAPI] }
        else st
      if b.tag1 = MEMFREE ∧ b.tag2 = MEMFREE then
        some { st with errors := st.errors ++ [GuardedError.doubleFree] }
      else if b.tag1 = MEMTAG1 ∧ b.tag2 = MEMTAG2 ∧ b.len % 4 = 0 then
        if b.tag3 = MEMTAG3 then
          let st :=
            if st.leakDetectorHasRun then
              { st with errors := st.errors ++ [GuardedError.freeAfterLeakDetection] }
            else st
          let freed := { b with tag1 := MEMFREE, tag2 := MEMFREE, tag3 := MEMFREE }
          some { st with
                 heap := heapUpdate st.heap mem freed
                 memlist := st.memlist.erase mem
                 tot_block := u32Sub st.tot_block 1
                 mem_in_use := u64Sub st.mem_in_use b.len }
        else
          let st := { st with errors := st.errors ++ [GuardedError.endCorrupt] }
          let res := check_memlist st mem
          some { st with memlist := res.1, tot_block := u32Sub st.tot_block 1 }
      else
        let res := check_memlist st mem
        some { st with
               memlist := res.1
               errors := st.errors ++ [GuardedError.headerError]
               tot_block := u32Sub st.tot_block 1 }

/-- `mem_guarded_get_memory_in_use()` (reads `mem_in_use` under the mutex). -/
def mem_guarded_get_memory_in_use (st : GuardedState) : Nat := st.mem_in_use

/-- `mem_guarded_get_memory_blocks_in_use()` (reads `tot_block` under the
mutex). -/
def mem_guarded_get_memory_blocks_in_use (st : GuardedState) : Nat := st.tot_block

/-- `mem_guarded_clear_memlist()`: `mem_base->first = mem_base->last = nullptr`. -/
def mem_guarded_clear_memlist (st : GuardedState) : GuardedState :=
  { st with memlist := [] }

/-! ## The lockfree backend (`memory_alloc_lockfree.cpp`)

```cpp
struct MemHead { size_t len; };
struct MemHeadAligned { uint16_t alignment; size_t len; };
```

The low two bits of `len` hold `MEMHEAD_FLAG_ALIGN` and
`MEMHEAD_FLAG_FROM_CPP_NEW` (possible because every stored length is a
multiple of 4); `MEMHEAD_LEN` masks them off.  The embedding stores the
length and the two flags as separate fields.

The aggregate counters are kept by `memory_usage_block_alloc` /
`memory_usage_block_free` / `memory_usage_current` /
`memory_usage_block_num`, whose implementation file is not part of the
repository sources (only the prototypes are declared in the internal
header). -/

/-- One lockfree block header, keyed in `LockfreeState.heap` by the user
pointer. -/
structure LfBlock where
  len : Nat
  alignedFlag : Bool
  fromCppNew : Bool
  alignment : Nat
deriving DecidableEq, Repr

/-- Diagnostics printed by the lockfree backend. -/
inductive LockfreeError where
  | allocReturnsNull
  | freeAfterLeakDetection
  | freeNullPtr
  | freeWrongAPI
deriving DecidableEq, Repr

/-- Modelled from the spec: the `memory_usage_*` counter functions are
declared in `memory_alloc_intern` but their implementation is not among the
repository sources.  Per the specification the lockfree backend maintains the
aggregate block and byte counters with atomic fetch-and-add / fetch-and-sub,
so they are modelled as a pair of `size_t` counters with wrapping add and
subtract. -/
structure MemoryUsage where
  blockNum : Nat
  current : Nat
deriving DecidableEq, Repr

/-- Modelled from the spec: `memory_usage_block_alloc(size)` — atomic
increment of the block counter and fetch-and-add of the byte counter. -/
def memory_usage_block_alloc (u : MemoryUsage) (size : Nat) : MemoryUsage :=
  { blockNum := (u.blockNum + 1) % u64Mod, current := (u.current + size) % u64Mod }

/-- Modelled from the spec: `memory_usage_block_free(size)` — atomic
decrement of the block counter and fetch-and-sub of the byte counter. -/
def memory_usage_block_free (u : MemoryUsage) (size : Nat) : MemoryUsage :=
  { blockNum := u64Sub u.blockNum 1, current := u64Sub u.current size }

/-- The process-wide state of the lockfree backend. -/
structure LockfreeState where
  heap : List (Nat × LfBlock)
  usage : MemoryUsage
  errors : List LockfreeError
  sysFreed : List Nat
  leakDetectorHasRun : Bool
deriving Repr

def LockfreeState.init : LockfreeState :=
  { heap := [], usage := { blockNum := 0, current := 0 }, errors := []
    sysFreed := [], leakDetectorHasRun := false }

def lfHeapLookup (heap : List (Nat × LfBlock)) (a : Nat) : Option LfBlock :=
  assocLookup heap a

/-- `mem_lockfree_malloc_aligned(len, alignment, str, allocation_type)`.
The `assert(alignment < 1024)` and `assert(IS_POW2(alignment))` are modelled
as `Except.error`; `sysRaw` is the address returned by
`aligned_alloc(len + extra_padding + sizeof(MemHeadAligned), alignment)`
(`none` = failure, reported and `nullptr` returned). -/
def mem_lockfree_malloc_aligned (st : LockfreeState) (len alignment : Nat)
    (allocation_type : AllocationType) (sysRaw : Option Nat) :
    Except Unit (Option Nat × LockfreeState) :=
  if ¬ (alignment < 1024) then Except.error ()
  else if ¬ (IS_POW2 alignment = true) then Except.error ()
  else
    let alignment := raisedAlignment alignment
    let extra_padding := MEMHEAD_ALIGN_PADDING sizeofLfMemHeadAligned alignment
    let len4 := SIZET_ALIGN_4 len
    match sysRaw with
    | none =>
      Except.ok (none, { st with errors := st.errors ++ [LockfreeError.allocReturnsNull] })
    | some raw =>
      let user := raw + extra_padding + sizeofLfMemHeadAligned
      let block : LfBlock :=
        { len := len4, alignedFlag := true
          fromCppNew := allocation_type = AllocationType.NEW_DELETE
          alignment := alignment }
      Except.ok (some user,
        { st with
          heap := st.heap ++ [(user, block)]
          usage := memory_usage_block_alloc st.usage len4 })

/-- `mem_lockfree_calloc(len, str)`; `sysRaw` is the address returned by
`calloc(1, len + sizeof(MemHead))`. -/
def mem_lockfree_calloc (st : LockfreeState) (len : Nat)
    (sysRaw : Option Nat) : Option Nat × LockfreeState :=
  let len4 := SIZET_ALIGN_4 len
  match sysRaw with
  | none => (none, { st with errors := st.errors ++ [LockfreeError.allocReturnsNull] })
  | some raw =>
    let user := raw + sizeofLfMemHead
    let block : LfBlock :=
      { len := len4, alignedFlag := false, fromCppNew := false, alignment := 0 }
    (some user,
      { st with
        heap := st.heap ++ [(user, block)]
        usage := memory_usage_block_alloc st.usage len4 })

/-- `mem_lockfree_free(mem, allocation_type)`.  Returns `none` when `mem` is
non-null but not mapped (the header read would be undefined behaviour; this
covers double frees on this backend, which keeps no tags to detect them).
A type-mismatch free is reported but processing continues.  The block's
backing storage is handed back to the system allocator: `aligned_free` on
`MEMHEAD_REAL_PTR(memh_aligned)` for aligned blocks, `free(memh)` otherwise;
the freed base address is appended to `sysFreed`. -/
def mem_lockfree_free (st : LockfreeState) (mem : Nat)
    (allocation_type : AllocationType) : Option LockfreeState :=
  let st :=
    if st.leakDetectorHasRun then
      { st with errors := st.errors ++ [LockfreeError.freeAfterLeakDetection] }
    else st
  if mem = 0 then
    some { st with errors := st.errors ++ [LockfreeError.freeNullPtr] }
  else
    match lfHeapLookup st.heap mem with
    | none => none
    | some b =>
      let st :=
        if allocation_type ≠ AllocationType.NEW_DELETE ∧ b.fromCppNew then
          { st with errors := st.errors ++ [LockfreeError.freeWrongAPI] }
        else st
      let realPtr :=
        if b.alignedFlag then
          mem - sizeofLfMemHeadAligned - MEMHEAD_ALIGN_PADDING sizeofLfMemHeadAligned b.alignment
        else mem - sizeofLfMemHead
      some { st with
             usage := memory_usage_block_free st.usage b.len
             heap := st.heap.eraseP (fun p => p.1 == mem)
             sysFreed := st.sysFreed ++ [realPtr] }

/-- `mem_lockfree_get_memory_in_use()` = `memory_usage_current()`. -/
def mem_lockfree_get_memory_in_use (st : LockfreeState) : Nat := st.usage.current

/-- `mem_lockfree_get_memory_blocks_in_use()` =
`uint32_t(memory_usage_block_num())`. -/
def mem_lockfree_get_memory_blocks_in_use (st : LockfreeState) : Nat :=
  st.usage.blockNum % u32Mod

/-! ## C5 — the alignment contract -/

theorem raisedAlignment_pos (a : Nat) : 0 < raisedAlignment a := by
  unfold raisedAlignment ALIGNED_ALLOC_MINIMUM_ALIGNMENT
  by_cases h : a < 8
  · rw [if_pos h]; norm_num
  · rw [if_neg h]; omega

theorem pad_plus_head_mod (A s : Nat) (hA : 0 < A) :
    (A - s % A + s) % A = 0 := by
  have hqr := Nat.div_add_mod s A
  have hr : s % A < A := Nat.mod_lt s hA
  have h2 : A - s % A + s = A * (s / A) + A := by omega
  rw [h2, Nat.add_mod, Nat.mul_mod_right, Nat.mod_self]
  simp

theorem user_ptr_aligned {raw A s : Nat} (hA : 0 < A) (hraw : raw % A = 0) :
    (raw + (A - s % A) + s) % A = 0 := by
  have h1 : raw + (A - s % A) + s = raw + (A - s % A + s) := by omega
  rw [h1, Nat.add_mod, hraw, pad_plus_head_mod A s hA]
  simp

/-- The pointer value produced by a `malloc_aligned` call (`none` for an
assertion failure or a null return). -/
def allocatedPtr {σ : Type} (e : Except Unit (Option Nat × σ)) : Option Nat :=
  match e with
  | Except.ok r => r.1
  | Except.error _ => none

/-- The claim C5 as written is falsified at `alignment = 1024`: 1024 is a
power of two and at most 1024, yet both backends hit the
`assert(alignment < 1024)` programming-error assertion. -/
theorem C5_alignment_contract_counterexample :
    IS_POW2 1024 = true ∧ 1024 ≤ 1024 ∧
    mem_lockfree_malloc_aligned LockfreeState.init 16 1024
      AllocationType.ALLOC_FREE (some 4096) = Except.error () ∧
    mem_guarded_malloc_aligned GuardedState.init 16 1024 7
      AllocationType.ALLOC_FREE (some 4096) = Except.error () :=
  ⟨by decide, by decide, rfl, rfl⟩

/-- C5 (amended) — for every requested alignment that is a power of two and
*strictly below* 1024, `malloc_aligned` on either backend passes both
assertions and, provided the system allocation at `raw` respects the raised
alignment, returns a (non-null) user pointer congruent to 0 modulo the
alignment raised to the backend minimum `sizeof(void *)`; alignments of 1024
and above, or values failing the `IS_POW2` macro, fail an assertion on both
backends. -/
theorem C5_alignment_contract (stL : LockfreeState) (stG : GuardedState)
    (len alignment name rawL rawG : Nat) (t : AllocationType)
    (hpow : IS_POW2 alignment = true) (hlt : alignment < 1024)
    (hrawL : rawL % raisedAlignment alignment = 0)
    (hrawG : rawG % raisedAlignment alignment = 0) :
    (∃ user,
      allocatedPtr (mem_lockfree_malloc_aligned stL len alignment t (some rawL)) =
        some user ∧
      user % raisedAlignment alignment = 0) ∧
    (∃ user,
      allocatedPtr (mem_guarded_malloc_aligned stG len alignment name t (some rawG)) =
        some user ∧
      user % raisedAlignment alignment = 0) ∧
    (∀ a, 1024 ≤ a ∨ IS_POW2 a = false →
      mem_lockfree_malloc_aligned stL len a t (some rawL) = Except.error () ∧
      mem_guarded_malloc_aligned stG len a name t (some rawG) = Except.error ()) := by
  have hApos := raisedAlignment_pos alignment
  refine ⟨?_, ?_, ?_⟩
  · refine ⟨rawL + MEMHEAD_ALIGN_PADDING sizeofLfMemHeadAligned (raisedAlignment alignment)
      + sizeofLfMemHeadAligned, ?_, ?_⟩
    · unfold allocatedPtr mem_lockfree_malloc_aligned
      rw [if_neg (not_not_intro hlt), if_neg (not_not_intro hpow)]
    · exact user_ptr_aligned hApos hrawL
  · refine ⟨rawG + MEMHEAD_ALIGN_PADDING sizeofGMemHead (raisedAlignment alignment)
      + sizeofGMemHead, ?_, ?_⟩
    · unfold allocatedPtr mem_guarded_malloc_aligned
      rw [if_neg (not_not_intro hlt), if_neg (not_not_intro hpow)]
    · exact user_ptr_aligned hApos hrawG
  · intro a ha
    rcases ha with ha | ha
    · constructor
      · unfold mem_lockfree_malloc_aligned
        rw [if_pos (by omega)]
      · unfold mem_guarded_malloc_aligned
        rw [if_pos (by omega)]
    · by_cases hlt' : a < 1024
      · constructor
        · unfold mem_lockfree_malloc_aligned
          rw [if_neg (not_not_intro hlt'), if_pos (by simp [ha])]
        · unfold mem_guarded_malloc_aligned
          rw [if_neg (not_not_intro hlt'), if_pos (by simp [ha])]
      · constructor
        · unfold mem_lockfree_malloc_aligned
          rw [if_pos hlt']
        · unfold mem_guarded_malloc_aligned
          rw [if_pos hlt']

/-- Witness for the amended C5 at `alignment = 16`, `raw = 4096`. -/
theorem C5_alignment_contract_witness :
    (∃ user,
      allocatedPtr (mem_lockfree_malloc_aligned LockfreeState.init 20 16
          AllocationType.ALLOC_FREE (some 4096)) = some user ∧
      user % raisedAlignment 16 = 0) ∧
    (∃ user,
      allocatedPtr (mem_guarded_malloc_aligned GuardedState.init 20 16 7
          AllocationType.ALLOC_FREE (some 4096)) = some user ∧
      user % raisedAlignment 16 = 0) ∧
    (∀ a, 1024 ≤ a ∨ IS_POW2 a = false →
      mem_lockfree_malloc_aligned LockfreeState.init 20 a
        AllocationType.ALLOC_FREE (some 4096) = Except.error () ∧
      mem_guarded_malloc_aligned GuardedState.init 20 a 7
        AllocationType.ALLOC_FREE (some 4096) = Except.error ()) :=
  C5_alignment_contract LockfreeState.init GuardedState.init 20 16 7 4096 4096
    AllocationType.ALLOC_FREE (by decide) (by decide) (by decide) (by decide)

/-! ## C4 — successful free and storage release

`mem_lockfree_free` hands the block's base address back to the system
allocator (`aligned_free(MEMHEAD_REAL_PTR(memh_aligned))` or `free(memh)`)
and decrements both counters.  `mem_guarded_free`, however, only marks the
three tags `MEMFREE`, unlinks the block and decrements the counters — there
is no `free` / `aligned_free` call anywhere in its success path (compare
Blender's `rem_memblock`, from which this code descends, which ends by
releasing the storage), so the guarded backend never returns storage to the
system allocator. -/

/-- C4 — evaluation at the failing input.  On the lockfree backend a
`calloc(16)` at system address 1000 (user pointer 1008) followed by a
matching free releases base address 1000 back to the system allocator and
returns both counters to zero.  On the guarded backend a `malloc(16)` at
system address 1000 (user pointer 1056) followed by a matching free
decrements both counters and unlinks the block, but releases nothing:
`sysFreed` stays empty, contradicting the claim that a successful free
releases the block's underlying storage. -/
theorem C4_successful_free_eval :
    ((mem_lockfree_free (mem_lockfree_calloc LockfreeState.init 16 (some 1000)).2
        1008 AllocationType.ALLOC_FREE).map
      (fun st => (st.sysFreed, st.usage.blockNum, st.usage.current)) =
      some ([1000], 0, 0)) ∧
    ((mem_guarded_free (mem_guarded_malloc GuardedState.init 16 7 (some 1000)).2
        1056 AllocationType.ALLOC_FREE).map
      (fun st => (st.sysFreed, st.tot_block, st.mem_in_use, st.memlist)) =
      some ([], 0, 0, [])) := by
  constructor
  · rfl
  · rfl

/-! ## C3 — guarded free on erroneous calls

The null, misaligned and double-free paths `return` before any counter or
list is touched.  The alloc-kind mismatch check, however, only *reports*
(`report_error_on_address`) and then falls through: an otherwise intact block
is freed normally.  The two corrupt-tag paths fall through to the final
`tot_block--;` of `mem_guarded_free`, so the live-block counter *is*
decremented there (and `check_memlist` may unlink the block). -/

/-- The claim C3 as written is falsified by an alloc-kind mismatch: a block
allocated with `NEW_DELETE` (CPP-style) and freed with `ALLOC_FREE` (C-style
`mem_free`).  The error is reported, but processing is not aborted: the block
counter drops from 1 to 0, the byte counter from 16 to 0, and the block list
becomes empty. -/
theorem C3_guarded_free_counterexample :
    (let st1 :=
      ((mem_guarded_malloc_aligned GuardedState.init 16 8 7
          AllocationType.NEW_DELETE (some 1000)).toOption.map Prod.snd).getD
        GuardedState.init
    st1.tot_block = 1 ∧ st1.mem_in_use = 16 ∧ st1.memlist = [1064] ∧
    (mem_guarded_free st1 1064 AllocationType.ALLOC_FREE).map
        (fun st => (st.errors, st.tot_block, st.mem_in_use, st.memlist)) =
      some ([GuardedError.freeWrongAPI], 0, 0, [])) := by
  refine ⟨rfl, rfl, rfl, rfl⟩

/-- C3 (amended) — for the guarded backend's free:
* a null pointer, a misaligned pointer, or an already-freed block (double
  free) is reported and processing of that free is aborted, leaving the
  counters, the block list and all block headers unchanged;
* an alloc-kind mismatch (a C-style free of a block created CPP-style, the
  direction the code checks) is reported, but processing continues: an
  otherwise intact block is then freed normally, decrementing both counters
  and unlinking the block;
* a block with an intact header but corrupt tail tag, or with a corrupt
  header, is reported and is not freed (byte counter, headers and storage
  unchanged), but the 32-bit live-block counter is decremented and
  `check_memlist` may unlink the block from the list. -/
theorem C3_guarded_free_error_paths (st : GuardedState) (mem : Nat)
    (t : AllocationType) :
    (mem_guarded_free st 0 t =
      some { st with errors := st.errors ++ [GuardedError.freeNullPtr] }) ∧
    (mem ≠ 0 → mem % 8 ≠ 0 →
      mem_guarded_free st mem t =
        some { st with errors := st.errors ++ [GuardedError.freeIllegalPtr] }) ∧
    (∀ b, mem ≠ 0 → mem % 8 = 0 → heapLookup st.heap mem = some b →
      b.tag1 = MEMFREE → b.tag2 = MEMFREE →
      (t = AllocationType.NEW_DELETE ∨ b.fromCppNew = false) →
      mem_guarded_free st mem t =
        some { st with errors := st.errors ++ [GuardedError.doubleFree] }) ∧
    (∀ b, mem ≠ 0 → mem % 8 = 0 → heapLookup st.heap mem = some b →
      t ≠ AllocationType.NEW_DELETE → b.fromCppNew = true →
      b.tag1 = MEMTAG1 → b.tag2 = MEMTAG2 → b.tag3 = MEMTAG3 → b.len % 4 = 0 →
      st.leakDetectorHasRun = false →
      mem_guarded_free st mem t =
        some { st with
               errors := st.errors ++ [GuardedError.freeWrongAPI]
               heap := heapUpdate st.heap mem
                 { b with tag1 := MEMFREE, tag2 := MEMFREE, tag3 := MEMFREE }
               memlist := st.memlist.erase mem
               tot_block := u32Sub st.tot_block 1
               mem_in_use := u64Sub st.mem_in_use b.len }) ∧
    (∀ b, mem ≠ 0 → mem % 8 = 0 → heapLookup st.heap mem = some b →
      (t = AllocationType.NEW_DELETE ∨ b.fromCppNew = false) →
      b.tag1 = MEMTAG1 → b.tag2 = MEMTAG2 → b.tag3 ≠ MEMTAG3 → b.len % 4 = 0 →
      ∃ st', mem_guarded_free st mem t = some st' ∧
        st'.heap = st.heap ∧ st'.mem_in_use = st.mem_in_use ∧
        st'.sysFreed = st.sysFreed ∧
        st'.tot_block = u32Sub st.tot_block 1 ∧
        st'.errors = st.errors ++ [GuardedError.endCorrupt]) ∧
    (∀ b, mem ≠ 0 → mem % 8 = 0 → heapLookup st.heap mem = some b →
      (t = AllocationType.NEW_DELETE ∨ b.fromCppNew = false) →
      ¬ (b.tag1 = MEMFREE ∧ b.tag2 = MEMFREE) →
      ¬ (b.tag1 = MEMTAG1 ∧ b.tag2 = MEMTAG2 ∧ b.len % 4 = 0) →
      ∃ st', mem_guarded_free st mem t = some st' ∧
        st'.heap = st.heap ∧ st'.mem_in_use = st.mem_in_use ∧
        st'.sysFreed = st.sysFreed ∧
        st'.tot_block = u32Sub st.tot_block 1 ∧
        st'.errors = st.errors ++ [GuardedError.headerError]) := by
  have hNoMismatch :
      ∀ (b : GMemBlock), (t = AllocationType.NEW_DELETE ∨ b.fromCppNew = false) →
        ¬ (t ≠ AllocationType.NEW_DELETE ∧ b.fromCppNew = true) := by
    rintro b (h | h) ⟨h1, h2⟩
    · exact h1 h
    · rw [h] at h2
      exact Bool.false_ne_true h2
  refine ⟨?_, ?_, ?_, ?_, ?_, ?_⟩
  · rfl
  · intro h0 h8
    unfold mem_guarded_free
    rw [if_neg h0, if_pos h8]
  · intro b h0 h8 hlook ht1 ht2 hkind
    have hnm := hNoMismatch b hkind
    have hdf : b.tag1 = MEMFREE ∧ b.tag2 = MEMFREE := ⟨ht1, ht2⟩
    unfold mem_guarded_free
    rw [if_neg h0, if_neg (by simpa using h8), hlook]
    dsimp only
    rw [if_neg hnm, if_pos hdf]
  · intro b h0 h8 hlook ht hcpp ht1 ht2 ht3 hlen hld
    have hMis : t ≠ AllocationType.NEW_DELETE ∧ b.fromCppNew = true := ⟨ht, hcpp⟩
    have hFree : ¬ (b.tag1 = MEMFREE ∧ b.tag2 = MEMFREE) := by
      rintro ⟨h1, h2⟩
      rw [ht1] at h1
      exact absurd h1 (by decide)
    have hTags : b.tag1 = MEMTAG1 ∧ b.tag2 = MEMTAG2 ∧ b.len % 4 = 0 := ⟨ht1, ht2, hlen⟩
    unfold mem_guarded_free
    rw [if_neg h0, if_neg (by simpa using h8), hlook]
    dsimp only
    rw [if_pos hMis, if_neg hFree, if_pos hTags, if_pos ht3]
    dsimp only
    rw [if_neg (show ¬ (st.leakDetectorHasRun = true) by rw [hld]; exact Bool.false_ne_true)]
  · intro b h0 h8 hlook hkind ht1 ht2 ht3 hlen
    have hnm := hNoMismatch b hkind
    have hFree : ¬ (b.tag1 = MEMFREE ∧ b.tag2 = MEMFREE) := by
      rintro ⟨h1, h2⟩
      rw [ht1] at h1
      exact absurd h1 (by decide)
    have hTags : b.tag1 = MEMTAG1 ∧ b.tag2 = MEMTAG2 ∧ b.len % 4 = 0 := ⟨ht1, ht2, hlen⟩
    unfold mem_guarded_free
    rw [if_neg h0, if_neg (by simpa using h8), hlook]
    dsimp only
    rw [if_neg hnm, if_neg hFree, if_pos hTags, if_neg ht3]
    exact ⟨_, rfl, rfl, rfl, rfl, rfl, rfl⟩
  · intro b h0 h8 hlook hkind hFree hHead
    have hnm := hNoMismatch b hkind
    unfold mem_guarded_free
    rw [if_neg h0, if_neg (by simpa using h8), hlook]
    dsimp only
    rw [if_neg hnm, if_neg hFree, if_neg hHead]
    exact ⟨_, rfl, rfl, rfl, rfl, rfl, rfl⟩

/-- Witness for the amended C3: a concrete state with one intact CPP-new
block at address 1064 (so the kind-mismatch branch applies) and one
tail-corrupted block at address 8. -/
theorem C3_guarded_free_error_paths_witness :
    (mem_guarded_free GuardedState.init 0 AllocationType.ALLOC_FREE =
      some { GuardedState.init with
             errors := GuardedState.init.errors ++ [GuardedError.freeNullPtr] }) ∧
    (mem_guarded_free GuardedState.init 12 AllocationType.ALLOC_FREE =
      some { GuardedState.init with
             errors := GuardedState.init.errors ++ [GuardedError.freeIllegalPtr] }) := by
  have h := C3_guarded_free_error_paths GuardedState.init 12 AllocationType.ALLOC_FREE
  exact ⟨h.1, h.2.1 (by decide) (by decide)⟩

/-! ## C9 — the leak detector (`MemLeakPrinter`)

```cpp
~MemLeakPrinter() {
  leak_detector_has_run = true;
  const uint32_t leaked_blocks = mem_get_memory_blocks_in_use();
  if (leaked_blocks == 0) {
    return;
  }
  const size_t mem_in_use = mem_get_memory_in_use();
  printf("Error: Not freed memory blocks: %u, total unfree memory %f MB\\n", ...);
  mem_print_memlist();
  mem_clear_memlist();
  if (fail_on_memleak) {
    abort();
  }
}
```

The destructor reads the active backend's counters through the dispatch
table.  It is modelled as a function of the two counter values and the
`fail_on_memleak` flag, producing a report of its observable actions. -/

structure TeardownReport where
  leakDetectorHasRunSet : Bool
  reported : Option (Nat × Nat)
  printedMemlist : Bool
  clearedMemlist : Bool
  aborted : Bool
deriving DecidableEq, Repr

/-- The observable behaviour of `MemLeakPrinter::~MemLeakPrinter()` given the
active backend's `mem_get_memory_blocks_in_use()` and
`mem_get_memory_in_use()` values and the `fail_on_memleak` policy flag. -/
def memLeakPrinterTeardown (leaked_blocks mem_in_use : Nat)
    (fail_on_memleak : Bool) : TeardownReport :=
  if leaked_blocks = 0 then
    { leakDetectorHasRunSet := true, reported := none, printedMemlist := false
      clearedMemlist := false, aborted := false }
  else
    { leakDetectorHasRunSet := true, reported := some (leaked_blocks, mem_in_use)
      printedMemlist := true, clearedMemlist := true, aborted := fail_on_memleak }

/-- C9 — at teardown the leak detector does nothing when the live block count
is zero; otherwise it prints the leaked block count and total leaked bytes,
prints the active backend's memlist, and aborts if and only if the
fail-on-leak flag is set.  A single never-freed 16-byte guarded block is
reported with count 1 and byte count 16. -/
theorem C9_leak_detector_teardown (blocks bytes : Nat) (fail : Bool) :
    (blocks = 0 →
      memLeakPrinterTeardown blocks bytes fail =
        { leakDetectorHasRunSet := true, reported := none, printedMemlist := false
          clearedMemlist := false, aborted := false }) ∧
    (blocks ≠ 0 →
      (memLeakPrinterTeardown blocks bytes fail).reported = some (blocks, bytes) ∧
      (memLeakPrinterTeardown blocks bytes fail).printedMemlist = true ∧
      ((memLeakPrinterTeardown blocks bytes fail).aborted = true ↔ fail = true)) ∧
    (let st := (mem_guarded_malloc GuardedState.init 16 7 (some 1000)).2
     memLeakPrinterTeardown (mem_guarded_get_memory_blocks_in_use st)
        (mem_guarded_get_memory_in_use st) fail =
      { leakDetectorHasRunSet := true, reported := some (1, 16), printedMemlist := true
        clearedMemlist := true, aborted := fail }) := by
  refine ⟨?_, ?_, ?_⟩
  · intro h0
    unfold memLeakPrinterTeardown
    rw [if_pos h0]
  · intro h0
    unfold memLeakPrinterTeardown
    rw [if_neg h0]
    exact ⟨rfl, rfl, Iff.rfl⟩
  · show memLeakPrinterTeardown 1 16 fail = _
    unfold memLeakPrinterTeardown
    rw [if_neg (by decide)]

/-- Witness for C9 at `blocks = 0` and at `blocks = 2`. -/
theorem C9_leak_detector_teardown_witness :
    memLeakPrinterTeardown 0 0 true =
      { leakDetectorHasRunSet := true, reported := none, printedMemlist := false
        clearedMemlist := false, aborted := false } ∧
    (memLeakPrinterTeardown 2 64 false).reported = some (2, 64) := by
  constructor
  · exact (C9_leak_detector_teardown 0 0 true).1 rfl
  · exact ((C9_leak_detector_teardown 2 64 false).2.1 (by decide)).1

/-! ## Association-list lemmas used by the accounting proofs -/

theorem assocLookup_nil {β : Type} (a : Nat) : assocLookup ([] : List (Nat × β)) a = none := rfl

theorem assocLookup_append_some {β : Type} {l1 l2 : List (Nat × β)} {a : Nat}
    {b : β} (h : assocLookup l1 a = some b) :
    assocLookup (l1 ++ l2) a = some b := by
  unfold assocLookup at *
  rw [List.find?_append]
  rcases hf : l1.find? (fun p => p.1 == a) with _ | p
  · rw [hf] at h
    exact absurd h (by simp)
  · rw [hf] at h
    rw [hf]
    exact h

theorem assocLookup_append_none {β : Type} {l1 l2 : List (Nat × β)} {a : Nat}
    (h : assocLookup l1 a = none) :
    assocLookup (l1 ++ l2) a = assocLookup l2 a := by
  unfold assocLookup at *
  rw [List.find?_append]
  rcases hf : l1.find? (fun p => p.1 == a) with _ | p
  · rw [hf, Option.none_or]
  · rw [hf] at h
    exact absurd h (by simp)

theorem assocLookup_singleton_self {β : Type} (a : Nat) (b : β) :
    assocLookup [(a, b)] a = some b := by
  unfold assocLookup
  simp

theorem assocLookup_eq_none_iff {β : Type} {l : List (Nat × β)} {a : Nat} :
    assocLookup l a = none ↔ ∀ p ∈ l, p.1 ≠ a := by
  unfold assocLookup
  rcases hf : l.find? (fun p => p.1 == a) with _ | p
  · rw [hf]
    rw [List.find?_eq_none] at hf
    simp only [Option.map_none', true_iff]
    intro p hp
    have := hf p hp
    simpa using this
  · rw [hf]
    have hmem := List.mem_of_find?_eq_some hf
    have hpa := List.find?_some hf
    simp only [Option.map_some']
    constructor
    · intro hcon
      exact absurd hcon (by simp)
    · intro hall
      exact absurd (show p.1 = a by simpa using hpa) (hall p hmem)

theorem assocLookup_mem {β : Type} {l : List (Nat × β)} {a : Nat} {b : β}
    (h : assocLookup l a = some b) : (a, b) ∈ l := by
  unfold assocLookup at h
  rcases hf : l.find? (fun p => p.1 == a) with _ | p
  · rw [hf] at h
    simp at h
  · rw [hf] at h
    simp only [Option.map_some', Option.some_inj] at h
    have hmem := List.mem_of_find?_eq_some hf
    have hpa := List.find?_some hf
    have : p.1 = a := by simpa using hpa
    have hp : p = (a, b) := by
      cases p
      simp_all
    rw [hp] at hmem
    exact hmem

theorem assocLookup_eraseP_ne {β : Type} {l : List (Nat × β)} {a a' : Nat}
    (h : a' ≠ a) :
    assocLookup (l.eraseP (fun p => p.1 == a)) a' = assocLookup l a' := by
  induction l with
  | nil => rfl
  | cons p l ih =>
    by_cases hp : p.1 = a
    · rw [List.eraseP_cons_of_pos (by simpa using hp)]
      unfold assocLookup
      rw [List.find?_cons_of_neg _ (by simp [hp, h.symm])]
    · rw [List.eraseP_cons_of_neg (by simpa using hp)]
      by_cases hp' : p.1 = a'
      · unfold assocLookup
        rw [List.find?_cons_of_pos _ (by simpa using hp'),
          List.find?_cons_of_pos _ (by simpa using hp')]
      · unfold assocLookup
        rw [List.find?_cons_of_neg _ (by simpa using hp'),
          List.find?_cons_of_neg _ (by simpa using hp')]
        exact ih

theorem map_fst_eraseP {β : Type} (l : List (Nat × β)) (a : Nat) :
    (l.eraseP (fun p => p.1 == a)).map Prod.fst = (l.map Prod.fst).erase a := by
  rw [List.erase_eq_eraseP', List.eraseP_map]
  rfl

theorem snd_le_sum {β : Type} (f : β → Nat) :
    ∀ (l : List β) (x : β), x ∈ l → f x ≤ (l.map f).sum := by
  intro l
  induction l with
  | nil => intro x hx; exact absurd hx (List.not_mem_nil x)
  | cons p l ih =>
    intro x hx
    rcases List.mem_cons.mp hx with h | h
    · rw [h]
      simp [Nat.le_add_right]
    · have := ih x h
      simp only [List.map_cons, List.sum_cons]
      omega

theorem sum_snd_eraseP {β : Type} (f : β → Nat) (q : β → Bool) :
    ∀ (l : List β) (x : β), x ∈ l → q x = true → (∀ y ∈ l, q y = true → f y = f x) →
      ((l.eraseP q).map f).sum = (l.map f).sum - f x := by
  intro l
  induction l with
  | nil => intro x hx; exact absurd hx (List.not_mem_nil x)
  | cons p l ih =>
    intro x hx hq hall
    by_cases hp : q p = true
    · rw [List.eraseP_cons_of_pos hp]
      have : f p = f x := hall p (List.mem_cons_self p l) hp
      simp only [List.map_cons, List.sum_cons, this]
      omega
    · rw [List.eraseP_cons_of_neg (by simpa using hp)]
      have hx' : x ∈ l := by
        rcases List.mem_cons.mp hx with h | h
        · rw [← h] at hp
          exact absurd hq hp
        · exact h
      have := ih x hx' hq (fun y hy hqy => hall y (List.mem_cons_of_mem p hy) hqy)
      have hle := snd_le_sum f l x hx'
      simp only [List.map_cons, List.sum_cons, this]
      omega

/-! ## Closed forms of the guarded operations on their success paths -/

theorem heapUpdate_lookup_ne {h : List (Nat × GMemBlock)} {a a' : Nat}
    {b : GMemBlock} (hne : a' ≠ a) :
    heapLookup (heapUpdate h a b) a' = heapLookup h a' := by
  unfold heapLookup heapUpdate assocLookup
  induction h with
  | nil => rfl
  | cons p l ih =>
    simp only [List.map_cons]
    by_cases hp : p.1 = a
    · rw [if_pos hp]
      rw [List.find?_cons_of_neg _ (by simp [hne.symm]),
        List.find?_cons_of_neg _ (by simp [hp, hne.symm])]
      exact ih
    · rw [if_neg hp]
      by_cases hp' : p.1 = a'
      · rw [List.find?_cons_of_pos _ (by simpa using hp'),
          List.find?_cons_of_pos _ (by simpa using hp')]
      · rw [List.find?_cons_of_neg _ (by simpa using hp'),
          List.find?_cons_of_neg _ (by simpa using hp')]
        exact ih

theorem heapUpdate_lookup_self {h : List (Nat × GMemBlock)} {a : Nat}
    {b0 b : GMemBlock} (hfound : heapLookup h a = some b0) :
    heapLookup (heapUpdate h a b) a = some b := by
  unfold heapLookup heapUpdate assocLookup at *
  induction h with
  | nil => exact absurd hfound (by simp)
  | cons p l ih =>
    simp only [List.map_cons]
    by_cases hp : p.1 = a
    · rw [if_pos hp, List.find?_cons_of_pos _ (by simp)]
      rfl
    · rw [if_neg hp]
      rw [List.find?_cons_of_neg _ (by simpa using hp)] at hfound
      rw [List.find?_cons_of_neg _ (by simpa using hp)]
      exact ih hfound

theorem heapUpdate_append_fresh {h : List (Nat × GMemBlock)} {a : Nat}
    {b0 b : GMemBlock} (hfresh : heapLookup h a = none) :
    heapUpdate (h ++ [(a, b0)]) a b = h ++ [(a, b)] := by
  have hall : ∀ p ∈ h, p.1 ≠ a := assocLookup_eq_none_iff.mp hfresh
  have hmap : ∀ (l : List (Nat × GMemBlock)), (∀ p ∈ l, p.1 ≠ a) →
      List.map (fun p => if p.1 = a then (a, b) else p) l = l := by
    intro l
    induction l with
    | nil => intro h2; rfl
    | cons p l ih =>
      intro h2
      simp only [List.map_cons]
      rw [if_neg (h2 p (List.mem_cons_self p l))]
      rw [ih (fun q hq => h2 q (List.mem_cons_of_mem p hq))]
  unfold heapUpdate
  rw [List.map_append, hmap h hall]
  simp

/-- The user pointer handed out by `mem_guarded_malloc_aligned` for a system
allocation at `raw`. -/
def guardedAlignedUser (alignment raw : Nat) : Nat :=
  raw + MEMHEAD_ALIGN_PADDING sizeofGMemHead (raisedAlignment alignment) + sizeofGMemHead

/-- The header `mem_guarded_malloc_aligned` leaves behind. -/
def guardedAlignedBlock (len alignment name : Nat) (t : AllocationType) : GMemBlock :=
  { tag1 := MEMTAG1, tag2 := MEMTAG2, tag3 := MEMTAG3, len := SIZET_ALIGN_4 len
    name := name, fromCppNew := t = AllocationType.NEW_DELETE
    alignment := raisedAlignment alignment }

theorem mem_guarded_malloc_aligned_ok (st : GuardedState)
    (len alignment name : Nat) (t : AllocationType) (raw : Nat)
    (hpow : IS_POW2 alignment = true) (hlt : alignment < 1024)
    (hfresh : heapLookup st.heap (guardedAlignedUser alignment raw) = none) :
    mem_guarded_malloc_aligned st len alignment name t (some raw) =
      Except.ok (some (guardedAlignedUser alignment raw),
        { st with
          heap := st.heap ++
            [(guardedAlignedUser alignment raw, guardedAlignedBlock len alignment name t)]
          memlist := st.memlist ++ [guardedAlignedUser alignment raw]
          tot_block := (st.tot_block + 1) % u32Mod
          mem_in_use := (st.mem_in_use + SIZET_ALIGN_4 len) % u64Mod
          peak_mem :=
            if (st.mem_in_use + SIZET_ALIGN_4 len) % u64Mod > st.peak_mem then
              (st.mem_in_use + SIZET_ALIGN_4 len) % u64Mod
            else st.peak_mem }) := by
  unfold mem_guarded_malloc_aligned
  rw [if_neg (not_not_intro hlt), if_neg (not_not_intro hpow)]
  dsimp only
  unfold make_memhead_header
  dsimp only
  have hlook :
      heapLookup
        (st.heap ++ [(guardedAlignedUser alignment raw,
          { tag1 := MEMTAG1, tag2 := MEMTAG2, tag3 := MEMTAG3, len := SIZET_ALIGN_4 len
            name := name, fromCppNew := t = AllocationType.NEW_DELETE
            alignment := 0 })])
        (guardedAlignedUser alignment raw) =
      some { tag1 := MEMTAG1, tag2 := MEMTAG2, tag3 := MEMTAG3, len := SIZET_ALIGN_4 len
             name := name, fromCppNew := t = AllocationType.NEW_DELETE
             alignment := 0 } := by
    unfold heapLookup at *
    rw [assocLookup_append_none hfresh, assocLookup_singleton_self]
  rw [show (raw + MEMHEAD_ALIGN_PADDING sizeofGMemHead (raisedAlignment alignment)
      + sizeofGMemHead) = guardedAlignedUser alignment raw from rfl]
  rw [hlook]
  dsimp only
  rw [heapUpdate_append_fresh hfresh]
  rfl

/-- Closed form of `mem_guarded_malloc` (no asserts, no alignment). -/
theorem mem_guarded_malloc_ok (st : GuardedState) (len name raw : Nat) :
    mem_guarded_malloc st len name (some raw) =
      (some (raw + sizeofGMemHead),
        make_memhead_header st (raw + sizeofGMemHead) (SIZET_ALIGN_4 len) name
          AllocationType.ALLOC_FREE) := rfl

/-- Closed form of the success path of `mem_guarded_free` when no alloc-kind
mismatch is reported. -/
theorem mem_guarded_free_success (st : GuardedState) (mem : Nat)
    (t : AllocationType) (b : GMemBlock)
    (h0 : mem ≠ 0) (h8 : mem % 8 = 0) (hlook : heapLookup st.heap mem = some b)
    (hkind : ¬ (t ≠ AllocationType.NEW_DELETE ∧ b.fromCppNew = true))
    (ht1 : b.tag1 = MEMTAG1) (ht2 : b.tag2 = MEMTAG2) (ht3 : b.tag3 = MEMTAG3)
    (hlen : b.len % 4 = 0) (hld : st.leakDetectorHasRun = false) :
    mem_guarded_free st mem t =
      some { st with
             heap := heapUpdate st.heap mem
               { b with tag1 := MEMFREE, tag2 := MEMFREE, tag3 := MEMFREE }
             memlist := st.memlist.erase mem
             tot_block := u32Sub st.tot_block 1
             mem_in_use := u64Sub st.mem_in_use b.len } := by
  have hFree : ¬ (b.tag1 = MEMFREE ∧ b.tag2 = MEMFREE) := by
    rintro ⟨h1, h2⟩
    rw [ht1] at h1
    exact absurd h1 (by decide)
  have hTags : b.tag1 = MEMTAG1 ∧ b.tag2 = MEMTAG2 ∧ b.len % 4 = 0 := ⟨ht1, ht2, hlen⟩
  unfold mem_guarded_free
  rw [if_neg h0, if_neg (by simpa using h8), hlook]
  dsimp only
  rw [if_neg hkind, if_neg hFree, if_pos hTags, if_pos ht3]
  rw [if_neg (show ¬ (st.leakDetectorHasRun = true) by rw [hld]; exact Bool.false_ne_true)]

/-! ## Modular-counter lemmas -/

theorem u32Mod_lit : u32Mod = 4294967296 := by norm_num [u32Mod]

theorem u64Mod_lit : u64Mod = 18446744073709551616 := by norm_num [u64Mod]

theorem add_one_mod_u32 (a : Nat) : (a % u32Mod + 1) % u32Mod = (a + 1) % u32Mod := by
  rw [u32Mod_lit]
  omega

theorem add_mod_u64 (s x : Nat) : (s % u64Mod + x) % u64Mod = (s + x) % u64Mod := by
  rw [u64Mod_lit]
  omega

theorem u32Sub_one_mod (n : Nat) (hn : 1 ≤ n) :
    u32Sub (n % u32Mod) 1 = (n - 1) % u32Mod := by
  unfold u32Sub
  rw [u32Mod_lit]
  omega

theorem u64Sub_of_le_mod (s x : Nat) (hx : x < u64Mod) (hxs : x ≤ s) :
    u64Sub (s % u64Mod) x = (s - x) % u64Mod := by
  unfold u64Sub
  rw [u64Mod_lit] at *
  omega

theorem u64Sub_one_mod (n : Nat) (hn : 1 ≤ n) :
    u64Sub (n % u64Mod) 1 = (n - 1) % u64Mod := by
  unfold u64Sub
  rw [u64Mod_lit]
  omega

/-! ## Call traces through a backend

A trace is a list of allocator calls.  The system allocator's returned base
addresses are recorded in the trace (they are inputs from the environment);
an execution step succeeds — modelling the *successful* calls that claim C1
quantifies over — exactly when the call completes without a diagnostic:
allocations pass their asserts, get fresh suitably-aligned system memory,
and frees hit a live, intact block with a matching allocation type before
leak-detector teardown. -/

inductive AllocOp where
  | mallocAlignedOp (len alignment : Nat) (t : AllocationType) (raw : Nat)
  | callocOp (len : Nat) (raw : Nat)
  | freeOp (mem : Nat) (t : AllocationType)
deriving DecidableEq, Repr

def isAllocOp : AllocOp → Bool
  | AllocOp.freeOp _ _ => false
  | _ => true

def allocCount (tr : List AllocOp) : Nat := tr.countP isAllocOp

def freeCount (tr : List AllocOp) : Nat := tr.countP (fun op => ! isAllocOp op)

/-- Claim-side ledger of currently-live blocks for the guarded backend:
address and 4-byte-rounded requested size, in allocation order. -/
def guardedLedgerStep (ledger : List (Nat × Nat)) : AllocOp → List (Nat × Nat)
  | AllocOp.mallocAlignedOp len alignment _ raw =>
    ledger ++ [(guardedAlignedUser alignment raw, SIZET_ALIGN_4 len)]
  | AllocOp.callocOp len raw => ledger ++ [(raw + sizeofGMemHead, SIZET_ALIGN_4 len)]
  | AllocOp.freeOp mem _ => ledger.eraseP (fun p => p.1 == mem)

def guardedLedger (tr : List AllocOp) : List (Nat × Nat) :=
  tr.foldl guardedLedgerStep []

/-- One successful guarded call. -/
def guardedStep (st : GuardedState) : AllocOp → Option GuardedState
  | AllocOp.mallocAlignedOp len alignment t raw =>
    match mem_guarded_malloc_aligned st len alignment 0 t (some raw) with
    | Except.ok (some user, st') =>
      if heapLookup st.heap user = none ∧ user % 8 = 0 ∧ user ≠ 0 then some st'
      else none
    | _ => none
  | AllocOp.callocOp len raw =>
    match mem_guarded_calloc st len 0 (some raw) with
    | (some user, st') =>
      if heapLookup st.heap user = none ∧ user % 8 = 0 ∧ user ≠ 0 then some st'
      else none
    | (none, _) => none
  | AllocOp.freeOp mem t =>
    match heapLookup st.heap mem with
    | some b =>
      if mem ≠ 0 ∧ mem % 8 = 0 ∧ b.tag1 = MEMTAG1 ∧ b.tag2 = MEMTAG2 ∧
          b.tag3 = MEMTAG3 ∧ b.len % 4 = 0 ∧
          ¬ (t ≠ AllocationType.NEW_DELETE ∧ b.fromCppNew = true) ∧
          st.leakDetectorHasRun = false then
        mem_guarded_free st mem t
      else none
    | none => none

def guardedExecAux (st : GuardedState) : List AllocOp → Option GuardedState
  | [] => some st
  | op :: ops =>
    match guardedStep st op with
    | none => none
    | some st' => guardedExecAux st' ops

def guardedExec (tr : List AllocOp) : Option GuardedState :=
  guardedExecAux GuardedState.init tr

/-! ### Lockfree closed forms and trace execution -/

/-- The user pointer handed out by `mem_lockfree_malloc_aligned` for a system
allocation at `raw`. -/
def lfAlignedUser (alignment raw : Nat) : Nat :=
  raw + MEMHEAD_ALIGN_PADDING sizeofLfMemHeadAligned (raisedAlignment alignment)
    + sizeofLfMemHeadAligned

def lfAlignedBlock (len alignment : Nat) (t : AllocationType) : LfBlock :=
  { len := SIZET_ALIGN_4 len, alignedFlag := true
    fromCppNew := t = AllocationType.NEW_DELETE
    alignment := raisedAlignment alignment }

theorem mem_lockfree_malloc_aligned_ok (st : LockfreeState)
    (len alignment : Nat) (t : AllocationType) (raw : Nat)
    (hpow : IS_POW2 alignment = true) (hlt : alignment < 1024) :
    mem_lockfree_malloc_aligned st len alignment t (some raw) =
      Except.ok (some (lfAlignedUser alignment raw),
        { st with
          heap := st.heap ++ [(lfAlignedUser alignment raw, lfAlignedBlock len alignment t)]
          usage := memory_usage_block_alloc st.usage (SIZET_ALIGN_4 len) }) := by
  unfold mem_lockfree_malloc_aligned
  rw [if_neg (not_not_intro hlt), if_neg (not_not_intro hpow)]
  rfl

theorem mem_lockfree_free_success (st : LockfreeState) (mem : Nat)
    (t : AllocationType) (b : LfBlock)
    (h0 : mem ≠ 0) (hlook : lfHeapLookup st.heap mem = some b)
    (hkind : ¬ (t ≠ AllocationType.NEW_DELETE ∧ b.fromCppNew = true))
    (hld : st.leakDetectorHasRun = false) :
    mem_lockfree_free st mem t =
      some { st with
             usage := memory_usage_block_free st.usage b.len
             heap := st.heap.eraseP (fun p => p.1 == mem)
             sysFreed := st.sysFreed ++
               [if b.alignedFlag then
                  mem - sizeofLfMemHeadAligned -
                    MEMHEAD_ALIGN_PADDING sizeofLfMemHeadAligned b.alignment
                else mem - sizeofLfMemHead] } := by
  unfold mem_lockfree_free
  rw [if_neg (show ¬ (st.leakDetectorHasRun = true) by rw [hld]; exact Bool.false_ne_true)]
  rw [if_neg h0, hlook]
  dsimp only
  rw [if_neg hkind]

/-- Claim-side ledger for the lockfree backend. -/
def lockfreeLedgerStep (ledger : List (Nat × Nat)) : AllocOp → List (Nat × Nat)
  | AllocOp.mallocAlignedOp len alignment _ raw =>
    ledger ++ [(lfAlignedUser alignment raw, SIZET_ALIGN_4 len)]
  | AllocOp.callocOp len raw => ledger ++ [(raw + sizeofLfMemHead, SIZET_ALIGN_4 len)]
  | AllocOp.freeOp mem _ => ledger.eraseP (fun p => p.1 == mem)

def lockfreeLedger (tr : List AllocOp) : List (Nat × Nat) :=
  tr.foldl lockfreeLedgerStep []

/-- One successful lockfree call. -/
def lockfreeStep (st : LockfreeState) : AllocOp → Option LockfreeState
  | AllocOp.mallocAlignedOp len alignment t raw =>
    match mem_lockfree_malloc_aligned st len alignment t (some raw) with
    | Except.ok (some user, st') =>
      if lfHeapLookup st.heap user = none ∧ user ≠ 0 then some st' else none
    | _ => none
  | AllocOp.callocOp len raw =>
    match mem_lockfree_calloc st len (some raw) with
    | (some user, st') =>
      if lfHeapLookup st.heap user = none ∧ user ≠ 0 then some st' else none
    | (none, _) => none
  | AllocOp.freeOp mem t =>
    match lfHeapLookup st.heap mem with
    | some b =>
      if mem ≠ 0 ∧ ¬ (t ≠ AllocationType.NEW_DELETE ∧ b.fromCppNew = true) ∧
          st.leakDetectorHasRun = false then
        mem_lockfree_free st mem t
      else none
    | none => none

def lockfreeExecAux (st : LockfreeState) : List AllocOp → Option LockfreeState
  | [] => some st
  | op :: ops =>
    match lockfreeStep st op with
    | none => none
    | some st' => lockfreeExecAux st' ops

def lockfreeExec (tr : List AllocOp) : Option LockfreeState :=
  lockfreeExecAux LockfreeState.init tr

/-! ## The accounting invariant of the guarded backend -/

theorem assocLookup_singleton_inv {β : Type} {u a : Nat} {c b : β}
    (h : assocLookup [(u, c)] a = some b) : a = u ∧ b = c := by
  unfold assocLookup at h
  by_cases hu : u = a
  · rw [List.find?_cons_of_pos _ (by simpa using hu)] at h
    simp only [Option.map_some', Option.some_inj] at h
    exact ⟨hu.symm, h.symm⟩
  · rw [List.find?_cons_of_neg _ (by simpa using hu)] at h
    exact absurd h (by simp)

theorem assocLookup_append_singleton_cases {β : Type} {h1 : List (Nat × β)}
    {u a : Nat} {c b : β}
    (h : assocLookup (h1 ++ [(u, c)]) a = some b) :
    assocLookup h1 a = some b ∨ (assocLookup h1 a = none ∧ a = u ∧ b = c) := by
  rcases hl : assocLookup h1 a with _ | d
  · right
    rw [assocLookup_append_none hl] at h
    exact ⟨rfl, assocLookup_singleton_inv h⟩
  · left
    rw [assocLookup_append_some hl] at h
    injection h with h
    rw [h]

theorem eraseP_key_ne_of_nodup {β : Type} {l : List (Nat × β)} {a : Nat}
    (hnd : (l.map Prod.fst).Nodup) {p : Nat × β}
    (hp : p ∈ l.eraseP (fun q => q.1 == a)) : p.1 ≠ a := by
  intro hpa
  have h1 : p.1 ∈ (l.eraseP (fun q => q.1 == a)).map Prod.fst := List.mem_map_of_mem _ hp
  rw [map_fst_eraseP] at h1
  rw [hpa] at h1
  exact (List.Nodup.not_mem_erase hnd) h1

theorem assocLookup_eraseP_self_of_nodup {β : Type} {l : List (Nat × β)}
    {a : Nat} (hnd : (l.map Prod.fst).Nodup) :
    assocLookup (l.eraseP (fun q => q.1 == a)) a = none := by
  rw [assocLookup_eq_none_iff]
  intro p hp
  exact eraseP_key_ne_of_nodup hnd hp

/-- The inductive invariant tying a guarded backend state to the claim-side
ledger of live blocks. -/
structure GuardedInv (st : GuardedState) (ledger : List (Nat × Nat)) : Prop where
  list_eq : st.memlist = ledger.map Prod.fst
  tot : st.tot_block = ledger.length % u32Mod
  bytes : st.mem_in_use = (ledger.map Prod.snd).sum % u64Mod
  blocks : ∀ p ∈ ledger, ∃ b, heapLookup st.heap p.1 = some b ∧
    b.len = p.2 ∧ b.tag1 = MEMTAG1 ∧ p.2 < u64Mod
  live : ∀ a b, heapLookup st.heap a = some b → b.tag1 = MEMTAG1 →
    (a, b.len) ∈ ledger
  nodupKeys : (ledger.map Prod.fst).Nodup
  ld : st.leakDetectorHasRun = false

theorem guardedInv_init : GuardedInv GuardedState.init [] := by
  refine ⟨rfl, rfl, rfl, ?_, ?_, List.nodup_nil, rfl⟩
  · intro p hp
    exact absurd hp (List.not_mem_nil p)
  · intro a b hl
    exact absurd hl (by simp [GuardedState.init, heapLookup, assocLookup])

theorem guardedInv_allocStep {st : GuardedState} {ledger : List (Nat × Nat)}
    {user len4 name al : Nat} {cpp : Bool} {pk : Nat}
    (inv : GuardedInv st ledger)
    (hfresh : heapLookup st.heap user = none) (hlen4 : len4 < u64Mod) :
    GuardedInv
      { st with
        heap := st.heap ++ [(user,
          { tag1 := MEMTAG1, tag2 := MEMTAG2, tag3 := MEMTAG3, len := len4
            name := name, fromCppNew := cpp, alignment := al })]
        memlist := st.memlist ++ [user]
        tot_block := (st.tot_block + 1) % u32Mod
        mem_in_use := (st.mem_in_use + len4) % u64Mod
        peak_mem := pk }
      (ledger ++ [(user, len4)]) := by
  have hnotin : user ∉ ledger.map Prod.fst := by
    intro hmem
    obtain ⟨p, hp, hp1⟩ := List.mem_map.mp hmem
    obtain ⟨b, hb, -⟩ := inv.blocks p hp
    rw [hp1] at hb
    rw [hfresh] at hb
    exact absurd hb (by simp)
  refine ⟨?_, ?_, ?_, ?_, ?_, ?_, inv.ld⟩
  · show st.memlist ++ [user] = _
    rw [inv.list_eq, List.map_append]
    rfl
  · show (st.tot_block + 1) % u32Mod = _
    rw [inv.tot, add_one_mod_u32, List.length_append]
    rfl
  · show (st.mem_in_use + len4) % u64Mod = _
    rw [inv.bytes, add_mod_u64, List.map_append, List.sum_append]
    rfl
  · intro p hp
    rcases List.mem_append.mp hp with hp | hp
    · obtain ⟨b, hb, hb2, hb3, hb4⟩ := inv.blocks p hp
      exact ⟨b, assocLookup_append_some hb, hb2, hb3, hb4⟩
    · have hp' : p = (user, len4) := by simpa using hp
      rw [hp']
      refine ⟨{ tag1 := MEMTAG1, tag2 := MEMTAG2, tag3 := MEMTAG3, len := len4
                name := name, fromCppNew := cpp, alignment := al },
        ?_, rfl, rfl, hlen4⟩
      show assocLookup _ _ = _
      rw [assocLookup_append_none hfresh, assocLookup_singleton_self]
  · intro a b hl htag
    rcases assocLookup_append_singleton_cases hl with hl | ⟨-, ha, hb⟩
    · exact List.mem_append_left _ (inv.live a b hl htag)
    · rw [ha, hb]
      exact List.mem_append_right _ (by simp)
  · rw [List.map_append]
    simp only [List.map_cons, List.map_nil]
    rw [List.nodup_append]
    exact ⟨inv.nodupKeys, List.nodup_singleton user, by simpa using hnotin⟩

theorem guardedInv_freeStep {st : GuardedState} {ledger : List (Nat × Nat)}
    {mem : Nat} {b : GMemBlock}
    (inv : GuardedInv st ledger) (hlook : heapLookup st.heap mem = some b)
    (ht1 : b.tag1 = MEMTAG1) :
    (mem, b.len) ∈ ledger ∧
    GuardedInv
      { st with
        heap := heapUpdate st.heap mem
          { b with tag1 := MEMFREE, tag2 := MEMFREE, tag3 := MEMFREE }
        memlist := st.memlist.erase mem
        tot_block := u32Sub st.tot_block 1
        mem_in_use := u64Sub st.mem_in_use b.len }
      (ledger.eraseP (fun p => p.1 == mem)) := by
  have hmem : (mem, b.len) ∈ ledger := inv.live mem b hlook ht1
  have hlen1 : 1 ≤ ledger.length := by
    rcases ledger with _ | ⟨p, l⟩
    · exact absurd hmem (List.not_mem_nil _)
    · simp
  have hall : ∀ y ∈ ledger, (fun p => p.1 == mem) y = true → y.2 = b.len := by
    intro y hy hyk
    obtain ⟨c, hc, hc2, -⟩ := inv.blocks y hy
    have hyk' : y.1 = mem := by simpa using hyk
    rw [hyk', hlook] at hc
    injection hc with hc
    rw [← hc2, hc]
  have hsum := sum_snd_eraseP Prod.snd (fun p => p.1 == mem) ledger (mem, b.len)
    hmem (by simp) hall
  have hble : b.len ≤ (ledger.map Prod.snd).sum :=
    snd_le_sum Prod.snd ledger (mem, b.len) hmem
  obtain ⟨c, hcl, hc2, -, hc4⟩ := inv.blocks (mem, b.len) hmem
  have hblen : b.len < u64Mod := hc4
  refine ⟨hmem, ?_, ?_, ?_, ?_, ?_, ?_, inv.ld⟩
  · show st.memlist.erase mem = _
    rw [inv.list_eq, map_fst_eraseP]
  · show u32Sub st.tot_block 1 = _
    rw [inv.tot, u32Sub_one_mod _ hlen1,
      List.length_eraseP_of_mem hmem (by simp)]
  · show u64Sub st.mem_in_use b.len = _
    rw [inv.bytes, u64Sub_of_le_mod _ _ hblen hble, hsum]
  · intro p hp
    have hpne : p.1 ≠ mem := eraseP_key_ne_of_nodup inv.nodupKeys hp
    obtain ⟨c, hc, hc2, hc3, hc4⟩ := inv.blocks p (List.eraseP_subset _ hp)
    exact ⟨c, (heapUpdate_lookup_ne hpne).trans hc, hc2, hc3, hc4⟩
  · intro a c hl htag
    by_cases ha : a = mem
    · rw [ha] at hl
      rw [heapUpdate_lookup_self hlook] at hl
      injection hl with hl
      rw [← hl] at htag
      have htag' : MEMFREE = MEMTAG1 := htag
      exact absurd htag' (by decide)
    · rw [heapUpdate_lookup_ne ha] at hl
      have := inv.live a c hl htag
      exact (List.mem_eraseP_of_neg (by simpa using ha)).mpr this
  · rw [map_fst_eraseP]
    exact List.Nodup.erase mem inv.nodupKeys

theorem mem_guarded_malloc_aligned_ok_user (st : GuardedState)
    (len alignment name : Nat) (t : AllocationType) (raw : Nat)
    (hpow : IS_POW2 alignment = true) (hlt : alignment < 1024) :
    ∃ stM, mem_guarded_malloc_aligned st len alignment name t (some raw) =
      Except.ok (some (guardedAlignedUser alignment raw), stM) := by
  unfold mem_guarded_malloc_aligned
  rw [if_neg (not_not_intro hlt), if_neg (not_not_intro hpow)]
  exact ⟨_, rfl⟩

theorem mem_guarded_malloc_aligned_assert (st : GuardedState)
    (len alignment name : Nat) (t : AllocationType) (sysRaw : Option Nat)
    (ha : ¬ alignment < 1024 ∨ ¬ IS_POW2 alignment = true) :
    mem_guarded_malloc_aligned st len alignment name t sysRaw = Except.error () := by
  unfold mem_guarded_malloc_aligned
  rcases ha with ha | ha
  · rw [if_pos ha]
  · by_cases hlt : alignment < 1024
    · rw [if_neg (not_not_intro hlt), if_pos ha]
    · rw [if_pos hlt]

theorem guardedStep_inv {st : GuardedState} {ledger : List (Nat × Nat)}
    {op : AllocOp} {st' : GuardedState}
    (inv : GuardedInv st ledger) (h : guardedStep st op = some st') :
    GuardedInv st' (guardedLedgerStep ledger op) ∧
    (isAllocOp op = true → (guardedLedgerStep ledger op).length = ledger.length + 1) ∧
    (isAllocOp op = false → (guardedLedgerStep ledger op).length + 1 = ledger.length) := by
  cases op with
  | mallocAlignedOp len alignment t raw =>
    by_cases hlt : alignment < 1024
    case neg =>
      exfalso
      unfold guardedStep at h
      dsimp only at h
      rw [mem_guarded_malloc_aligned_assert st len alignment 0 t (some raw)
        (Or.inl hlt)] at h
      exact Option.noConfusion h
    by_cases hpow : IS_POW2 alignment = true
    case neg =>
      exfalso
      unfold guardedStep at h
      dsimp only at h
      rw [mem_guarded_malloc_aligned_assert st len alignment 0 t (some raw)
        (Or.inr hpow)] at h
      exact Option.noConfusion h
    obtain ⟨stM, hM⟩ := mem_guarded_malloc_aligned_ok_user st len alignment 0 t raw hpow hlt
    unfold guardedStep at h
    dsimp only at h
    rw [hM] at h
    dsimp only at h
    by_cases hcond : heapLookup st.heap (guardedAlignedUser alignment raw) = none ∧
        guardedAlignedUser alignment raw % 8 = 0 ∧ guardedAlignedUser alignment raw ≠ 0
    case neg =>
      rw [if_neg hcond] at h
      exact absurd h Option.noConfusion
    rw [if_pos hcond] at h
    injection h with h
    have hM' := mem_guarded_malloc_aligned_ok st len alignment 0 t raw hpow hlt hcond.1
    have hMM := hM.symm.trans hM'
    injection hMM with hMM
    injection hMM with hMM1 hMM2
    refine ⟨?_, fun _ => by simp [guardedLedgerStep], fun hfa => by simp [isAllocOp] at hfa⟩
    rw [← h, hMM2]
    show GuardedInv _ (ledger ++ [(guardedAlignedUser alignment raw, SIZET_ALIGN_4 len)])
    exact guardedInv_allocStep inv hcond.1 (SIZET_ALIGN_4_lt len)
  | callocOp len raw =>
    unfold guardedStep mem_guarded_calloc mem_guarded_malloc at h
    dsimp only at h
    by_cases hcond : heapLookup st.heap (raw + sizeofGMemHead) = none ∧
        (raw + sizeofGMemHead) % 8 = 0 ∧ raw + sizeofGMemHead ≠ 0
    case neg =>
      rw [if_neg hcond] at h
      exact absurd h Option.noConfusion
    rw [if_pos hcond] at h
    injection h with h
    refine ⟨?_, fun _ => by simp [guardedLedgerStep], fun hfa => by simp [isAllocOp] at hfa⟩
    rw [← h]
    show GuardedInv _ (ledger ++ [(raw + sizeofGMemHead, SIZET_ALIGN_4 len)])
    exact guardedInv_allocStep inv hcond.1 (SIZET_ALIGN_4_lt len)
  | freeOp mem t =>
    unfold guardedStep at h
    dsimp only at h
    cases hlook : heapLookup st.heap mem with
    | none =>
      rw [hlook] at h
      exact absurd h Option.noConfusion
    | some b =>
      rw [hlook] at h
      dsimp only at h
      by_cases hcond : mem ≠ 0 ∧ mem % 8 = 0 ∧ b.tag1 = MEMTAG1 ∧ b.tag2 = MEMTAG2 ∧
          b.tag3 = MEMTAG3 ∧ b.len % 4 = 0 ∧
          ¬ (t ≠ AllocationType.NEW_DELETE ∧ b.fromCppNew = true) ∧
          st.leakDetectorHasRun = false
      case neg =>
        rw [if_neg hcond] at h
        exact absurd h Option.noConfusion
      rw [if_pos hcond] at h
      obtain ⟨h0, h8, ht1, ht2, ht3, hlen, hkind, -⟩ := hcond
      rw [mem_guarded_free_success st mem t b h0 h8 hlook hkind ht1 ht2 ht3 hlen inv.ld] at h
      injection h with h
      obtain ⟨hmem, inv'⟩ := guardedInv_freeStep inv hlook ht1
      refine ⟨?_, fun hta => by simp [isAllocOp] at hta, fun _ => ?_⟩
      · rw [← h]
        exact inv'
      · show (ledger.eraseP (fun p => p.1 == mem)).length + 1 = ledger.length
        rw [List.length_eraseP_of_mem hmem (by simp)]
        have : 1 ≤ ledger.length := by
          rcases ledger with _ | ⟨p, l⟩
          · exact absurd hmem (List.not_mem_nil _)
          · simp
        omega

theorem guardedExecAux_inv :
    ∀ (tr : List AllocOp) (st : GuardedState) (ledger : List (Nat × Nat))
      (st' : GuardedState),
      GuardedInv st ledger → guardedExecAux st tr = some st' →
      GuardedInv st' (tr.foldl guardedLedgerStep ledger) ∧
      (tr.foldl guardedLedgerStep ledger).length + freeCount tr =
        ledger.length + allocCount tr := by
  intro tr
  induction tr with
  | nil =>
    intro st ledger st' inv h
    unfold guardedExecAux at h
    injection h with h
    rw [← h]
    exact ⟨inv, rfl⟩
  | cons op ops ih =>
    intro st ledger st' inv h
    unfold guardedExecAux at h
    cases hstep : guardedStep st op with
    | none =>
      rw [hstep] at h
      exact absurd h Option.noConfusion
    | some st1 =>
      rw [hstep] at h
      dsimp only at h
      obtain ⟨inv1, hlenA, hlenF⟩ := guardedStep_inv inv hstep
      obtain ⟨inv2, hcount⟩ := ih st1 (guardedLedgerStep ledger op) st' inv1 h
      refine ⟨inv2, ?_⟩
      show (ops.foldl guardedLedgerStep (guardedLedgerStep ledger op)).length +
        freeCount (op :: ops) = ledger.length + allocCount (op :: ops)
      unfold allocCount freeCount at *
      have hAcons : List.countP isAllocOp (op :: ops) =
          List.countP isAllocOp ops + (if isAllocOp op = true then 1 else 0) := by
        rw [List.countP_cons]
      have hFcons : List.countP (fun o => ! isAllocOp o) (op :: ops) =
          List.countP (fun o => ! isAllocOp o) ops +
            (if isAllocOp op = true then 0 else 1) := by
        rw [List.countP_cons]
        cases isAllocOp op <;> simp
      rw [hAcons, hFcons]
      cases hA : isAllocOp op
      · have h1 := hlenF hA
        norm_num
        omega
      · have h1 := hlenA hA
        norm_num
        omega

/-! ## The accounting invariant of the lockfree backend -/

theorem add_one_mod_u64 (a : Nat) : (a % u64Mod + 1) % u64Mod = (a + 1) % u64Mod := by
  rw [u64Mod_lit]
  omega

structure LfInv (st : LockfreeState) (ledger : List (Nat × Nat)) : Prop where
  blocks_eq : st.usage.blockNum = ledger.length % u64Mod
  bytes : st.usage.current = (ledger.map Prod.snd).sum % u64Mod
  blocks : ∀ p ∈ ledger, ∃ b, lfHeapLookup st.heap p.1 = some b ∧
    b.len = p.2 ∧ p.2 < u64Mod
  live : ∀ a b, lfHeapLookup st.heap a = some b → (a, b.len) ∈ ledger
  nodupKeys : (ledger.map Prod.fst).Nodup
  heapNodup : (st.heap.map Prod.fst).Nodup
  ld : st.leakDetectorHasRun = false

theorem lfInv_init : LfInv LockfreeState.init [] := by
  refine ⟨rfl, rfl, ?_, ?_, List.nodup_nil, List.nodup_nil, rfl⟩
  · intro p hp
    exact absurd hp (List.not_mem_nil p)
  · intro a b hl
    exact absurd hl (by simp [LockfreeState.init, lfHeapLookup, assocLookup])

theorem lfInv_allocStep {st : LockfreeState} {ledger : List (Nat × Nat)}
    {user len4 : Nat} {blk : LfBlock}
    (inv : LfInv st ledger) (hfresh : lfHeapLookup st.heap user = none)
    (hblen : blk.len = len4) (hlen4 : len4 < u64Mod) :
    LfInv
      { st with
        heap := st.heap ++ [(user, blk)]
        usage := memory_usage_block_alloc st.usage len4 }
      (ledger ++ [(user, len4)]) := by
  have hkeys : ∀ p ∈ st.heap, p.1 ≠ user := assocLookup_eq_none_iff.mp hfresh
  have hnotin : user ∉ ledger.map Prod.fst := by
    intro hmem
    obtain ⟨p, hp, hp1⟩ := List.mem_map.mp hmem
    obtain ⟨b, hb, -⟩ := inv.blocks p hp
    rw [hp1, hfresh] at hb
    exact absurd hb (by simp)
  refine ⟨?_, ?_, ?_, ?_, ?_, ?_, inv.ld⟩
  · show (st.usage.blockNum + 1) % u64Mod = _
    rw [inv.blocks_eq, add_one_mod_u64, List.length_append]
    rfl
  · show (st.usage.current + len4) % u64Mod = _
    rw [inv.bytes, add_mod_u64, List.map_append, List.sum_append]
    rfl
  · intro p hp
    rcases List.mem_append.mp hp with hp | hp
    · obtain ⟨b, hb, hb2, hb4⟩ := inv.blocks p hp
      exact ⟨b, assocLookup_append_some hb, hb2, hb4⟩
    · have hp' : p = (user, len4) := by simpa using hp
      rw [hp']
      refine ⟨blk, ?_, hblen, hlen4⟩
      show assocLookup _ _ = _
      rw [assocLookup_append_none hfresh, assocLookup_singleton_self]
  · intro a b hl
    rcases assocLookup_append_singleton_cases hl with hl | ⟨-, ha, hb⟩
    · exact List.mem_append_left _ (inv.live a b hl)
    · rw [ha, hb, hblen]
      exact List.mem_append_right _ (by simp)
  · rw [List.map_append]
    simp only [List.map_cons, List.map_nil]
    rw [List.nodup_append]
    exact ⟨inv.nodupKeys, List.nodup_singleton user, by simpa using hnotin⟩
  · show ((st.heap ++ [(user, blk)]).map Prod.fst).Nodup
    rw [List.map_append]
    simp only [List.map_cons, List.map_nil]
    rw [List.nodup_append]
    refine ⟨inv.heapNodup, List.nodup_singleton user, ?_⟩
    intro a ha hb
    have hb' : a = user := by simpa using hb
    obtain ⟨p, hp, hp1⟩ := List.mem_map.mp ha
    rw [← hp1] at hb'
    exact hkeys p hp hb'

theorem lfInv_freeStep {st : LockfreeState} {ledger : List (Nat × Nat)}
    {mem : Nat} {b : LfBlock} {sf : List Nat}
    (inv : LfInv st ledger) (hlook : lfHeapLookup st.heap mem = some b) :
    (mem, b.len) ∈ ledger ∧
    LfInv
      { st with
        usage := memory_usage_block_free st.usage b.len
        heap := st.heap.eraseP (fun p => p.1 == mem)
        sysFreed := sf }
      (ledger.eraseP (fun p => p.1 == mem)) := by
  have hmem : (mem, b.len) ∈ ledger := inv.live mem b hlook
  have hlen1 : 1 ≤ ledger.length := by
    rcases ledger with _ | ⟨p, l⟩
    · exact absurd hmem (List.not_mem_nil _)
    · simp
  have hall : ∀ y ∈ ledger, (fun p => p.1 == mem) y = true → y.2 = b.len := by
    intro y hy hyk
    obtain ⟨c, hc, hc2, -⟩ := inv.blocks y hy
    have hyk' : y.1 = mem := by simpa using hyk
    rw [hyk', hlook] at hc
    injection hc with hc
    rw [← hc2, hc]
  have hsum := sum_snd_eraseP Prod.snd (fun p => p.1 == mem) ledger (mem, b.len)
    hmem (by simp) hall
  have hble : b.len ≤ (ledger.map Prod.snd).sum :=
    snd_le_sum Prod.snd ledger (mem, b.len) hmem
  obtain ⟨c, hcl, hc2, hc4⟩ := inv.blocks (mem, b.len) hmem
  have hblen : b.len < u64Mod := hc4
  refine ⟨hmem, ?_, ?_, ?_, ?_, ?_, ?_, inv.ld⟩
  · show u64Sub st.usage.blockNum 1 = _
    rw [inv.blocks_eq, u64Sub_one_mod _ hlen1,
      List.length_eraseP_of_mem hmem (by simp)]
  · show u64Sub st.usage.current b.len = _
    rw [inv.bytes, u64Sub_of_le_mod _ _ hblen hble, hsum]
  · intro p hp
    have hpne : p.1 ≠ mem := eraseP_key_ne_of_nodup inv.nodupKeys hp
    obtain ⟨c', hc', hc2', hc4'⟩ := inv.blocks p (List.eraseP_subset _ hp)
    exact ⟨c', (assocLookup_eraseP_ne hpne).trans hc', hc2', hc4'⟩
  · intro a c hl
    by_cases ha : a = mem
    · rw [ha] at hl
      rw [show lfHeapLookup (st.heap.eraseP (fun p => p.1 == mem)) mem =
        none from assocLookup_eraseP_self_of_nodup inv.heapNodup] at hl
      exact absurd hl (by simp)
    · rw [show lfHeapLookup (st.heap.eraseP (fun p => p.1 == mem)) a =
        lfHeapLookup st.heap a from assocLookup_eraseP_ne ha] at hl
      have := inv.live a c hl
      exact (List.mem_eraseP_of_neg (by simpa using ha)).mpr this
  · rw [map_fst_eraseP]
    exact List.Nodup.erase mem inv.nodupKeys
  · show ((st.heap.eraseP (fun p => p.1 == mem)).map Prod.fst).Nodup
    rw [map_fst_eraseP]
    exact List.Nodup.erase mem inv.heapNodup

theorem mem_lockfree_malloc_aligned_ok_user (st : LockfreeState)
    (len alignment : Nat) (t : AllocationType) (raw : Nat)
    (hpow : IS_POW2 alignment = true) (hlt : alignment < 1024) :
    ∃ stM, mem_lockfree_malloc_aligned st len alignment t (some raw) =
      Except.ok (some (lfAlignedUser alignment raw), stM) := by
  unfold mem_lockfree_malloc_aligned
  rw [if_neg (not_not_intro hlt), if_neg (not_not_intro hpow)]
  exact ⟨_, rfl⟩

theorem mem_lockfree_malloc_aligned_assert (st : LockfreeState)
    (len alignment : Nat) (t : AllocationType) (sysRaw : Option Nat)
    (ha : ¬ alignment < 1024 ∨ ¬ IS_POW2 alignment = true) :
    mem_lockfree_malloc_aligned st len alignment t sysRaw = Except.error () := by
  unfold mem_lockfree_malloc_aligned
  rcases ha with ha | ha
  · rw [if_pos ha]
  · by_cases hlt : alignment < 1024
    · rw [if_neg (not_not_intro hlt), if_pos ha]
    · rw [if_pos hlt]

theorem lockfreeStep_inv {st : LockfreeState} {ledger : List (Nat × Nat)}
    {op : AllocOp} {st' : LockfreeState}
    (inv : LfInv st ledger) (h : lockfreeStep st op = some st') :
    LfInv st' (lockfreeLedgerStep ledger op) ∧
    (isAllocOp op = true → (lockfreeLedgerStep ledger op).length = ledger.length + 1) ∧
    (isAllocOp op = false → (lockfreeLedgerStep ledger op).length + 1 = ledger.length) := by
  cases op with
  | mallocAlignedOp len alignment t raw =>
    by_cases hlt : alignment < 1024
    case neg =>
      exfalso
      unfold lockfreeStep at h
      dsimp only at h
      rw [mem_lockfree_malloc_aligned_assert st len alignment t (some raw)
        (Or.inl hlt)] at h
      exact Option.noConfusion h
    by_cases hpow : IS_POW2 alignment = true
    case neg =>
      exfalso
      unfold lockfreeStep at h
      dsimp only at h
      rw [mem_lockfree_malloc_aligned_assert st len alignment t (some raw)
        (Or.inr hpow)] at h
      exact Option.noConfusion h
    obtain ⟨stM, hM⟩ := mem_lockfree_malloc_aligned_ok_user st len alignment t raw hpow hlt
    unfold lockfreeStep at h
    dsimp only at h
    rw [hM] at h
    dsimp only at h
    by_cases hcond : lfHeapLookup st.heap (lfAlignedUser alignment raw) = none ∧
        lfAlignedUser alignment raw ≠ 0
    case neg =>
      rw [if_neg hcond] at h
      exact absurd h Option.noConfusion
    rw [if_pos hcond] at h
    injection h with h
    have hM' := mem_lockfree_malloc_aligned_ok st len alignment t raw hpow hlt
    have hMM := hM.symm.trans hM'
    injection hMM with hMM
    injection hMM with hMM1 hMM2
    refine ⟨?_, fun _ => by simp [lockfreeLedgerStep], fun hfa => by simp [isAllocOp] at hfa⟩
    rw [← h, hMM2]
    show LfInv _ (ledger ++ [(lfAlignedUser alignment raw, SIZET_ALIGN_4 len)])
    exact lfInv_allocStep inv hcond.1 rfl (SIZET_ALIGN_4_lt len)
  | callocOp len raw =>
    unfold lockfreeStep mem_lockfree_calloc at h
    dsimp only at h
    by_cases hcond : lfHeapLookup st.heap (raw + sizeofLfMemHead) = none ∧
        raw + sizeofLfMemHead ≠ 0
    case neg =>
      rw [if_neg hcond] at h
      exact absurd h Option.noConfusion
    rw [if_pos hcond] at h
    injection h with h
    refine ⟨?_, fun _ => by simp [lockfreeLedgerStep], fun hfa => by simp [isAllocOp] at hfa⟩
    rw [← h]
    show LfInv _ (ledger ++ [(raw + sizeofLfMemHead, SIZET_ALIGN_4 len)])
    exact lfInv_allocStep inv hcond.1 rfl (SIZET_ALIGN_4_lt len)
  | freeOp mem t =>
    unfold lockfreeStep at h
    dsimp only at h
    cases hlook : lfHeapLookup st.heap mem with
    | none =>
      rw [hlook] at h
      exact absurd h Option.noConfusion
    | some b =>
      rw [hlook] at h
      dsimp only at h
      by_cases hcond : mem ≠ 0 ∧
          ¬ (t ≠ AllocationType.NEW_DELETE ∧ b.fromCppNew = true) ∧
          st.leakDetectorHasRun = false
      case neg =>
        rw [if_neg hcond] at h
        exact absurd h Option.noConfusion
      rw [if_pos hcond] at h
      obtain ⟨h0, hkind, -⟩ := hcond
      rw [mem_lockfree_free_success st mem t b h0 hlook hkind inv.ld] at h
      injection h with h
      obtain ⟨hmem, inv'⟩ := lfInv_freeStep inv hlook
      refine ⟨?_, fun hta => by simp [isAllocOp] at hta, fun _ => ?_⟩
      · rw [← h]
        exact inv'
      · show (ledger.eraseP (fun p => p.1 == mem)).length + 1 = ledger.length
        rw [List.length_eraseP_of_mem hmem (by simp)]
        have : 1 ≤ ledger.length := by
          rcases ledger with _ | ⟨p, l⟩
          · exact absurd hmem (List.not_mem_nil _)
          · simp
        omega

theorem lockfreeExecAux_inv :
    ∀ (tr : List AllocOp) (st : LockfreeState) (ledger : List (Nat × Nat))
      (st' : LockfreeState),
      LfInv st ledger → lockfreeExecAux st tr = some st' →
      LfInv st' (tr.foldl lockfreeLedgerStep ledger) ∧
      (tr.foldl lockfreeLedgerStep ledger).length + freeCount tr =
        ledger.length + allocCount tr := by
  intro tr
  induction tr with
  | nil =>
    intro st ledger st' inv h
    unfold lockfreeExecAux at h
    injection h with h
    rw [← h]
    exact ⟨inv, rfl⟩
  | cons op ops ih =>
    intro st ledger st' inv h
    unfold lockfreeExecAux at h
    cases hstep : lockfreeStep st op with
    | none =>
      rw [hstep] at h
      exact absurd h Option.noConfusion
    | some st1 =>
      rw [hstep] at h
      dsimp only at h
      obtain ⟨inv1, hlenA, hlenF⟩ := lockfreeStep_inv inv hstep
      obtain ⟨inv2, hcount⟩ := ih st1 (lockfreeLedgerStep ledger op) st' inv1 h
      refine ⟨inv2, ?_⟩
      show (ops.foldl lockfreeLedgerStep (lockfreeLedgerStep ledger op)).length +
        freeCount (op :: ops) = ledger.length + allocCount (op :: ops)
      unfold allocCount freeCount at *
      have hAcons : List.countP isAllocOp (op :: ops) =
          List.countP isAllocOp ops + (if isAllocOp op = true then 1 else 0) := by
        rw [List.countP_cons]
      have hFcons : List.countP (fun o => ! isAllocOp o) (op :: ops) =
          List.countP (fun o => ! isAllocOp o) ops +
            (if isAllocOp op = true then 0 else 1) := by
        rw [List.countP_cons]
        cases isAllocOp op <;> simp
      rw [hAcons, hFcons]
      cases hA : isAllocOp op
      · have h1 := hlenF hA
        norm_num
        omega
      · have h1 := hlenA hA
        norm_num
        omega

/-- C1 — allocator accounting invariant: after every sequence of successful
allocate (`malloc_aligned` / `calloc`) and free calls through either backend,
`get_memory_blocks_in_use()` equals the number of allocate calls minus the
number of free calls (as the 32-bit counter value, and exactly when that
difference fits in 32 bits), and `get_memory_in_use()` equals the sum of the
4-byte-rounded requested sizes of the currently-live blocks (as the `size_t`
counter value, and exactly when the sum fits in 64 bits). -/
theorem C1_allocator_accounting :
    (∀ tr st, guardedExec tr = some st →
      mem_guarded_get_memory_blocks_in_use st = (allocCount tr - freeCount tr) % u32Mod ∧
      mem_guarded_get_memory_in_use st = ((guardedLedger tr).map Prod.snd).sum % u64Mod ∧
      (guardedLedger tr).length = allocCount tr - freeCount tr ∧
      freeCount tr ≤ allocCount tr ∧
      (allocCount tr - freeCount tr < u32Mod →
        mem_guarded_get_memory_blocks_in_use st = allocCount tr - freeCount tr) ∧
      (((guardedLedger tr).map Prod.snd).sum < u64Mod →
        mem_guarded_get_memory_in_use st = ((guardedLedger tr).map Prod.snd).sum)) ∧
    (∀ tr st, lockfreeExec tr = some st →
      mem_lockfree_get_memory_blocks_in_use st = (allocCount tr - freeCount tr) % u32Mod ∧
      mem_lockfree_get_memory_in_use st = ((lockfreeLedger tr).map Prod.snd).sum % u64Mod ∧
      (lockfreeLedger tr).length = allocCount tr - freeCount tr ∧
      freeCount tr ≤ allocCount tr ∧
      (allocCount tr - freeCount tr < u32Mod →
        mem_lockfree_get_memory_blocks_in_use st = allocCount tr - freeCount tr) ∧
      (((lockfreeLedger tr).map Prod.snd).sum < u64Mod →
        mem_lockfree_get_memory_in_use st = ((lockfreeLedger tr).map Prod.snd).sum)) := by
  constructor
  · intro tr st h
    obtain ⟨inv, hcnt⟩ := guardedExecAux_inv tr GuardedState.init [] st guardedInv_init h
    simp only [List.length_nil] at hcnt
    have hlen : (guardedLedger tr).length = allocCount tr - freeCount tr := by
      unfold guardedLedger
      omega
    have hFA : freeCount tr ≤ allocCount tr := by
      unfold guardedLedger at hlen
      omega
    have htot : mem_guarded_get_memory_blocks_in_use st =
        (allocCount tr - freeCount tr) % u32Mod := by
      show st.tot_block = _
      rw [inv.tot, ← hlen]
      rfl
    have hbytes : mem_guarded_get_memory_in_use st =
        ((guardedLedger tr).map Prod.snd).sum % u64Mod := by
      show st.mem_in_use = _
      rw [inv.bytes]
      rfl
    refine ⟨htot, hbytes, hlen, hFA, ?_, ?_⟩
    · intro hsmall
      rw [htot, Nat.mod_eq_of_lt hsmall]
    · intro hsmall
      rw [hbytes, Nat.mod_eq_of_lt hsmall]
  · intro tr st h
    obtain ⟨inv, hcnt⟩ := lockfreeExecAux_inv tr LockfreeState.init [] st lfInv_init h
    simp only [List.length_nil] at hcnt
    have hlen : (lockfreeLedger tr).length = allocCount tr - freeCount tr := by
      unfold lockfreeLedger
      omega
    have hFA : freeCount tr ≤ allocCount tr := by
      unfold lockfreeLedger at hlen
      omega
    have hdvd : u32Mod ∣ u64Mod := by
      rw [u32Mod_lit, u64Mod_lit]
      norm_num
    have htot : mem_lockfree_get_memory_blocks_in_use st =
        (allocCount tr - freeCount tr) % u32Mod := by
      show st.usage.blockNum % u32Mod = _
      rw [inv.blocks_eq, Nat.mod_mod_of_dvd _ hdvd, ← hlen]
      rfl
    have hbytes : mem_lockfree_get_memory_in_use st =
        ((lockfreeLedger tr).map Prod.snd).sum % u64Mod := by
      show st.usage.current = _
      rw [inv.bytes]
      rfl
    refine ⟨htot, hbytes, hlen, hFA, ?_, ?_⟩
    · intro hsmall
      rw [htot, Nat.mod_eq_of_lt hsmall]
    · intro hsmall
      rw [hbytes, Nat.mod_eq_of_lt hsmall]

/-- Witness for C1: a concrete two-call trace (one `calloc`, one matching
free) on each backend; the final states exist and both counters are zero. -/
theorem C1_allocator_accounting_witness :
    (mem_guarded_get_memory_blocks_in_use
        ((guardedExec [AllocOp.callocOp 10 1000,
          AllocOp.freeOp 1056 AllocationType.ALLOC_FREE]).getD GuardedState.init) =
      (allocCount [AllocOp.callocOp 10 1000,
          AllocOp.freeOp 1056 AllocationType.ALLOC_FREE] -
        freeCount [AllocOp.callocOp 10 1000,
          AllocOp.freeOp 1056 AllocationType.ALLOC_FREE]) % u32Mod) ∧
    (mem_lockfree_get_memory_blocks_in_use
        ((lockfreeExec [AllocOp.callocOp 10 1000,
          AllocOp.freeOp 1008 AllocationType.ALLOC_FREE]).getD LockfreeState.init) =
      (allocCount [AllocOp.callocOp 10 1000,
          AllocOp.freeOp 1008 AllocationType.ALLOC_FREE] -
        freeCount [AllocOp.callocOp 10 1000,
          AllocOp.freeOp 1008 AllocationType.ALLOC_FREE]) % u32Mod) := by
  constructor
  · exact (C1_allocator_accounting.1
      [AllocOp.callocOp 10 1000, AllocOp.freeOp 1056 AllocationType.ALLOC_FREE]
      _ (by rfl)).1
  · exact (C1_allocator_accounting.2
      [AllocOp.callocOp 10 1000, AllocOp.freeOp 1008 AllocationType.ALLOC_FREE]
      _ (by rfl)).1

/-! ## The open-addressing hash map (`HashMap.hpp`, `map_slots.hpp`)

The embedding instantiates the class template at `Key = Value = int64`
(modelled as `Nat`; `DefaultHash` for the integer types is the identity on
the value, and any hash function can be plugged in as the `hash` parameter
below), `IsEqual = DefaultEquality` (plain equality), `Slot = SimpleMapSlot`
and the default probing strategy (`PythonProbingStrategy<1, false>`).

A `SimpleMapSlot` is `Empty`, `Occupied` (holding key and value) or
`Removed`.  The map state carries the slot array and the four counters of
`HashMap`; `total_slots` is the length of the slot array.

The default constructor is
`removed_slots_(0), occupied_and_removed_slots_(0), usable_slots_(0),
slot_mask_(0), slots_(1)` — one `Empty` slot.

`add_impl` loops over the probing sequence (macro `MAP_SLOT_PROBING_BEGIN`)
until it finds an `Empty` slot (occupy it, return `true`) or an `Occupied`
slot whose key compares equal (return `false`).  The loop is embedded with
explicit fuel (the C loop is unbounded); `none` means the fuel ran out. -/

inductive MapSlot where
  | empty
  | occupied (key value : Nat)
  | removed
deriving DecidableEq, Repr

/-- `SimpleMapSlot::is_empty`. -/
def MapSlot.is_empty : MapSlot → Bool
  | MapSlot.empty => true
  | _ => false

/-- `SimpleMapSlot::is_occupied`. -/
def MapSlot.is_occupied : MapSlot → Bool
  | MapSlot.occupied _ _ => true
  | _ => false

/-- `SimpleMapSlot::contains(key, is_equal, hash)` with `DefaultEquality`:
true iff the slot is occupied and the stored key equals `key` (the hash
argument is unused by this slot type). -/
def MapSlot.contains (k : Nat) : MapSlot → Bool
  | MapSlot.occupied k' _ => k' == k
  | _ => false

structure HashMapModel where
  removed_slots : Nat
  occupied_and_removed_slots : Nat
  usable_slots : Nat
  slot_mask : Nat
  slots : List MapSlot
deriving DecidableEq, Repr

/-- The default-constructed map. -/
def HashMapModel.init : HashMapModel :=
  { removed_slots := 0, occupied_and_removed_slots := 0, usable_slots := 0
    slot_mask := 0, slots := [MapSlot.empty] }

/-- `HashMap::size()`. -/
def HashMapModel.size (m : HashMapModel) : Nat :=
  m.occupied_and_removed_slots - m.removed_slots

/-- The slot index visited in probing round `r` for initial hash `h0` and
mask `mask` (the default strategy has `LinearSteps = 1`). -/
def probeIdx (h0 mask r : Nat) : Nat := (probingState h0 r).get &&& mask

/-! ### `utildefines.hpp` arithmetic used by the growth computation -/

/-- `is_power_of_2(x)` (int64 version in `utildefines.hpp`). -/
def is_power_of_2 (x : Nat) : Bool := (x &&& (x - 1)) == 0

/-- Structural-recursion helper for `log2_floor` (the fuel argument only
serves termination; `log2_floor_rec` below recovers the source's
recurrence). -/
def log2_floor_fuel : Nat → Nat → Nat
  | 0, _ => 0
  | fuel + 1, x => if x ≤ 1 then 0 else 1 + log2_floor_fuel fuel (x / 2)

/-- `log2_floor(x) = x <= 1 ? 0 : 1 + log2_floor(x >> 1)`. -/
def log2_floor (x : Nat) : Nat := log2_floor_fuel x x

/-- `log2_ceil(x)`. -/
def log2_ceil (x : Nat) : Nat :=
  if is_power_of_2 x then log2_floor x else log2_floor x + 1

/-- `power_of_2_max(x) = 1ll << log2_ceil(x)`. -/
def power_of_2_max (x : Nat) : Nat := 1 <<< log2_ceil x

/-- `ceil_division(x, y)`. -/
def ceil_division (x y : Nat) : Nat := x / y + (if x % y ≠ 0 then 1 else 0)

/-- `ceil_division_by_fraction(x, numerator, denominator)`. -/
def ceil_division_by_fraction (x numerator denominator : Nat) : Nat :=
  ceil_division (x * denominator) numerator

/-- `total_slot_amount_for_usable_slots(min_usable_slots, num, den)`. -/
def total_slot_amount_for_usable_slots (min_usable_slots num den : Nat) : Nat :=
  power_of_2_max (ceil_division_by_fraction min_usable_slots num den)

/-- `default_inline_buffer_capacity(element_size)`. -/
def default_inline_buffer_capacity (element_size : Nat) : Nat :=
  if element_size < 100 then 4 else 0

/-- `InlineBufferCapacity` of `HashMap<int64, int64>`:
`default_inline_buffer_capacity(sizeof(Key) + sizeof(Value))`. -/
def hashMapInlineBufferCapacity : Nat := default_inline_buffer_capacity 16

/-- The `SlotArray` inline size, `LoadFactor::compute_total_slots
(InlineBufferCapacity, 1, 2)`; it is the `min_total_slots` of every growth
computation. -/
def slotArrayMinTotal : Nat :=
  total_slot_amount_for_usable_slots hashMapInlineBufferCapacity 1 2

/-- Modelled from the spec: `LoadFactor::compute_total_and_usable_slots` is a
`todo()` stub in the sources.  Per the specification the table grows to the
next suitable power-of-two slot count (at least the slot array's inline
size, at least enough for the requested usable slots under the load factor)
and the usable-slot count is derived from `total_slots × max_load_factor`
(numerator/denominator, default 1/2). -/
def compute_total_and_usable_slots (num den min_total_slots min_usable_slots : Nat) :
    Nat × Nat :=
  let total := max min_total_slots
    (total_slot_amount_for_usable_slots min_usable_slots num den)
  (total, total * num / den)

/-! ### Insertion -/

/-- The probing loop of `add_impl` (`MAP_SLOT_PROBING_BEGIN` /
`MAP_SLOT_PROBING_END` with the default single linear step). -/
def add_impl_loop (m : HashMapModel) (k v : Nat) :
    PythonProbingStrategy → Nat → Option (Bool × HashMapModel)
  | _, 0 => none
  | s, fuel + 1 =>
    let idx := s.get &&& m.slot_mask
    match m.slots.get? idx with
    | none => none
    | some slot =>
      if slot.is_empty then
        some (true,
          { m with
            slots := m.slots.set idx (MapSlot.occupied k v)
            occupied_and_removed_slots := m.occupied_and_removed_slots + 1 })
      else if slot.contains k then some (false, m)
      else add_impl_loop m k v s.next fuel

/-- Modelled from the spec: the reinsertion of one occupied slot during
growth (the body of the reinsert loop in `realloc_and_reinsert` is a
`todo()` stub).  Per the specification every occupied slot is rehashed into
the new table: probe until the first `Empty` slot and place the entry
there. -/
def growInsertLoop (slots : List MapSlot) (mask k v : Nat) :
    PythonProbingStrategy → Nat → Option (List MapSlot)
  | _, 0 => none
  | s, fuel + 1 =>
    let idx := s.get &&& mask
    match slots.get? idx with
    | none => none
    | some slot =>
      if slot.is_empty then some (slots.set idx (MapSlot.occupied k v))
      else growInsertLoop slots mask k v s.next fuel

/-- Modelled from the spec: rehash all occupied slots of the old table into
the accumulator table (`Removed` slots are dropped). -/
def reinsertAll (hash : Nat → Nat) (fuel : Nat) (mask : Nat) :
    List MapSlot → List MapSlot → Option (List MapSlot)
  | [], acc => some acc
  | s :: rest, acc =>
    match s with
    | MapSlot.occupied k v =>
      match growInsertLoop acc mask k v (PythonProbingStrategy.init (hash k)) fuel with
      | none => none
      | some acc' => reinsertAll hash fuel mask rest acc'
    | _ => reinsertAll hash fuel mask rest acc

/-- `HashMap::realloc_and_reinsert(min_usable_slots)`.  The empty-map fast
path follows the source; the reinsert loop for a non-empty map is a `todo()`
stub in the source and is spec-modelled through `reinsertAll`. -/
def realloc_and_reinsert (hash : Nat → Nat) (fuel : Nat) (m : HashMapModel)
    (min_usable_slots : Nat) : Option HashMapModel :=
  let tu := compute_total_and_usable_slots 1 2 slotArrayMinTotal min_usable_slots
  let new_slot_mask := tu.1 - 1
  if m.size = 0 then
    some { removed_slots := 0, occupied_and_removed_slots := 0
           usable_slots := tu.2, slot_mask := new_slot_mask
           slots := List.replicate tu.1 MapSlot.empty }
  else
    match reinsertAll hash fuel new_slot_mask m.slots
        (List.replicate tu.1 MapSlot.empty) with
    | none => none
    | some newSlots =>
      some { removed_slots := 0
             occupied_and_removed_slots :=
               m.occupied_and_removed_slots - m.removed_slots
             usable_slots := tu.2, slot_mask := new_slot_mask
             slots := newSlots }

/-- `HashMap::ensure_can_add()`. -/
def ensure_can_add (hash : Nat → Nat) (fuel : Nat) (m : HashMapModel) :
    Option HashMapModel :=
  if m.occupied_and_removed_slots ≥ m.usable_slots then
    realloc_and_reinsert hash fuel m (m.size + 1)
  else some m

/-- `HashMap::add(key, value)` → `add_as` → `add_impl(key, hash(key),
value)`. -/
def hashMapAdd (hash : Nat → Nat) (fuel : Nat) (m : HashMapModel)
    (k v : Nat) : Option (Bool × HashMapModel) :=
  match ensure_can_add hash fuel m with
  | none => none
  | some m' => add_impl_loop m' k v (PythonProbingStrategy.init (hash k)) fuel

/-- The number of slots occupied by key `k`. -/
def HashMapModel.countKey (m : HashMapModel) (k : Nat) : Nat :=
  m.slots.countP (fun s => s.contains k)

/-- Slot `i` holds key `k` with value `v`. -/
def HashMapModel.mapsTo (m : HashMapModel) (k v : Nat) : Prop :=
  ∃ i, m.slots.get? i = some (MapSlot.occupied k v)

/-- States of the map reachable from the default-constructed map through
(successfully returning) `add` calls. -/
inductive MapReaches (hash : Nat → Nat) : HashMapModel → Prop where
  | base : MapReaches hash HashMapModel.init
  | step {m m' : HashMapModel} {fuel k v : Nat} {b : Bool} :
      MapReaches hash m → hashMapAdd hash fuel m k v = some (b, m') →
      MapReaches hash m'

/-! ### Arithmetic facts about the growth computation -/

lemma log2_floor_fuel_eq : ∀ f1 f2 x : Nat, x ≤ f1 → x ≤ f2 →
    log2_floor_fuel f1 x = log2_floor_fuel f2 x := by
  intro f1
  induction f1 with
  | zero =>
    intro f2 x h1 _
    cases f2 with
    | zero => rfl
    | succ f2 =>
      show 0 = if x ≤ 1 then 0 else _
      rw [if_pos (by omega)]
  | succ f1 ih =>
    intro f2 x h1 h2
    cases f2 with
    | zero =>
      show (if x ≤ 1 then 0 else _) = 0
      rw [if_pos (by omega)]
    | succ f2 =>
      show (if x ≤ 1 then 0 else 1 + log2_floor_fuel f1 (x / 2)) =
        if x ≤ 1 then 0 else 1 + log2_floor_fuel f2 (x / 2)
      by_cases h : x ≤ 1
      · rw [if_pos h, if_pos h]
      · rw [if_neg h, if_neg h, ih f2 (x / 2) (by omega) (by omega)]

/-- The recurrence of the source's `log2_floor`. -/
lemma log2_floor_rec (x : Nat) :
    log2_floor x = if x ≤ 1 then 0 else 1 + log2_floor (x / 2) := by
  cases x with
  | zero => rfl
  | succ x =>
    show (if x + 1 ≤ 1 then 0 else 1 + log2_floor_fuel x ((x + 1) / 2)) = _
    by_cases h : x + 1 ≤ 1
    · rw [if_pos h, if_pos h]
    · rw [if_neg h, if_neg h,
        log2_floor_fuel_eq x ((x + 1) / 2) ((x + 1) / 2) (by omega) le_rfl]
      rfl

lemma log2_floor_eq_log2 (x : Nat) : log2_floor x = Nat.log2 x := by
  induction x using Nat.strong_induction_on with
  | _ x ih =>
    rw [log2_floor_rec, Nat.log2]
    by_cases h : x ≤ 1
    · rw [if_pos h, if_neg (by omega)]
    · rw [if_neg h, if_pos (by omega), ih (x / 2) (by omega)]
      omega

/-- A nonzero value passing `is_power_of_2` is exactly the power of two given
by its floor logarithm. -/
lemma eq_two_pow_of_is_power_of_2 {x : Nat} (h1 : 1 ≤ x)
    (h : is_power_of_2 x = true) : x = 2 ^ Nat.log2 x := by
  by_contra hne
  have hf1 : 2 ^ Nat.log2 x ≤ x := Nat.log2_self_le (by omega)
  have hf2 : x < 2 ^ (Nat.log2 x + 1) := Nat.lt_log2_self
  have hgt : 2 ^ Nat.log2 x < x := lt_of_le_of_ne hf1 fun hh => hne hh.symm
  rw [pow_succ] at hf2
  have hb1 : x.testBit (Nat.log2 x) = true := by
    rw [Nat.testBit_to_div_mod]
    have hx : x / 2 ^ Nat.log2 x = 1 :=
      Nat.div_eq_of_lt_le (by simpa using hf1) (by omega)
    simp [hx]
  have hb2 : (x - 1).testBit (Nat.log2 x) = true := by
    rw [Nat.testBit_to_div_mod]
    have hx : (x - 1) / 2 ^ Nat.log2 x = 1 :=
      Nat.div_eq_of_lt_le (by omega) (by omega)
    simp [hx]
  have hz : (x &&& (x - 1)).testBit (Nat.log2 x) = true := by
    rw [Nat.testBit_land, hb1, hb2]
    rfl
  have h0 : x &&& (x - 1) = 0 := by simpa [is_power_of_2] using h
  rw [h0] at hz
  simp at hz

lemma power_of_2_max_eq_pow (x : Nat) : power_of_2_max x = 2 ^ log2_ceil x := by
  rw [power_of_2_max, Nat.one_shiftLeft]

/-- `power_of_2_max` never rounds down. -/
lemma le_power_of_2_max (x : Nat) : x ≤ power_of_2_max x := by
  rw [power_of_2_max_eq_pow]
  rcases Nat.eq_zero_or_pos x with hx | hx
  · rw [hx]
    exact Nat.zero_le _
  rw [log2_ceil]
  by_cases h : is_power_of_2 x = true
  · rw [if_pos h, log2_floor_eq_log2]
    exact le_of_eq (eq_two_pow_of_is_power_of_2 hx h)
  · rw [if_neg h, log2_floor_eq_log2]
    exact le_of_lt Nat.lt_log2_self

/-- The total slot count computed for the 1/2 load factor is a power of two
at least `8` and at least twice the requested usable count, and the usable
count is its exact half, hence at least the request. -/
lemma compute_total_and_usable_slots_spec (mu : Nat) :
    (∃ k, (compute_total_and_usable_slots 1 2 slotArrayMinTotal mu).1 = 2 ^ k) ∧
    2 * mu ≤ (compute_total_and_usable_slots 1 2 slotArrayMinTotal mu).1 ∧
    (compute_total_and_usable_slots 1 2 slotArrayMinTotal mu).2 =
      (compute_total_and_usable_slots 1 2 slotArrayMinTotal mu).1 / 2 ∧
    mu ≤ (compute_total_and_usable_slots 1 2 slotArrayMinTotal mu).2 ∧
    2 * (compute_total_and_usable_slots 1 2 slotArrayMinTotal mu).2 ≤
      (compute_total_and_usable_slots 1 2 slotArrayMinTotal mu).1 := by
  set tu := compute_total_and_usable_slots 1 2 slotArrayMinTotal mu with htu
  have hmt : slotArrayMinTotal = 8 := by decide
  have hcd : ceil_division_by_fraction mu 1 2 = 2 * mu := by
    simp [ceil_division_by_fraction, ceil_division, Nat.mod_one, Nat.mul_comm]
  have h1 : tu.1 = max 8 (power_of_2_max (2 * mu)) := by
    show (max slotArrayMinTotal _) = _
    rw [hmt, total_slot_amount_for_usable_slots, hcd]
  have h2 : tu.2 = tu.1 / 2 := by
    show tu.1 * 1 / 2 = tu.1 / 2
    rw [Nat.mul_one]
  have hge : 2 * mu ≤ tu.1 := by
    rw [h1]
    exact le_trans (le_power_of_2_max _) (le_max_right _ _)
  have hpow : ∃ k, tu.1 = 2 ^ k := by
    rw [h1, power_of_2_max_eq_pow]
    rcases le_total 8 (2 ^ log2_ceil (2 * mu)) with hle | hle
    · exact ⟨log2_ceil (2 * mu), by omega⟩
    · exact ⟨3, by norm_num; omega⟩
  refine ⟨hpow, hge, h2, ?_, ?_⟩
  · rw [h2]
    omega
  · rw [h2]
    omega

/-! ### The load-factor invariant -/

/-- The counter/geometry invariant of a map state: the slot count is a power
of two, the mask is the slot count minus one, at most half the slots are
usable, and the occupied+removed counter never exceeds the usable count. -/
structure MapInv (m : HashMapModel) : Prop where
  pow : ∃ k, m.slots.length = 2 ^ k
  mask : m.slot_mask = m.slots.length - 1
  usable_le : 2 * m.usable_slots ≤ m.slots.length
  occ_le : m.occupied_and_removed_slots ≤ m.usable_slots

lemma mapInv_init : MapInv HashMapModel.init := by
  refine ⟨⟨0, rfl⟩, rfl, by decide, le_rfl⟩

lemma growInsertLoop_length : ∀ (fuel : Nat) (s : PythonProbingStrategy)
    (slots slots' : List MapSlot) (mask k v : Nat),
    growInsertLoop slots mask k v s fuel = some slots' →
    slots'.length = slots.length := by
  intro fuel
  induction fuel with
  | zero => intro s slots slots' mask k v h; exact absurd h (by simp [growInsertLoop])
  | succ fuel ih =>
    intro s slots slots' mask k v h
    rw [growInsertLoop] at h
    rcases hg : slots.get? (s.get &&& mask) with _ | slot
    · rw [hg] at h
      exact absurd h (by simp)
    · rw [hg] at h
      dsimp only at h
      by_cases he : slot.is_empty = true
      · rw [if_pos he] at h
        cases h
        exact List.length_set _ _ _
      · rw [if_neg he] at h
        exact ih s.next slots slots' mask k v h

lemma reinsertAll_length : ∀ (rest : List MapSlot) (acc acc' : List MapSlot)
    (hash : Nat → Nat) (fuel mask : Nat),
    reinsertAll hash fuel mask rest acc = some acc' →
    acc'.length = acc.length := by
  intro rest
  induction rest with
  | nil =>
    intro acc acc' hash fuel mask h
    cases h
    rfl
  | cons s rest ih =>
    intro acc acc' hash fuel mask h
    cases s with
    | occupied k v =>
      rw [reinsertAll] at h
      rcases hg : growInsertLoop acc mask k v (PythonProbingStrategy.init (hash k)) fuel
        with _ | acc1
      · rw [hg] at h
        exact absurd h (by simp)
      · rw [hg] at h
        dsimp only at h
        rw [ih acc1 acc' hash fuel mask h,
          growInsertLoop_length fuel _ acc acc1 mask k v hg]
    | empty =>
      rw [reinsertAll] at h
      · exact ih acc acc' hash fuel mask h
      · intro key value hkv
        cases hkv
    | removed =>
      rw [reinsertAll] at h
      · exact ih acc acc' hash fuel mask h
      · intro key value hkv
        cases hkv

/-- What `realloc_and_reinsert` guarantees on success: counters collapse to
the live size, the usable count accommodates the request, and the geometry
fields are consistent. -/
lemma realloc_and_reinsert_spec {hash : Nat → Nat} {fuel : Nat}
    {m m' : HashMapModel} {mu : Nat}
    (h : realloc_and_reinsert hash fuel m mu = some m') :
    m'.occupied_and_removed_slots = m.size ∧
    mu ≤ m'.usable_slots ∧
    (∃ k, m'.slots.length = 2 ^ k) ∧
    m'.slot_mask = m'.slots.length - 1 ∧
    2 * m'.usable_slots ≤ m'.slots.length := by
  obtain ⟨hpow, hge, husable, hmu, h2u⟩ := compute_total_and_usable_slots_spec mu
  rw [realloc_and_reinsert] at h
  by_cases hs : m.size = 0
  · rw [if_pos hs] at h
    cases h
    refine ⟨hs.symm, hmu, ?_, ?_, ?_⟩
    · simpa using hpow
    · simp
    · simpa using h2u
  · rw [if_neg hs] at h
    rcases hr : reinsertAll hash fuel
        ((compute_total_and_usable_slots 1 2 slotArrayMinTotal mu).1 - 1) m.slots
        (List.replicate (compute_total_and_usable_slots 1 2 slotArrayMinTotal mu).1
          MapSlot.empty) with _ | newSlots
    · rw [hr] at h
      exact absurd h (by simp)
    · rw [hr] at h
      cases h
      have hlen : newSlots.length =
          (compute_total_and_usable_slots 1 2 slotArrayMinTotal mu).1 := by
        rw [reinsertAll_length _ _ _ _ _ _ hr, List.length_replicate]
      refine ⟨rfl, hmu, ?_, ?_, ?_⟩
      · show ∃ k, newSlots.length = 2 ^ k
        rw [hlen]
        exact hpow
      · show _ - 1 = newSlots.length - 1
        rw [hlen]
      · show 2 * _ ≤ newSlots.length
        rw [hlen]
        exact h2u

/-- `ensure_can_add` establishes strict headroom and preserves the
invariant (on the slow path the `fassert(occupied_and_removed_slots_ <
usable_slots_)` after reallocation indeed cannot fire). -/
lemma ensure_can_add_spec {hash : Nat → Nat} {fuel : Nat} {m m' : HashMapModel}
    (h : ensure_can_add hash fuel m = some m') (inv : MapInv m) :
    MapInv m' ∧ m'.occupied_and_removed_slots < m'.usable_slots := by
  rw [ensure_can_add] at h
  by_cases hc : m.occupied_and_removed_slots ≥ m.usable_slots
  · rw [if_pos hc] at h
    obtain ⟨hocc, hmu, hpow, hmask, h2u⟩ := realloc_and_reinsert_spec h
    have hlt : m'.occupied_and_removed_slots < m'.usable_slots := by
      rw [hocc]
      have : m.size < m.size + 1 := Nat.lt_succ_self _
      omega
    exact ⟨⟨hpow, hmask, h2u, le_of_lt hlt⟩, hlt⟩
  · rw [if_neg hc] at h
    cases h
    exact ⟨inv, by omega⟩

lemma add_impl_loop_inv : ∀ (fuel : Nat) (s : PythonProbingStrategy)
    (m : HashMapModel) (k v : Nat) (b : Bool) (m' : HashMapModel),
    add_impl_loop m k v s fuel = some (b, m') → MapInv m →
    m.occupied_and_removed_slots < m.usable_slots → MapInv m' := by
  intro fuel
  induction fuel with
  | zero => intro s m k v b m' h; exact absurd h (by simp [add_impl_loop])
  | succ fuel ih =>
    intro s m k v b m' h inv hlt
    rw [add_impl_loop] at h
    rcases hg : m.slots.get? (s.get &&& m.slot_mask) with _ | slot
    · rw [hg] at h
      exact absurd h (by simp)
    · rw [hg] at h
      dsimp only at h
      by_cases he : slot.is_empty = true
      · rw [if_pos he] at h
        cases h
        refine ⟨?_, ?_, ?_, ?_⟩
        · show ∃ k, (m.slots.set _ _).length = 2 ^ k
          rw [List.length_set]
          exact inv.pow
        · show m.slot_mask = (m.slots.set _ _).length - 1
          rw [List.length_set]
          exact inv.mask
        · show 2 * m.usable_slots ≤ (m.slots.set _ _).length
          rw [List.length_set]
          exact inv.usable_le
        · show m.occupied_and_removed_slots + 1 ≤ m.usable_slots
          omega
      · rw [if_neg he] at h
        by_cases hc : slot.contains k = true
        · rw [if_pos hc] at h
          cases h
          exact inv
        · rw [if_neg hc] at h
          exact ih s.next m k v b m' h inv hlt

/-- A successful `add` preserves the invariant. -/
lemma hashMapAdd_inv {hash : Nat → Nat} {fuel : Nat} {m m' : HashMapModel}
    {k v : Nat} {b : Bool} (h : hashMapAdd hash fuel m k v = some (b, m'))
    (inv : MapInv m) : MapInv m' := by
  rw [hashMapAdd] at h
  rcases he : ensure_can_add hash fuel m with _ | m1
  · rw [he] at h
    exact absurd h (by simp)
  · rw [he] at h
    obtain ⟨inv1, hlt1⟩ := ensure_can_add_spec he inv
    exact add_impl_loop_inv fuel _ m1 k v b m' h inv1 hlt1

lemma MapReaches_inv {hash : Nat → Nat} {m : HashMapModel}
    (h : MapReaches hash m) : MapInv m := by
  induction h with
  | base => exact mapInv_init
  | step _ hadd ih => exact hashMapAdd_inv hadd ih

/-- The state obtained by `add(5, 7)` on a default-constructed
`HashMap<int64, int64>` with the identity hash. -/
def mapAfterFirstAdd : HashMapModel :=
  { removed_slots := 0, occupied_and_removed_slots := 1, usable_slots := 4
    slot_mask := 7
    slots := [MapSlot.empty, MapSlot.empty, MapSlot.empty, MapSlot.empty,
      MapSlot.empty, MapSlot.occupied 5 7, MapSlot.empty, MapSlot.empty] }

/-- C6: after every sequence of (successful) insertions into a hash map,
`occupied_and_removed_slots <= usable_slots`, `usable_slots <= total_slots /
2` (default 1/2 load factor), and `slot_mask = total_slots - 1` with
`total_slots` a power of two. -/
theorem C6_load_factor_invariant (hash : Nat → Nat) (m : HashMapModel)
    (h : MapReaches hash m) :
    m.occupied_and_removed_slots ≤ m.usable_slots ∧
    m.usable_slots ≤ m.slots.length / 2 ∧
    m.slot_mask = m.slots.length - 1 ∧
    ∃ k, m.slots.length = 2 ^ k := by
  obtain ⟨hpow, hmask, husable, hocc⟩ := MapReaches_inv h
  exact ⟨hocc, by omega, hmask, hpow⟩

/-- C6 witness: the state after inserting key 5, value 7 into the
default-constructed map satisfies the invariant. -/
theorem C6_load_factor_invariant_witness :
    hashMapAdd (fun k => k) 10 HashMapModel.init 5 7 =
      some (true, mapAfterFirstAdd) ∧
    (mapAfterFirstAdd.occupied_and_removed_slots ≤ mapAfterFirstAdd.usable_slots ∧
     mapAfterFirstAdd.usable_slots ≤ mapAfterFirstAdd.slots.length / 2 ∧
     mapAfterFirstAdd.slot_mask = mapAfterFirstAdd.slots.length - 1 ∧
     ∃ k, mapAfterFirstAdd.slots.length = 2 ^ k) :=
  ⟨by decide, C6_load_factor_invariant (fun k => k) mapAfterFirstAdd
    (MapReaches.step MapReaches.base
      (show hashMapAdd (fun k => k) 10 HashMapModel.init 5 7 =
        some (true, mapAfterFirstAdd) by decide))⟩

/-! ### Well-formedness of the slot table

Beyond the counter invariant, a reachable table satisfies: distinct
occupied slots hold distinct keys; every occupied slot is reachable from its
key's probing sequence through non-empty slots; and the counters tie to the
actual slot contents. -/

/-- No key occupies two distinct slots. -/
def SlotsUniq (slots : List MapSlot) : Prop :=
  ∀ i j k vi vj, slots.get? i = some (MapSlot.occupied k vi) →
    slots.get? j = some (MapSlot.occupied k vj) → i = j

/-- Some slot holds key `k` with value `v`. -/
def slotsMapsTo (slots : List MapSlot) (k v : Nat) : Prop :=
  ∃ i, slots.get? i = some (MapSlot.occupied k v)

/-- Every occupied slot lies on its key's probing sequence, with all earlier
probed slots non-empty (so a lookup probe cannot stop early). -/
def SlotsReach (hash : Nat → Nat) (mask : Nat) (slots : List MapSlot) : Prop :=
  ∀ i k v, slots.get? i = some (MapSlot.occupied k v) →
    ∃ r, probeIdx (hash k) mask r = i ∧
      ∀ r' < r, ∃ slot, slots.get? (probeIdx (hash k) mask r') = some slot ∧
        slot.is_empty = false

/-- `SimpleMapSlot`: the slot holds the `Removed` state. -/
def MapSlot.is_removed : MapSlot → Bool
  | MapSlot.removed => true
  | _ => false

structure MapWf (hash : Nat → Nat) (m : HashMapModel) : Prop where
  uniq : SlotsUniq m.slots
  reach : SlotsReach hash m.slot_mask m.slots
  occ_tie : m.occupied_and_removed_slots =
    m.slots.countP MapSlot.is_occupied + m.slots.countP MapSlot.is_removed
  removed_tie : m.removed_slots = m.slots.countP MapSlot.is_removed

lemma MapSlot.eq_empty_of_is_empty : ∀ {s : MapSlot}, s.is_empty = true →
    s = MapSlot.empty := by
  intro s h
  cases s with
  | empty => rfl
  | occupied k v => exact absurd h (by simp [MapSlot.is_empty])
  | removed => exact absurd h (by simp [MapSlot.is_empty])

lemma MapSlot.contains_iff {k : Nat} : ∀ {s : MapSlot},
    MapSlot.contains k s = true ↔ ∃ v, s = MapSlot.occupied k v := by
  intro s
  cases s with
  | empty => simp [MapSlot.contains]
  | occupied k' v =>
    simp only [MapSlot.contains, beq_iff_eq]
    constructor
    · intro h
      exact ⟨v, by rw [h]⟩
    · intro ⟨v', hv⟩
      cases hv
      rfl
  | removed => simp [MapSlot.contains]

lemma MapSlot.contains_occupied_self (k v : Nat) :
    MapSlot.contains k (MapSlot.occupied k v) = true := by
  simp [MapSlot.contains]

/-- Moving one slot of a list across `countP`. -/
lemma countP_set_slot (p : MapSlot → Bool) :
    ∀ (l : List MapSlot) (i : Nat) (old new : MapSlot),
    l.get? i = some old →
    (l.set i new).countP p + (if p old then 1 else 0) =
      l.countP p + (if p new then 1 else 0) := by
  intro l
  induction l with
  | nil => intro i old new h; cases h
  | cons a l ih =>
    intro i old new h
    cases i with
    | zero =>
      cases h
      show ((new :: l).countP p) + _ = _
      rw [List.countP_cons, List.countP_cons]
      cases hn : p new <;> cases ho : p a <;> simp [hn, ho]
    | succ i =>
      have h' : l.get? i = some old := h
      show ((a :: l.set i new).countP p) + _ = _
      rw [List.countP_cons, List.countP_cons]
      have := ih i old new h'
      omega

lemma SlotsUniq_tail {s : MapSlot} {rest : List MapSlot}
    (h : SlotsUniq (s :: rest)) : SlotsUniq rest := by
  intro i j k vi vj hi hj
  have := h (i + 1) (j + 1) k vi vj (by simpa using hi) (by simpa using hj)
  omega

/-- Distinct keys per slot bound the per-key slot count by one. -/
lemma countP_contains_le_one_of_uniq :
    ∀ (slots : List MapSlot), SlotsUniq slots →
    ∀ k, slots.countP (fun s => MapSlot.contains k s) ≤ 1 := by
  intro slots
  induction slots with
  | nil => intro _ k; simp
  | cons s rest ih =>
    intro h k
    rw [List.countP_cons]
    by_cases hc : MapSlot.contains k s = true
    · obtain ⟨v, hv⟩ := MapSlot.contains_iff.mp hc
      have hrest : rest.countP (fun s => MapSlot.contains k s) = 0 := by
        by_contra hney
        have hpos : 0 < rest.countP (fun s => MapSlot.contains k s) := by omega
        obtain ⟨a, ha, hpa⟩ := List.countP_pos.mp hpos
        obtain ⟨va, hva⟩ := MapSlot.contains_iff.mp hpa
        obtain ⟨j, hj⟩ := List.get?_of_mem ha
        rw [hva] at hj
        have h0 : (s :: rest).get? 0 = some (MapSlot.occupied k v) := by
          simpa using hv
        have hj1 : (s :: rest).get? (j + 1) = some (MapSlot.occupied k va) := by
          simpa using hj
        exact absurd (h 0 (j + 1) k v va h0 hj1) (by omega)
      rw [hrest]
      simp [hc]
    · have hrest := ih (SlotsUniq_tail h) k
      simp [hc]
      exact hrest

/-! ### Behaviour of the probing loops -/

/-- `add_impl` on an absent key: on success it returns `true` and occupies
the first `Empty` slot on the probing sequence (all earlier probed slots
being non-empty), incrementing `occupied_and_removed_slots_`. -/
lemma add_impl_loop_absent : ∀ (fuel j : Nat) (m : HashMapModel) (k v h0 : Nat)
    (b : Bool) (m' : HashMapModel),
    add_impl_loop m k v (probingState h0 j) fuel = some (b, m') →
    (∀ i v0, ¬ m.slots.get? i = some (MapSlot.occupied k v0)) →
    b = true ∧ ∃ r, j ≤ r ∧
      m.slots.get? (probeIdx h0 m.slot_mask r) = some MapSlot.empty ∧
      (∀ r', j ≤ r' → r' < r →
        ∃ slot, m.slots.get? (probeIdx h0 m.slot_mask r') = some slot ∧
          slot.is_empty = false) ∧
      m' = { m with
             slots := m.slots.set (probeIdx h0 m.slot_mask r) (MapSlot.occupied k v)
             occupied_and_removed_slots := m.occupied_and_removed_slots + 1 } := by
  intro fuel
  induction fuel with
  | zero =>
    intro j m k v h0 b m' h
    exact absurd h (by simp [add_impl_loop])
  | succ fuel ih =>
    intro j m k v h0 b m' h habs
    rw [add_impl_loop] at h
    rw [show (probingState h0 j).get &&& m.slot_mask = probeIdx h0 m.slot_mask j
      from rfl] at h
    rcases hg : m.slots.get? (probeIdx h0 m.slot_mask j) with _ | slot
    · rw [hg] at h
      exact absurd h (by simp)
    · rw [hg] at h
      dsimp only at h
      by_cases he : slot.is_empty = true
      · rw [if_pos he] at h
        cases h
        rw [MapSlot.eq_empty_of_is_empty he] at hg
        exact ⟨rfl, j, le_rfl, hg, fun r' h1 h2 => absurd h1 (by omega), rfl⟩
      · rw [if_neg he] at h
        by_cases hc : MapSlot.contains k slot = true
        · obtain ⟨v0, hv0⟩ := MapSlot.contains_iff.mp hc
          rw [hv0] at hg
          exact absurd hg (habs _ _)
        · rw [if_neg hc] at h
          obtain ⟨hb, r, hr, hempty, hpath, hm'⟩ := ih (j + 1) m k v h0 b m' h habs
          refine ⟨hb, r, by omega, hempty, ?_, hm'⟩
          intro r' h1 h2
          by_cases hj : r' = j
          · subst hj
            exact ⟨slot, hg, by simpa using he⟩
          · exact hpath r' (by omega) h2

/-- `add_impl` on a key present at probing round `r0` (with all earlier
probed slots non-empty and not holding the key): any successful run returns
`false` and leaves the map unchanged. -/
lemma add_impl_loop_present_char {m : HashMapModel} {k v h0 r0 v0 : Nat}
    (hat : m.slots.get? (probeIdx h0 m.slot_mask r0) =
      some (MapSlot.occupied k v0))
    (hpath : ∀ r' < r0, ∃ slot,
      m.slots.get? (probeIdx h0 m.slot_mask r') = some slot ∧
      slot.is_empty = false ∧ MapSlot.contains k slot = false) :
    ∀ (fuel j : Nat) (b : Bool) (m' : HashMapModel), j ≤ r0 →
    add_impl_loop m k v (probingState h0 j) fuel = some (b, m') →
    b = false ∧ m' = m := by
  intro fuel
  induction fuel with
  | zero =>
    intro j b m' _ h
    exact absurd h (by simp [add_impl_loop])
  | succ fuel ih =>
    intro j b m' hj h
    rw [add_impl_loop] at h
    rw [show (probingState h0 j).get &&& m.slot_mask = probeIdx h0 m.slot_mask j
      from rfl] at h
    by_cases hjr : j = r0
    · subst hjr
      rw [hat] at h
      dsimp only at h
      rw [if_neg (by simp [MapSlot.is_empty]),
        if_pos (MapSlot.contains_occupied_self k v0)] at h
      cases h
      exact ⟨rfl, rfl⟩
    · obtain ⟨slot, hg, hne, hnc⟩ := hpath j (by omega)
      rw [hg] at h
      dsimp only at h
      rw [if_neg (by simp [hne]), if_neg (by simp [hnc])] at h
      exact ih (j + 1) b m' (by omega) h

/-- Companion existence form: with fuel `r0 + 1` the probing loop does
terminate with `(false, m)`. -/
lemma add_impl_loop_present_exists {m : HashMapModel} {k v h0 r0 v0 : Nat}
    (hat : m.slots.get? (probeIdx h0 m.slot_mask r0) =
      some (MapSlot.occupied k v0))
    (hpath : ∀ r' < r0, ∃ slot,
      m.slots.get? (probeIdx h0 m.slot_mask r') = some slot ∧
      slot.is_empty = false ∧ MapSlot.contains k slot = false) :
    ∀ (d j : Nat), j + d = r0 →
    add_impl_loop m k v (probingState h0 j) (d + 1) = some (false, m) := by
  intro d
  induction d with
  | zero =>
    intro j hj
    rw [add_impl_loop]
    rw [show (probingState h0 j).get &&& m.slot_mask = probeIdx h0 m.slot_mask j
      from rfl]
    have hj0 : j = r0 := by omega
    subst hj0
    rw [hat]
    dsimp only
    rw [if_neg (by simp [MapSlot.is_empty]),
      if_pos (MapSlot.contains_occupied_self k v0)]
  | succ d ih =>
    intro j hj
    rw [add_impl_loop]
    rw [show (probingState h0 j).get &&& m.slot_mask = probeIdx h0 m.slot_mask j
      from rfl]
    obtain ⟨slot, hg, hne, hnc⟩ := hpath j (by omega)
    rw [hg]
    dsimp only
    rw [if_neg (by simp [hne]), if_neg (by simp [hnc])]
    exact ih (j + 1) (by omega)

/-- The reinsert placement loop: on success it occupies the first `Empty`
slot on the probing sequence. -/
lemma growInsertLoop_spec : ∀ (fuel j : Nat) (slots : List MapSlot)
    (mask k v : Nat) (slots' : List MapSlot) (h0 : Nat),
    growInsertLoop slots mask k v (probingState h0 j) fuel = some slots' →
    ∃ r, j ≤ r ∧ slots.get? (probeIdx h0 mask r) = some MapSlot.empty ∧
      (∀ r', j ≤ r' → r' < r →
        ∃ slot, slots.get? (probeIdx h0 mask r') = some slot ∧
          slot.is_empty = false) ∧
      slots' = slots.set (probeIdx h0 mask r) (MapSlot.occupied k v) := by
  intro fuel
  induction fuel with
  | zero =>
    intro j slots mask k v slots' h0 h
    exact absurd h (by simp [growInsertLoop])
  | succ fuel ih =>
    intro j slots mask k v slots' h0 h
    rw [growInsertLoop] at h
    rw [show (probingState h0 j).get &&& mask = probeIdx h0 mask j from rfl] at h
    rcases hg : slots.get? (probeIdx h0 mask j) with _ | slot
    · rw [hg] at h
      exact absurd h (by simp)
    · rw [hg] at h
      dsimp only at h
      by_cases he : slot.is_empty = true
      · rw [if_pos he] at h
        cases h
        rw [MapSlot.eq_empty_of_is_empty he] at hg
        exact ⟨j, le_rfl, hg, fun r' h1 h2 => absurd h1 (by omega), rfl⟩
      · rw [if_neg he] at h
        obtain ⟨r, hr, hempty, hpath, hs'⟩ := ih (j + 1) slots mask k v slots' h0 h
        refine ⟨r, by omega, hempty, ?_, hs'⟩
        intro r' h1 h2
        by_cases hj : r' = j
        · subst hj
          exact ⟨slot, hg, by simpa using he⟩
        · exact hpath r' (by omega) h2

/-! ### Preservation of well-formedness by a single occupy -/

lemma lt_length_of_get?_eq_some {l : List MapSlot} {i : Nat} {s : MapSlot}
    (h : l.get? i = some s) : i < l.length :=
  (List.get?_eq_some.mp h).1

/-- Setting a non-empty slot preserves "the probed slot is non-empty". -/
lemma nonempty_at_set {slots : List MapSlot} {i : Nat} {new : MapSlot}
    (hne : new.is_empty = false) (j : Nat)
    (h : ∃ slot, slots.get? j = some slot ∧ slot.is_empty = false) :
    ∃ slot, (slots.set i new).get? j = some slot ∧ slot.is_empty = false := by
  obtain ⟨slot, hg, hs⟩ := h
  by_cases hij : i = j
  · subst hij
    exact ⟨new, List.get?_set_eq_of_lt new (lt_length_of_get?_eq_some hg), hne⟩
  · exact ⟨slot, by rw [List.get?_set_ne new slots hij]; exact hg, hs⟩

/-- Contents after occupying one (previously empty) slot. -/
lemma slotsMapsTo_set_empty {slots : List MapSlot} {i : Nat}
    (he : slots.get? i = some MapSlot.empty) (k0 v0 : Nat) (k v : Nat) :
    slotsMapsTo (slots.set i (MapSlot.occupied k0 v0)) k v ↔
      (k = k0 ∧ v = v0) ∨ slotsMapsTo slots k v := by
  constructor
  · intro ⟨j, hj⟩
    by_cases hij : i = j
    · subst hij
      rw [List.get?_set_eq_of_lt _ (lt_length_of_get?_eq_some he)] at hj
      have := (Option.some.injEq _ _).mp hj
      cases this
      exact Or.inl ⟨rfl, rfl⟩
    · rw [List.get?_set_ne _ _ hij] at hj
      exact Or.inr ⟨j, hj⟩
  · intro h
    rcases h with ⟨hk, hv⟩ | ⟨j, hj⟩
    · subst hk
      subst hv
      exact ⟨i, List.get?_set_eq_of_lt _ (lt_length_of_get?_eq_some he)⟩
    · have hij : i ≠ j := by
        intro hcontra
        subst hcontra
        rw [he] at hj
        cases hj
      exact ⟨j, by rw [List.get?_set_ne _ _ hij]; exact hj⟩

/-- From reachability and key-uniqueness, every occupied key has a minimal
probing round, on whose strict prefix no slot is empty or holds the key. -/
lemma reach_minimal {hash : Nat → Nat} {mask : Nat} {slots : List MapSlot}
    (huniq : SlotsUniq slots) (hreach : SlotsReach hash mask slots)
    {i k v : Nat} (h : slots.get? i = some (MapSlot.occupied k v)) :
    ∃ r0, probeIdx (hash k) mask r0 = i ∧
      ∀ r' < r0, ∃ slot, slots.get? (probeIdx (hash k) mask r') = some slot ∧
        slot.is_empty = false ∧ MapSlot.contains k slot = false := by
  obtain ⟨r, hri, hpath⟩ := hreach i k v h
  have hex : ∃ n, probeIdx (hash k) mask n = i := ⟨r, hri⟩
  refine ⟨Nat.find hex, Nat.find_spec hex, ?_⟩
  intro r' hr'
  have hle : Nat.find hex ≤ r := Nat.find_min' hex hri
  obtain ⟨slot, hg, hne⟩ := hpath r' (by omega)
  refine ⟨slot, hg, hne, ?_⟩
  by_contra hc
  rw [Bool.not_eq_false] at hc
  obtain ⟨v', hv'⟩ := MapSlot.contains_iff.mp hc
  rw [hv'] at hg
  have : probeIdx (hash k) mask r' = i := huniq _ _ k v' v hg h
  exact Nat.find_min hex hr' this

/-- Occupying the first empty slot on an absent key's probing sequence
preserves key-uniqueness and reachability. -/
lemma occupy_wf {hash : Nat → Nat} {mask : Nat} {slots : List MapSlot}
    {k0 v0 r : Nat}
    (huniq : SlotsUniq slots) (hreach : SlotsReach hash mask slots)
    (habs : ∀ i v, ¬ slots.get? i = some (MapSlot.occupied k0 v))
    (hempty : slots.get? (probeIdx (hash k0) mask r) = some MapSlot.empty)
    (hpath : ∀ r' < r, ∃ slot,
      slots.get? (probeIdx (hash k0) mask r') = some slot ∧
        slot.is_empty = false) :
    SlotsUniq (slots.set (probeIdx (hash k0) mask r) (MapSlot.occupied k0 v0)) ∧
    SlotsReach hash mask
      (slots.set (probeIdx (hash k0) mask r) (MapSlot.occupied k0 v0)) := by
  set i := probeIdx (hash k0) mask r with hidef
  have hilt : i < slots.length := lt_length_of_get?_eq_some hempty
  constructor
  · intro i1 i2 k vi vj h1 h2
    by_cases hi1 : i = i1
    · by_cases hi2 : i = i2
      · omega
      · subst hi1
        rw [List.get?_set_eq_of_lt _ hilt] at h1
        have := (Option.some.injEq _ _).mp h1
        cases this
        rw [List.get?_set_ne _ _ hi2] at h2
        exact absurd h2 (habs _ _)
    · by_cases hi2 : i = i2
      · subst hi2
        rw [List.get?_set_eq_of_lt _ hilt] at h2
        have := (Option.some.injEq _ _).mp h2
        cases this
        rw [List.get?_set_ne _ _ hi1] at h1
        exact absurd h1 (habs _ _)
      · rw [List.get?_set_ne _ _ hi1] at h1
        rw [List.get?_set_ne _ _ hi2] at h2
        exact huniq i1 i2 k vi vj h1 h2
  · intro i1 k v h1
    by_cases hi1 : i = i1
    · subst hi1
      rw [List.get?_set_eq_of_lt _ hilt] at h1
      have := (Option.some.injEq _ _).mp h1
      cases this
      refine ⟨r, hidef.symm, ?_⟩
      intro r' hr'
      exact nonempty_at_set (by rfl) _ (hpath r' hr')
    · rw [List.get?_set_ne _ _ hi1] at h1
      obtain ⟨r1, hr1, hpath1⟩ := hreach i1 k v h1
      refine ⟨r1, hr1, ?_⟩
      intro r' hr'
      exact nonempty_at_set (by rfl) _ (hpath1 r' hr')

/-! ### Preservation of well-formedness by the growth rehash -/

lemma reinsertAll_wf : ∀ (rest : List MapSlot) (acc acc' : List MapSlot)
    (hash : Nat → Nat) (fuel mask : Nat),
    reinsertAll hash fuel mask rest acc = some acc' →
    SlotsUniq acc → SlotsReach hash mask acc →
    (∀ k, rest.countP (fun s => MapSlot.contains k s) ≤ 1) →
    (∀ k v, MapSlot.occupied k v ∈ rest → ∀ v', ¬ slotsMapsTo acc k v') →
    SlotsUniq acc' ∧ SlotsReach hash mask acc' ∧
    (∀ k v, slotsMapsTo acc' k v ↔
      slotsMapsTo acc k v ∨ MapSlot.occupied k v ∈ rest) ∧
    acc'.countP MapSlot.is_occupied =
      acc.countP MapSlot.is_occupied + rest.countP MapSlot.is_occupied ∧
    acc'.countP MapSlot.is_removed = acc.countP MapSlot.is_removed := by
  intro rest
  induction rest with
  | nil =>
    intro acc acc' hash fuel mask h huniq hreach _ _
    cases h
    refine ⟨huniq, hreach, ?_, by simp, rfl⟩
    intro k v
    simp
  | cons s rest ih =>
    intro acc acc' hash fuel mask h huniq hreach hcount hdisj
    cases s with
    | occupied k0 v0 =>
      rw [reinsertAll] at h
      rcases hg : growInsertLoop acc mask k0 v0
          (PythonProbingStrategy.init (hash k0)) fuel with _ | acc1
      · rw [hg] at h
        exact absurd h (by simp)
      · rw [hg] at h
        dsimp only at h
        obtain ⟨r, _, hempty, hpath, hs'⟩ :=
          growInsertLoop_spec fuel 0 acc mask k0 v0 acc1 (hash k0) hg
        have habs0 : ∀ i v, ¬ acc.get? i = some (MapSlot.occupied k0 v) :=
          fun i v hcontra =>
            hdisj k0 v0 (List.mem_cons_self _ _) v ⟨i, hcontra⟩
        have hpath0 : ∀ r' < r, ∃ slot,
            acc.get? (probeIdx (hash k0) mask r') = some slot ∧
              slot.is_empty = false :=
          fun r' hr' => hpath r' (Nat.zero_le _) hr'
        obtain ⟨huniq1, hreach1⟩ :=
          occupy_wf huniq hreach habs0 hempty hpath0
        rw [← hs'] at huniq1 hreach1
        have hcontent1 : ∀ k v, slotsMapsTo acc1 k v ↔
            (k = k0 ∧ v = v0) ∨ slotsMapsTo acc k v := by
          intro k v
          rw [hs']
          exact slotsMapsTo_set_empty hempty k0 v0 k v
        have hoccc1 : acc1.countP MapSlot.is_occupied =
            acc.countP MapSlot.is_occupied + 1 := by
          have := countP_set_slot MapSlot.is_occupied acc
            (probeIdx (hash k0) mask r) MapSlot.empty
            (MapSlot.occupied k0 v0) hempty
          rw [← hs'] at this
          simpa [MapSlot.is_occupied] using this
        have hremc1 : acc1.countP MapSlot.is_removed =
            acc.countP MapSlot.is_removed := by
          have := countP_set_slot MapSlot.is_removed acc
            (probeIdx (hash k0) mask r) MapSlot.empty
            (MapSlot.occupied k0 v0) hempty
          rw [← hs'] at this
          simpa [MapSlot.is_removed] using this
        have hcount' : ∀ k, rest.countP (fun s => MapSlot.contains k s) ≤ 1 :=
          fun k => le_trans
            (List.Sublist.countP_le _ (List.sublist_cons_self _ _)) (hcount k)
        have hdisj' : ∀ k v, MapSlot.occupied k v ∈ rest →
            ∀ v', ¬ slotsMapsTo acc1 k v' := by
          intro k v hmem v' hmt
          rcases (hcontent1 k v').mp hmt with ⟨hk, _⟩ | hacc
          · have hco : (fun s => MapSlot.contains k s)
                (MapSlot.occupied k0 v0) = true := by
              show MapSlot.contains k (MapSlot.occupied k0 v0) = true
              rw [hk]
              exact MapSlot.contains_occupied_self k0 v0
            have h1 := hcount k
            rw [List.countP_cons_of_pos _ _ hco] at h1
            have h2 : 0 < rest.countP (MapSlot.contains k) :=
              List.countP_pos.mpr
                ⟨MapSlot.occupied k v, hmem, MapSlot.contains_occupied_self k v⟩
            omega
          · exact hdisj k v (List.mem_cons_of_mem _ hmem) v' hacc
        obtain ⟨huniq', hreach', hcontent', hoccc', hremc'⟩ :=
          ih acc1 acc' hash fuel mask h huniq1 hreach1 hcount' hdisj'
        refine ⟨huniq', hreach', ?_, ?_, ?_⟩
        · intro k v
          rw [hcontent' k v, hcontent1 k v, List.mem_cons]
          constructor
          · rintro ((⟨hk, hv⟩ | hacc) | hrest)
            · exact Or.inr (Or.inl (by rw [hk, hv]))
            · exact Or.inl hacc
            · exact Or.inr (Or.inr hrest)
          · rintro (hacc | (heq | hrest))
            · exact Or.inl (Or.inr hacc)
            · cases heq
              exact Or.inl (Or.inl ⟨rfl, rfl⟩)
            · exact Or.inr hrest
        · rw [hoccc', hoccc1, List.countP_cons]
          simp [MapSlot.is_occupied]
          omega
        · rw [hremc', hremc1]
    | empty =>
      rw [reinsertAll] at h
      · obtain ⟨huniq', hreach', hcontent', hoccc', hremc'⟩ :=
          ih acc acc' hash fuel mask h huniq hreach
            (fun k => le_trans
              (List.Sublist.countP_le _ (List.sublist_cons_self _ _)) (hcount k))
            (fun k v hmem => hdisj k v (List.mem_cons_of_mem _ hmem))
        refine ⟨huniq', hreach', ?_, ?_, hremc'⟩
        · intro k v
          rw [hcontent' k v, List.mem_cons]
          simp
        · rw [hoccc', List.countP_cons]
          simp [MapSlot.is_occupied]
      · intro key value hkv
        cases hkv
    | removed =>
      rw [reinsertAll] at h
      · obtain ⟨huniq', hreach', hcontent', hoccc', hremc'⟩ :=
          ih acc acc' hash fuel mask h huniq hreach
            (fun k => le_trans
              (List.Sublist.countP_le _ (List.sublist_cons_self _ _)) (hcount k))
            (fun k v hmem => hdisj k v (List.mem_cons_of_mem _ hmem))
        refine ⟨huniq', hreach', ?_, ?_, hremc'⟩
        · intro k v
          rw [hcontent' k v, List.mem_cons]
          simp
        · rw [hoccc', List.countP_cons]
          simp [MapSlot.is_occupied]
      · intro key value hkv
        cases hkv

lemma no_occupied_replicate (n : Nat) : ∀ (i k v : Nat),
    ¬ (List.replicate n MapSlot.empty).get? i = some (MapSlot.occupied k v) := by
  intro i k v h
  have hm : MapSlot.occupied k v ∈ List.replicate n MapSlot.empty :=
    List.get?_mem h
  cases List.eq_of_mem_replicate hm

lemma countP_replicate_empty {p : MapSlot → Bool} (hp : p MapSlot.empty = false)
    (n : Nat) : (List.replicate n MapSlot.empty).countP p = 0 := by
  apply List.countP_eq_zero.mpr
  intro a ha
  rw [List.eq_of_mem_replicate ha]
  simp [hp]

lemma slotsMapsTo_iff_mem {slots : List MapSlot} {k v : Nat} :
    slotsMapsTo slots k v ↔ MapSlot.occupied k v ∈ slots :=
  ⟨fun ⟨_, h⟩ => List.get?_mem h, fun hm => List.get?_of_mem hm⟩

/-- A map whose `size()` is zero has no occupied slot (given the counter
ties). -/
lemma no_occupied_of_size_zero {hash : Nat → Nat} {m : HashMapModel}
    (hwf : MapWf hash m) (hs : m.size = 0) :
    ∀ (i k v : Nat), ¬ m.slots.get? i = some (MapSlot.occupied k v) := by
  intro i k v h
  have hocc := hwf.occ_tie
  have hrem := hwf.removed_tie
  have hsz : m.occupied_and_removed_slots - m.removed_slots = 0 := hs
  have hcnt : m.slots.countP MapSlot.is_occupied = 0 := by omega
  have hpos : 0 < m.slots.countP MapSlot.is_occupied :=
    List.countP_pos.mpr ⟨MapSlot.occupied k v, List.get?_mem h, rfl⟩
  omega

/-- `realloc_and_reinsert` preserves well-formedness and the key/value
contents. -/
lemma realloc_and_reinsert_wf {hash : Nat → Nat} {fuel : Nat}
    {m m' : HashMapModel} {mu : Nat}
    (h : realloc_and_reinsert hash fuel m mu = some m')
    (hwf : MapWf hash m) :
    MapWf hash m' ∧
    ∀ k v, slotsMapsTo m'.slots k v ↔ slotsMapsTo m.slots k v := by
  rw [realloc_and_reinsert] at h
  by_cases hs : m.size = 0
  · rw [if_pos hs] at h
    cases h
    constructor
    · refine ⟨?_, ?_, ?_, ?_⟩
      · intro i j k vi vj h1 h2
        exact absurd h1 (no_occupied_replicate _ _ _ _)
      · intro i k v h1
        exact absurd h1 (no_occupied_replicate _ _ _ _)
      · show 0 = _
        rw [countP_replicate_empty rfl, countP_replicate_empty rfl]
      · show 0 = _
        rw [countP_replicate_empty rfl]
    · intro k v
      constructor
      · intro ⟨i, hi⟩
        exact absurd hi (no_occupied_replicate _ _ _ _)
      · intro ⟨i, hi⟩
        exact absurd hi (no_occupied_of_size_zero hwf hs _ _ _)
  · rw [if_neg hs] at h
    rcases hr : reinsertAll hash fuel
        ((compute_total_and_usable_slots 1 2 slotArrayMinTotal mu).1 - 1) m.slots
        (List.replicate (compute_total_and_usable_slots 1 2 slotArrayMinTotal mu).1
          MapSlot.empty) with _ | newSlots
    · rw [hr] at h
      exact absurd h (by simp)
    · rw [hr] at h
      cases h
      obtain ⟨huniq', hreach', hcontent', hoccc', hremc'⟩ :=
        reinsertAll_wf m.slots _ newSlots hash fuel _ hr
          (fun i j k vi vj h1 h2 =>
            absurd h1 (no_occupied_replicate _ _ _ _))
          (fun i k v h1 => absurd h1 (no_occupied_replicate _ _ _ _))
          (countP_contains_le_one_of_uniq m.slots hwf.uniq)
          (fun k v _ v' ⟨i, hi⟩ => absurd hi (no_occupied_replicate _ _ _ _))
      have hocc := hwf.occ_tie
      have hrem := hwf.removed_tie
      constructor
      · refine ⟨huniq', hreach', ?_, ?_⟩
        · show m.occupied_and_removed_slots - m.removed_slots = _
          rw [hoccc', hremc', countP_replicate_empty rfl,
            countP_replicate_empty rfl]
          omega
        · show 0 = _
          rw [hremc', countP_replicate_empty rfl]
      · intro k v
        show slotsMapsTo newSlots k v ↔ slotsMapsTo m.slots k v
        rw [hcontent' k v]
        constructor
        · rintro (⟨i, hi⟩ | hm)
          · exact absurd hi (no_occupied_replicate _ _ _ _)
          · exact slotsMapsTo_iff_mem.mpr hm
        · intro hmt
          exact Or.inr (slotsMapsTo_iff_mem.mp hmt)

/-- `ensure_can_add` preserves well-formedness and contents. -/
lemma ensure_can_add_wf {hash : Nat → Nat} {fuel : Nat} {m m' : HashMapModel}
    (h : ensure_can_add hash fuel m = some m') (hwf : MapWf hash m) :
    MapWf hash m' ∧
    ∀ k v, slotsMapsTo m'.slots k v ↔ slotsMapsTo m.slots k v := by
  rw [ensure_can_add] at h
  by_cases hc : m.occupied_and_removed_slots ≥ m.usable_slots
  · rw [if_pos hc] at h
    exact realloc_and_reinsert_wf h hwf
  · rw [if_neg hc] at h
    cases h
    exact ⟨hwf, fun k v => Iff.rfl⟩

lemma mapWf_init (hash : Nat → Nat) : MapWf hash HashMapModel.init := by
  have hno : ∀ (i k v : Nat),
      ¬ (HashMapModel.init.slots.get? i) = some (MapSlot.occupied k v) := by
    intro i k v h
    cases i with
    | zero => cases h
    | succ i => cases i <;> cases h
  refine ⟨?_, ?_, rfl, rfl⟩
  · intro i j k vi vj h1 _
    exact absurd h1 (hno _ _ _)
  · intro i k v h1
    exact absurd h1 (hno _ _ _)

/-! ### `add` at the map level -/

/-- Any successful `add` preserves well-formedness. -/
lemma hashMapAdd_wf {hash : Nat → Nat} {fuel : Nat} {m m' : HashMapModel}
    {k v : Nat} {b : Bool} (h : hashMapAdd hash fuel m k v = some (b, m'))
    (hwf : MapWf hash m) : MapWf hash m' := by
  rw [hashMapAdd] at h
  rcases he : ensure_can_add hash fuel m with _ | m1
  · rw [he] at h
    exact absurd h (by simp)
  · rw [he] at h
    obtain ⟨hwf1, _⟩ := ensure_can_add_wf he hwf
    by_cases hp : ∃ i v0, m1.slots.get? i = some (MapSlot.occupied k v0)
    · obtain ⟨i, v0, hi⟩ := hp
      obtain ⟨r0, hr0i, hpath⟩ := reach_minimal hwf1.uniq hwf1.reach hi
      rw [← hr0i] at hi
      obtain ⟨_, hm'⟩ :=
        add_impl_loop_present_char hi hpath fuel 0 b m' (Nat.zero_le _) h
      rw [hm']
      exact hwf1
    · push_neg at hp
      obtain ⟨_, r, _, hempty, hpath, hm'⟩ :=
        add_impl_loop_absent fuel 0 m1 k v (hash k) b m' h hp
      obtain ⟨huniq', hreach'⟩ := occupy_wf hwf1.uniq hwf1.reach hp hempty
        (fun r' hr' => hpath r' (Nat.zero_le _) hr')
      have hoccs := countP_set_slot MapSlot.is_occupied m1.slots
        (probeIdx (hash k) m1.slot_mask r) MapSlot.empty
        (MapSlot.occupied k v) hempty
      have hrems := countP_set_slot MapSlot.is_removed m1.slots
        (probeIdx (hash k) m1.slot_mask r) MapSlot.empty
        (MapSlot.occupied k v) hempty
      rw [show MapSlot.is_occupied MapSlot.empty = false from rfl,
        show MapSlot.is_occupied (MapSlot.occupied k v) = true from rfl,
        if_neg (show ¬(false = true) by decide), if_pos rfl] at hoccs
      rw [show MapSlot.is_removed MapSlot.empty = false from rfl,
        show MapSlot.is_removed (MapSlot.occupied k v) = false from rfl,
        if_neg (show ¬(false = true) by decide)] at hrems
      have hot := hwf1.occ_tie
      have hrt := hwf1.removed_tie
      rw [hm']
      refine ⟨huniq', hreach', ?_, ?_⟩
      · show m1.occupied_and_removed_slots + 1 =
          (m1.slots.set (probeIdx (hash k) m1.slot_mask r)
            (MapSlot.occupied k v)).countP MapSlot.is_occupied +
          (m1.slots.set (probeIdx (hash k) m1.slot_mask r)
            (MapSlot.occupied k v)).countP MapSlot.is_removed
        omega
      · show m1.removed_slots =
          (m1.slots.set (probeIdx (hash k) m1.slot_mask r)
            (MapSlot.occupied k v)).countP MapSlot.is_removed
        omega

lemma MapReaches_wf {hash : Nat → Nat} {m : HashMapModel}
    (h : MapReaches hash m) : MapWf hash m := by
  induction h with
  | base => exact mapWf_init hash
  | step _ hadd ih => exact hashMapAdd_wf hadd ih

/-- Successful `add` of an absent key: returns `true`, occupies exactly one
slot with the key, and that slot holds the given value. -/
lemma hashMapAdd_absent {hash : Nat → Nat} {fuel : Nat} {m m' : HashMapModel}
    {k v : Nat} {b : Bool} (hwf : MapWf hash m)
    (habs : ∀ v0, ¬ slotsMapsTo m.slots k v0)
    (h : hashMapAdd hash fuel m k v = some (b, m')) :
    b = true ∧ m'.countKey k = 1 ∧ slotsMapsTo m'.slots k v := by
  rw [hashMapAdd] at h
  rcases he : ensure_can_add hash fuel m with _ | m1
  · rw [he] at h
    exact absurd h (by simp)
  · rw [he] at h
    obtain ⟨hwf1, hcontent1⟩ := ensure_can_add_wf he hwf
    have habs1 : ∀ i v0, ¬ m1.slots.get? i = some (MapSlot.occupied k v0) :=
      fun i v0 hcontra => habs v0 ((hcontent1 k v0).mp ⟨i, hcontra⟩)
    obtain ⟨hb, r, _, hempty, _, hm'⟩ :=
      add_impl_loop_absent fuel 0 m1 k v (hash k) b m' h habs1
    have hcnt0 : m1.slots.countP (fun s => s.contains k) = 0 := by
      apply List.countP_eq_zero.mpr
      intro a ha hpa
      obtain ⟨va, hva⟩ := MapSlot.contains_iff.mp hpa
      rw [hva] at ha
      exact habs1 _ _ (List.get?_of_mem ha).choose_spec
    have hcnts := countP_set_slot (fun s => s.contains k) m1.slots
      (probeIdx (hash k) m1.slot_mask r) MapSlot.empty
      (MapSlot.occupied k v) hempty
    rw [show (fun s => MapSlot.contains k s) MapSlot.empty = false from rfl,
      show (fun s => MapSlot.contains k s) (MapSlot.occupied k v) = true from
        MapSlot.contains_occupied_self k v,
      if_neg (show ¬(false = true) by decide), if_pos rfl] at hcnts
    refine ⟨hb, ?_, ?_⟩
    · rw [hm']
      show (m1.slots.set _ _).countP (fun s => s.contains k) = 1
      omega
    · rw [hm']
      exact ⟨probeIdx (hash k) m1.slot_mask r,
        List.get?_set_eq_of_lt _ (lt_length_of_get?_eq_some hempty)⟩

/-- Below the growth threshold, `add` of a present key succeeds with enough
fuel, returns `false` and leaves the state bit-for-bit unchanged. -/
lemma hashMapAdd_present_exists {hash : Nat → Nat} {m : HashMapModel}
    {k v : Nat} (hwf : MapWf hash m)
    (hlt : m.occupied_and_removed_slots < m.usable_slots)
    {i v0 : Nat} (hi : m.slots.get? i = some (MapSlot.occupied k v0)) :
    ∃ fuel, hashMapAdd hash fuel m k v = some (false, m) := by
  obtain ⟨r0, hr0i, hpath⟩ := reach_minimal hwf.uniq hwf.reach hi
  rw [← hr0i] at hi
  refine ⟨r0 + 1, ?_⟩
  rw [hashMapAdd]
  have he : ensure_can_add hash (r0 + 1) m = some m := by
    rw [ensure_can_add, if_neg (by omega)]
  rw [he]
  exact add_impl_loop_present_exists hi hpath r0 0 (by omega)

/-- Below the growth threshold, every successful `add` of a present key
returns `false` and performs no mutation. -/
lemma hashMapAdd_present_char {hash : Nat → Nat} {fuel : Nat}
    {m m' : HashMapModel} {k v : Nat} {b : Bool} (hwf : MapWf hash m)
    (hlt : m.occupied_and_removed_slots < m.usable_slots)
    {i v0 : Nat} (hi : m.slots.get? i = some (MapSlot.occupied k v0))
    (h : hashMapAdd hash fuel m k v = some (b, m')) :
    b = false ∧ m' = m := by
  rw [hashMapAdd] at h
  have he : ensure_can_add hash fuel m = some m := by
    rw [ensure_can_add, if_neg (by omega)]
  rw [he] at h
  obtain ⟨r0, hr0i, hpath⟩ := reach_minimal hwf.uniq hwf.reach hi
  rw [← hr0i] at hi
  exact add_impl_loop_present_char hi hpath fuel 0 b m' (Nat.zero_le _) h

/-! ### C2: duplicate-insertion semantics -/

/-- A sequence of `add` calls (inserted values paired with their keys),
discarding the returned booleans. -/
def addSeq (hash : Nat → Nat) (fuel : Nat) :
    List (Nat × Nat) → HashMapModel → Option HashMapModel
  | [], m => some m
  | (k, v) :: rest, m =>
    match hashMapAdd hash fuel m k v with
    | none => none
    | some (_, m') => addSeq hash fuel rest m'

/-- The map (identity hash) after adding keys 0..3: exactly at the growth
threshold (`occupied_and_removed_slots = usable_slots = 4`). -/
def mapAtThreshold : HashMapModel :=
  { removed_slots := 0, occupied_and_removed_slots := 4, usable_slots := 4
    slot_mask := 7
    slots := [MapSlot.occupied 0 10, MapSlot.occupied 1 11,
      MapSlot.occupied 2 12, MapSlot.occupied 3 13,
      MapSlot.empty, MapSlot.empty, MapSlot.empty, MapSlot.empty] }

/-- The result of the duplicate `add(0, 99)` on `mapAtThreshold`: the table
was reallocated (mask 7 → 15) even though the insertion failed. -/
def mapAfterDupGrow : HashMapModel :=
  { removed_slots := 0, occupied_and_removed_slots := 4, usable_slots := 8
    slot_mask := 15
    slots := [MapSlot.occupied 0 10, MapSlot.occupied 1 11,
      MapSlot.occupied 2 12, MapSlot.occupied 3 13,
      MapSlot.empty, MapSlot.empty, MapSlot.empty, MapSlot.empty,
      MapSlot.empty, MapSlot.empty, MapSlot.empty, MapSlot.empty,
      MapSlot.empty, MapSlot.empty, MapSlot.empty, MapSlot.empty] }

/-- C2 counterexample: on the reachable map holding keys 0..3 (which sits
exactly at the growth threshold), a second `add` of the already-present key
0 returns `false` as claimed, but does NOT leave the map unmutated: the
table is reallocated and rehashed first (`slot_mask` changes from 7 to 15),
contradicting the claim's "performs no mutation" for this input. -/
theorem C2_duplicate_insertion_counterexample :
    addSeq (fun k => k) 20 [(0, 10), (1, 11), (2, 12), (3, 13)]
      HashMapModel.init = some mapAtThreshold ∧
    mapAtThreshold.mapsTo 0 10 ∧
    hashMapAdd (fun k => k) 20 mapAtThreshold 0 99 =
      some (false, mapAfterDupGrow) ∧
    mapAfterDupGrow ≠ mapAtThreshold := by
  refine ⟨by decide, ⟨0, rfl⟩, by decide, by decide⟩

/-- C2 (amended): on every reachable map, a successful first `add` of an
absent key returns `true`, occupies exactly one slot with that key and
stores the given value; a second `add` of the same key returns `false`, and
— provided the map is strictly below the growth threshold — performs no
mutation at all, so exactly one entry with the first value remains.  (At
the threshold the duplicate `add` first reallocates the table; see the
counterexample.) -/
theorem C2_duplicate_insertion (hash : Nat → Nat) (m : HashMapModel)
    (hr : MapReaches hash m) (k v1 fuel : Nat) (b : Bool) (m' : HashMapModel)
    (habs : ∀ v0, ¬ m.mapsTo k v0)
    (h1 : hashMapAdd hash fuel m k v1 = some (b, m')) :
    b = true ∧ m'.countKey k = 1 ∧ m'.mapsTo k v1 ∧
    (m'.occupied_and_removed_slots < m'.usable_slots →
      (∀ v2, ∃ fuel2, hashMapAdd hash fuel2 m' k v2 = some (false, m')) ∧
      (∀ v2 fuel2 b2 m'', hashMapAdd hash fuel2 m' k v2 = some (b2, m'') →
        b2 = false ∧ m'' = m')) := by
  have hwf := MapReaches_wf hr
  obtain ⟨hb, hcnt, hmt⟩ := hashMapAdd_absent hwf habs h1
  have hwf' := hashMapAdd_wf h1 hwf
  obtain ⟨i, hi⟩ := hmt
  refine ⟨hb, hcnt, ⟨i, hi⟩, ?_⟩
  intro hlt
  constructor
  · intro v2
    exact hashMapAdd_present_exists hwf' hlt hi
  · intro v2 fuel2 b2 m'' h2
    exact hashMapAdd_present_char hwf' hlt hi h2

/-- C2 witness: insert key 5 (value 7) into the fresh map; the slot count
for key 5 is one, the entry maps to 7, and a duplicate add of key 5 leaves
the state unchanged with result `false`. -/
theorem C2_duplicate_insertion_witness :
    true = true ∧ mapAfterFirstAdd.countKey 5 = 1 ∧
    mapAfterFirstAdd.mapsTo 5 7 ∧
    (mapAfterFirstAdd.occupied_and_removed_slots <
        mapAfterFirstAdd.usable_slots →
      (∀ v2, ∃ fuel2, hashMapAdd (fun k => k) fuel2 mapAfterFirstAdd 5 v2 =
        some (false, mapAfterFirstAdd)) ∧
      (∀ v2 fuel2 b2 m'',
        hashMapAdd (fun k => k) fuel2 mapAfterFirstAdd 5 v2 =
          some (b2, m'') → b2 = false ∧ m'' = mapAfterFirstAdd)) :=
  C2_duplicate_insertion (fun k => k) HashMapModel.init MapReaches.base 5 7 10
    true mapAfterFirstAdd
    (fun v0 h => by
      obtain ⟨i, hi⟩ := h
      cases i with
      | zero => cases hi
      | succ n => cases hi)
    (by decide)

/-! ### C8: `VectorMap::add`

`VectorMap` holds a map and a vector; `add(key, value)` first appends the
value (`vector_.append_and_get_index(value)` returns the pre-append size and
then appends) and then attempts `map_.add(key, index)`, returning that
result — with no rollback of the append on failure.  The vector is embedded
as a Lean list; its growth path (`realloc_to_at_least`) is a `todo()` stub
in `Vector.hpp` and is spec-modelled as element-preserving, which the list
append is. -/

structure VectorMapModel where
  map : HashMapModel
  vector : List Nat

/-- `Vector::append_and_get_index(value)`: returns the old size, then
appends. -/
def append_and_get_index (vec : List Nat) (value : Nat) : Nat × List Nat :=
  (vec.length, vec ++ [value])

/-- `VectorMap::add(key, value)`. -/
def vectorMapAdd (hash : Nat → Nat) (fuel : Nat) (vm : VectorMapModel)
    (key value : Nat) : Option (Bool × VectorMapModel) :=
  let iv := append_and_get_index vm.vector value
  match hashMapAdd hash fuel vm.map key iv.1 with
  | none => none
  | some (b, m') => some (b, { map := m', vector := iv.2 })

/-- A key already present keeps `add` returning `false` for any fuel on
which it succeeds. -/
lemma hashMapAdd_present_general {hash : Nat → Nat} {fuel : Nat}
    {m m' : HashMapModel} {k v : Nat} {b : Bool} (hwf : MapWf hash m)
    {v0 : Nat} (hp : slotsMapsTo m.slots k v0)
    (h : hashMapAdd hash fuel m k v = some (b, m')) : b = false := by
  rw [hashMapAdd] at h
  rcases he : ensure_can_add hash fuel m with _ | m1
  · rw [he] at h
    exact absurd h (by simp)
  · rw [he] at h
    obtain ⟨hwf1, hcontent⟩ := ensure_can_add_wf he hwf
    obtain ⟨i, hi⟩ := (hcontent k v0).mpr hp
    obtain ⟨r0, hr0i, hpath⟩ := reach_minimal hwf1.uniq hwf1.reach hi
    rw [← hr0i] at hi
    exact (add_impl_loop_present_char hi hpath fuel 0 b m' (Nat.zero_le _) h).1

/-- C8: `VectorMap::add` appends before inserting and does not roll back:
every successful `add` grows the backing vector by exactly the appended
value; when the key is already present the map insertion returns `false`
(below the growth threshold the map part is returned bit-for-bit unchanged,
leaving the appended value orphaned); for a new key it returns `true` and
maps the key to the pre-append vector size. -/
theorem C8_vector_map_no_rollback (hash : Nat → Nat) (vm : VectorMapModel)
    (hr : MapReaches hash vm.map) (k v : Nat) :
    (∀ fuel b vm', vectorMapAdd hash fuel vm k v = some (b, vm') →
      vm'.vector = vm.vector ++ [v]) ∧
    ((∃ v0, vm.map.mapsTo k v0) →
      (∀ fuel b vm', vectorMapAdd hash fuel vm k v = some (b, vm') →
        b = false) ∧
      (vm.map.occupied_and_removed_slots < vm.map.usable_slots →
        ∃ fuel, vectorMapAdd hash fuel vm k v =
          some (false, { map := vm.map, vector := vm.vector ++ [v] }))) ∧
    ((∀ v0, ¬ vm.map.mapsTo k v0) →
      ∀ fuel b vm', vectorMapAdd hash fuel vm k v = some (b, vm') →
      b = true ∧ vm'.map.mapsTo k vm.vector.length ∧
        vm'.map.countKey k = 1) := by
  have hwf := MapReaches_wf hr
  refine ⟨?_, ?_, ?_⟩
  · intro fuel b vm' h
    rw [vectorMapAdd] at h
    rw [show (append_and_get_index vm.vector v).1 = vm.vector.length
      from rfl] at h
    rcases ha : hashMapAdd hash fuel vm.map k vm.vector.length with _ | bm
    · rw [ha] at h
      exact absurd h (by simp)
    · rw [ha] at h
      cases h
      rfl
  · intro ⟨v0, hp⟩
    constructor
    · intro fuel b vm' h
      rw [vectorMapAdd] at h
      rw [show (append_and_get_index vm.vector v).1 = vm.vector.length
        from rfl] at h
      rcases ha : hashMapAdd hash fuel vm.map k vm.vector.length with _ | bm
      · rw [ha] at h
        exact absurd h (by simp)
      · rw [ha] at h
        cases h
        rcases bm with ⟨b1, m1⟩
        exact hashMapAdd_present_general hwf hp ha
    · intro hlt
      obtain ⟨i, hi⟩ := hp
      obtain ⟨fuel, hadd⟩ :=
        hashMapAdd_present_exists hwf hlt (v := vm.vector.length) hi
      refine ⟨fuel, ?_⟩
      rw [vectorMapAdd]
      rw [show (append_and_get_index vm.vector v).1 = vm.vector.length
        from rfl]
      rw [hadd]
      rfl
  · intro habs fuel b vm' h
    rw [vectorMapAdd] at h
    rw [show (append_and_get_index vm.vector v).1 = vm.vector.length
      from rfl] at h
    rcases ha : hashMapAdd hash fuel vm.map k vm.vector.length with _ | bm
    · rw [ha] at h
      exact absurd h (by simp)
    · rw [ha] at h
      cases h
      rcases bm with ⟨b1, m1⟩
      obtain ⟨hb, hcnt, hmt⟩ := hashMapAdd_absent hwf habs ha
      exact ⟨hb, hmt, hcnt⟩

/-- C8 witness: on an empty `VectorMap` (identity hash), `add(5, 7)`
appends 7 at index 0, maps 5 to 0 and returns `true`; a duplicate
`add(5, 8)` appends 8 but returns `false`, with the map part unchanged. -/
theorem C8_vector_map_no_rollback_witness :
    (∀ fuel b vm',
      vectorMapAdd (fun k => k) fuel ⟨HashMapModel.init, []⟩ 5 7 =
        some (b, vm') → vm'.vector = [] ++ [7]) ∧
    ((∃ v0, HashMapModel.init.mapsTo 5 v0) →
      (∀ fuel b vm',
        vectorMapAdd (fun k => k) fuel ⟨HashMapModel.init, []⟩ 5 7 =
          some (b, vm') → b = false) ∧
      (HashMapModel.init.occupied_and_removed_slots <
          HashMapModel.init.usable_slots →
        ∃ fuel, vectorMapAdd (fun k => k) fuel ⟨HashMapModel.init, []⟩ 5 7 =
          some (false, { map := HashMapModel.init, vector := [] ++ [7] }))) ∧
    ((∀ v0, ¬ HashMapModel.init.mapsTo 5 v0) →
      ∀ fuel b vm',
        vectorMapAdd (fun k => k) fuel ⟨HashMapModel.init, []⟩ 5 7 =
          some (b, vm') →
        b = true ∧ vm'.map.mapsTo 5 (List.length ([] : List Nat)) ∧
          vm'.map.countKey 5 = 1) :=
  C8_vector_map_no_rollback (fun k => k) ⟨HashMapModel.init, []⟩
    MapReaches.base 5 7
